import Mathlib

/-!
# dwm window-state engine: embedding of `dwm.c` and verified properties

The definitions below are a shallow embedding of the window-state part of
`src/dwm.c`.  Conventions of the embedding:

* A `Client *` is represented by the window id of the client (`win`); the
  `next` links of `m->clients` are the order of the list `Monitor.clients`,
  the `snext` links of `m->stack` are the order of the id list `Monitor.stack`.
* `ISVISIBLE(C)` dereferences `C->mon`.  Clients are only ever reached through
  the lists of their own monitor, so monitor-level functions take that monitor
  as an argument.
* C `int` is `Int` (signed overflow is undefined behaviour and is not
  modelled); C `unsigned int` is `Nat` with explicit reduction modulo `2^32`
  where the source computes in unsigned arithmetic (`tile`).
* C `float` values (`mfact`, `mina`, `maxa`) are read as exact rationals.
* Calls into Xlib that only talk to the X server have no effect on the
  embedded state and are left out; data read from the server is a field of the
  record it belongs to (`Client.normalhints`) or an argument.
* `config.h` and the globals set up by `setup` are the fields of `Env`.
-/

namespace Dwm

/-- Window ids of the X server. -/
abbrev Window := Nat

/-! ## Machine integers -/

/-- Conversion of an `int` to `unsigned int` (32 bit). -/
def u32 (z : Int) : Nat := (z % 4294967296).toNat

/-- Conversion of an `unsigned int` to `int` (two's complement, 32 bit). -/
def i32 (n : Nat) : Int :=
  if n % 4294967296 < 2147483648 then ((n % 4294967296 : Nat) : Int)
  else ((n % 4294967296 : Nat) : Int) - 4294967296

/-- Addition of `unsigned int`. -/
def uadd (a b : Nat) : Nat := (a + b) % 4294967296

/-- Subtraction of `unsigned int`. -/
def usub (a b : Nat) : Nat := (a + 4294967296 - b % 4294967296) % 4294967296

/-! ## Floats -/

/-- The position of the highest set bit of `n` (`floor(log2 n)`, 0 for `n < 2`),
by halving at most `fuel` times. -/
def log2fuel : Nat → Nat → Nat
  | 0, _ => 0
  | fuel + 1, n => if n < 2 then 0 else log2fuel fuel (n / 2) + 1

/-- The integer nearest to `n / d` for `d > 0`, a tie going to the even one. -/
def rne (n d : Nat) : Nat :=
  if 2 * (n % d) < d then n / d
  else if d < 2 * (n % d) then n / d + 1
  else if (n / d) % 2 = 0 then n / d else n / d + 1

/-- The binary exponent of `a / b` for positive `a` and `b`: the `e` with
`2^e <= a / b < 2^(e + 1)`. -/
def flog2 (a b : Nat) : Int :=
  let d : Int := (log2fuel a a : Int) - (log2fuel b b : Int)
  if b * 2 ^ d.toNat ≤ a * 2 ^ (-d).toNat then d else d - 1

/-- Rounding of the non-negative rational `a / b` to a `float` (24 significant
bits, round to nearest, ties to even; the exponent range is not limited): the
result is `M * 2^s` for the pair `(M, s)`. -/
def f32round (a b : Nat) : Nat × Int :=
  if a = 0 then (0, 0)
  else
    let s := flog2 a b - 23
    (rne (a * 2 ^ (-s).toNat) (b * 2 ^ s.toNat), s)

/-- Conversion of a non-negative `int` to `float`.  Up to `2^24` the conversion
is exact; beyond, C leaves the choice between the two neighbouring floats to
the implementation, and the lower one is taken. -/
def f32int (w : Nat) : Nat :=
  w / 2 ^ (log2fuel w w - 23) * 2 ^ (log2fuel w w - 23)

/-- The `float` product of the `int` `w` and the `float` nearest to `num / den`
(all non-negative), truncated to a natural number. -/
def f32mul (w num den : Nat) : Nat :=
  let q := f32round num den
  let p := f32round (f32int w * q.1 * 2 ^ q.2.toNat) (2 ^ (-q.2).toNat)
  p.1 * 2 ^ p.2.toNat / 2 ^ (-p.2).toNat

/-! ## Data model -/

/-- The `XSizeHints` record of Xlib, as far as `updatesizehints` reads it. -/
structure XSizeHints where
  flags : Nat
  base_width : Int
  base_height : Int
  min_width : Int
  min_height : Int
  max_width : Int
  max_height : Int
  width_inc : Int
  height_inc : Int
  min_aspect_x : Int
  min_aspect_y : Int
  max_aspect_x : Int
  max_aspect_y : Int
deriving DecidableEq

/-- The struct `Client`.  `normalhints` is the `WM_NORMAL_HINTS` property of the
window as `XGetWMNormalHints` would return it (`none` when the call fails). -/
structure Client where
  name : String
  mina : Rat
  maxa : Rat
  x : Int
  y : Int
  w : Int
  h : Int
  oldx : Int
  oldy : Int
  oldw : Int
  oldh : Int
  basew : Int
  baseh : Int
  incw : Int
  inch : Int
  maxw : Int
  maxh : Int
  minw : Int
  minh : Int
  hintsvalid : Int
  bw : Int
  oldbw : Int
  tags : Nat
  isfixed : Int
  isfloating : Int
  isurgent : Int
  neverfocus : Int
  oldstate : Int
  isfullscreen : Int
  mon : Nat
  win : Window
  normalhints : Option XSizeHints
deriving DecidableEq

/-- The two arrange functions a `Layout` can point to. -/
inductive ArrangeFn where
  | tile
  | monocle
deriving DecidableEq

/-- The struct `Layout`; a null `arrange` pointer is `none`. -/
structure Layout where
  symbol : String
  arrange : Option ArrangeFn
deriving DecidableEq

/-- The struct `Monitor`.  The arrays `tagset[2]` and `lt[2]` are the field
pairs `tagset0`, `tagset1` and `lt0`, `lt1`; their indices `seltags` and
`sellt` range over `Fin 2`. -/
structure Monitor where
  ltsymbol : String
  mfact : Rat
  nmaster : Int
  num : Int
  bary : Int
  mx : Int
  my : Int
  mw : Int
  mh : Int
  wx : Int
  wy : Int
  ww : Int
  wh : Int
  seltags : Fin 2
  sellt : Fin 2
  tagset0 : Nat
  tagset1 : Nat
  showbar : Int
  topbar : Int
  clients : List Client
  sel : Option Window
  stack : List Window
  barwin : Window
  lt0 : Layout
  lt1 : Layout
deriving DecidableEq

/-- The struct `Rule` of the rule table in `config.h`; a null string is `none`. -/
structure Rule where
  cls : Option String
  instance_ : Option String
  title : Option String
  tags : Nat
  isfloating : Int
  monitor : Int
deriving DecidableEq

/-- The four out-parameters `x, y, w, h` of `applysizehints`. -/
structure Geom where
  x : Int
  y : Int
  w : Int
  h : Int
deriving DecidableEq

/-- The configuration of `config.h` and the globals fixed by `setup`.
`ntags` is `LENGTH(tags)`.  `hintstail` stands for the part of `applysizehints`
after the computation of `baseismin` (size-hint arithmetic on `w` and `h`),
which the source file does not contain. -/
structure Env where
  ntags : Nat
  rules : List Rule
  resizehints : Int
  lockfullscreen : Int
  borderpx : Int
  snap : Int
  bh : Int
  sw : Int
  sh : Int
  hintstail : Client → Int → Int → Int × Int

/-- The macro `TAGMASK`: `(1 << LENGTH(tags)) - 1`. -/
def TAGMASK (e : Env) : Nat := 2 ^ e.ntags - 1

/-- The macro `WIDTH`. -/
def WIDTH (c : Client) : Int := c.w + 2 * c.bw

/-- The macro `HEIGHT`. -/
def HEIGHT (c : Client) : Int := c.h + 2 * c.bw

/-- Read `m->tagset[i]`. -/
def Monitor.tagset (m : Monitor) (i : Fin 2) : Nat :=
  if i = 0 then m.tagset0 else m.tagset1

/-- Write `m->tagset[i] = v`. -/
def Monitor.setTagset (m : Monitor) (i : Fin 2) (v : Nat) : Monitor :=
  if i = 0 then { m with tagset0 := v } else { m with tagset1 := v }

/-- Read `m->lt[i]`. -/
def Monitor.lt (m : Monitor) (i : Fin 2) : Layout :=
  if i = 0 then m.lt0 else m.lt1

/-- Write `m->lt[i] = l`. -/
def Monitor.setLt (m : Monitor) (i : Fin 2) (l : Layout) : Monitor :=
  if i = 0 then { m with lt0 := l } else { m with lt1 := l }

/-- The macro `ISVISIBLE`, for a client `c` of monitor `m`. -/
def ISVISIBLE (m : Monitor) (c : Client) : Nat :=
  c.tags &&& m.tagset m.seltags

/-- Dereference a client pointer: the first client of `m` with window `w`. -/
def Monitor.client? (m : Monitor) (w : Window) : Option Client :=
  m.clients.find? (fun c => c.win == w)

/-- Apply `f` to the first client of the list with window `w`. -/
def modifyFirst (w : Window) (f : Client → Client) : List Client → List Client
  | [] => []
  | c :: cs => if c.win = w then f c :: cs else c :: modifyFirst w f cs

/-- Store through a client pointer: apply `f` to the client of `m` that
`Monitor.client?` finds for window `w`. -/
def Monitor.modifyClient (m : Monitor) (w : Window) (f : Client → Client) : Monitor :=
  { m with clients := modifyFirst w f m.clients }

/-- The current geometry `(x, y, w, h)` of a client. -/
def Client.geom (c : Client) : Geom := { x := c.x, y := c.y, w := c.w, h := c.h }

/-! ## Geometry and size hints -/

/-- The function `resizeclient`: save the old geometry and store the new one. -/
def resizeclient (c : Client) (x y w h : Int) : Client :=
  { c with oldx := c.x, x := x, oldy := c.y, y := y,
           oldw := c.w, w := w, oldh := c.h, h := h }

/-- The local `size` of `updatesizehints` after the call of
`XGetWMNormalHints`: the hints of the window, or a record with
`flags = PSize` (8) when the call fails (the other fields, which are then
uninitialised and unused, are zero). -/
def getnormalhints (c : Client) : XSizeHints :=
  match c.normalhints with
  | some s => s
  | none => { flags := 8, base_width := 0, base_height := 0, min_width := 0,
              min_height := 0, max_width := 0, max_height := 0, width_inc := 0,
              height_inc := 0, min_aspect_x := 0, min_aspect_y := 0,
              max_aspect_x := 0, max_aspect_y := 0 }

/-- The function `updatesizehints`, reading the size hints of the window.
The flag values `PMinSize` = 16, `PMaxSize` = 32, `PResizeInc` = 64,
`PAspect` = 128 and `PBaseSize` = 256 are those of Xutil.h.  Each field is
given by the branch of the source that assigns it. -/
def updatesizehints (c : Client) : Client :=
  let size := getnormalhints c
  let maxw := if size.flags &&& 32 ≠ 0 then size.max_width else 0
  let maxh := if size.flags &&& 32 ≠ 0 then size.max_height else 0
  let minw := if size.flags &&& 16 ≠ 0 then size.min_width
              else if size.flags &&& 256 ≠ 0 then size.base_width else 0
  let minh := if size.flags &&& 16 ≠ 0 then size.min_height
              else if size.flags &&& 256 ≠ 0 then size.base_height else 0
  { c with
    basew := if size.flags &&& 256 ≠ 0 then size.base_width
             else if size.flags &&& 16 ≠ 0 then size.min_width else 0,
    baseh := if size.flags &&& 256 ≠ 0 then size.base_height
             else if size.flags &&& 16 ≠ 0 then size.min_height else 0,
    incw := if size.flags &&& 64 ≠ 0 then size.width_inc else 0,
    inch := if size.flags &&& 64 ≠ 0 then size.height_inc else 0,
    maxw := maxw,
    maxh := maxh,
    minw := minw,
    minh := minh,
    mina := if size.flags &&& 128 ≠ 0 then
              (size.min_aspect_y : Rat) / (size.min_aspect_x : Rat) else 0,
    maxa := if size.flags &&& 128 ≠ 0 then
              (size.max_aspect_x : Rat) / (size.max_aspect_y : Rat) else 0,
    isfixed := if maxw ≠ 0 ∧ maxh ≠ 0 ∧ maxw = minw ∧ maxh = minh then 1 else 0,
    hintsvalid := 1 }

/-- The clamping steps of `applysizehints` (source lines 318-343): floor the
size at 1, keep the rectangle on the screen (`interact`) or on the work area of
the monitor, floor the size at the bar height. -/
def applysizehintsClamp (e : Env) (m : Monitor) (c : Client) (x y w h : Int)
    (interact : Int) : Geom :=
  let w := max 1 w
  let h := max 1 h
  let x1 := if interact ≠ 0 then (if x > e.sw then e.sw - WIDTH c else x)
            else (if x ≥ m.wx + m.ww then m.wx + m.ww - WIDTH c else x)
  let y1 := if interact ≠ 0 then (if y > e.sh then e.sh - HEIGHT c else y)
            else (if y ≥ m.wy + m.wh then m.wy + m.wh - HEIGHT c else y)
  let x2 := if interact ≠ 0 then (if x1 + w + 2 * c.bw < 0 then 0 else x1)
            else (if x1 + w + 2 * c.bw ≤ m.wx then m.wx else x1)
  let y2 := if interact ≠ 0 then (if y1 + h + 2 * c.bw < 0 then 0 else y1)
            else (if y1 + h + 2 * c.bw ≤ m.wy then m.wy else y1)
  let h := if h < e.bh then e.bh else h
  let w := if w < e.bh then e.bh else w
  { x := x2, y := y2, w := w, h := h }

/-- The function `applysizehints` for a client `c` of monitor `m`.  Returns the
client (its cached hints may have been refreshed), the adjusted rectangle and
the return value.  The clamping steps and the guard of the size-hint block are
those of the source; the size-hint arithmetic is `Env.hintstail`; the return
value is the one the specification gives (the rectangle differs from the
current geometry of the client). -/
def applysizehints (e : Env) (m : Monitor) (c : Client) (x y w h : Int)
    (interact : Int) : Client × Geom × Bool :=
  let g := applysizehintsClamp e m c x y w h interact
  if e.resizehints ≠ 0 ∨ c.isfloating ≠ 0 ∨ (m.lt m.sellt).arrange = none then
    let c1 := if c.hintsvalid = 0 then updatesizehints c else c
    let wh := e.hintstail c1 g.w g.h
    let g1 : Geom := { x := g.x, y := g.y, w := wh.1, h := wh.2 }
    (c1, g1, decide (g1 ≠ c1.geom))
  else
    (c, g, decide (g ≠ c.geom))

/-- The function `resize`. -/
def resize (e : Env) (m : Monitor) (c : Client) (x y w h : Int) (interact : Int) : Client :=
  let r := applysizehints e m c x y w h interact
  if r.2.2 then resizeclient r.1 r.2.1.x r.2.1.y r.2.1.w r.2.1.h else r.1

/-! ## Layout engine -/

/-- The function `nexttiled`: the rest of the client list from the first client
that is visible and not floating (`[]` for a null result). -/
def nexttiled (m : Monitor) : List Client → List Client
  | [] => []
  | c :: cs =>
    if c.isfloating ≠ 0 ∨ ISVISIBLE m c = 0 then nexttiled m cs else c :: cs

/-- The counting loop of `tile`:
`for (n = 0, c = nexttiled(m->clients); c; c = nexttiled(c->next), n++);`.
The traversal visits exactly the clients that `nexttiled` does not skip. -/
def tilecount (m : Monitor) : List Client → Nat
  | [] => 0
  | c :: cs =>
    if c.isfloating ≠ 0 ∨ ISVISIBLE m c = 0 then tilecount m cs else tilecount m cs + 1

/-- The conversion of the `float` product `m->ww * m->mfact` to `unsigned int`:
`ww` is converted to `float` and multiplied with the `float` that the field
`mfact` holds (the float nearest to the value of `mfact`); the product is
rounded to a `float` and truncated.  A negative product, whose conversion C
leaves undefined, is taken modulo 2^32. -/
def mfactmul (m : Monitor) : Nat :=
  let t := f32mul m.ww.natAbs m.mfact.num.natAbs m.mfact.den
  if (m.ww < 0 ∧ 0 < m.mfact.num) ∨ (0 < m.ww ∧ m.mfact.num < 0) then u32 (-(t : Int))
  else t % 4294967296

/-- The master width `mw` computed by `tile` for `n` tiled clients. -/
def tilemw (m : Monitor) (n : Nat) : Nat :=
  if n > u32 m.nmaster then
    (if m.nmaster ≠ 0 then mfactmul m else 0)
  else u32 m.ww

/-- The rectangle `tile` hands to `resize` for the master client `c` at loop
index `i` and master offset `my`. -/
def tilemaster (m : Monitor) (n mw i my : Nat) (c : Client) : Geom :=
  let h := usub (u32 m.wh) my / usub (min n (u32 m.nmaster)) i
  { x := m.wx,
    y := i32 (uadd (u32 m.wy) my),
    w := i32 (usub mw (u32 (2 * c.bw))),
    h := i32 (usub h (u32 (2 * c.bw))) }

/-- The rectangle `tile` hands to `resize` for the stack client `c` at loop
index `i` and stack offset `ty`. -/
def tilestack (m : Monitor) (n mw i ty : Nat) (c : Client) : Geom :=
  let h := usub (u32 m.wh) ty / usub n i
  { x := i32 (uadd (u32 m.wx) mw),
    y := i32 (uadd (u32 m.wy) ty),
    w := i32 (usub (usub (u32 m.ww) mw) (u32 (2 * c.bw))),
    h := i32 (usub h (u32 (2 * c.bw))) }

/-- The placement loop of `tile`, from loop state `(i, my, ty)` over the rest
of the client list; clients skipped by `nexttiled` are left as they are. -/
def tileloop (e : Env) (m : Monitor) (n mw : Nat) :
    Nat → Nat → Nat → List Client → List Client
  | _, _, _, [] => []
  | i, my, ty, c :: cs =>
    if c.isfloating ≠ 0 ∨ ISVISIBLE m c = 0 then
      c :: tileloop e m n mw i my ty cs
    else if i < u32 m.nmaster then
      let g := tilemaster m n mw i my c
      let c1 := resize e m c g.x g.y g.w g.h 0
      let my1 := if uadd my (u32 (HEIGHT c1)) < u32 m.wh then uadd my (u32 (HEIGHT c1)) else my
      c1 :: tileloop e m n mw (i + 1) my1 ty cs
    else
      let g := tilestack m n mw i ty c
      let c1 := resize e m c g.x g.y g.w g.h 0
      let ty1 := if uadd ty (u32 (HEIGHT c1)) < u32 m.wh then uadd ty (u32 (HEIGHT c1)) else ty
      c1 :: tileloop e m n mw (i + 1) my ty1 cs

/-- The function `tile`. -/
def tile (e : Env) (m : Monitor) : Monitor :=
  let n := tilecount m m.clients
  if n = 0 then m
  else { m with clients := tileloop e m n (tilemw m n) 0 0 0 m.clients }

/-- The function `monocle`.  `snprintf` with `"[%d]"` writes the decimal count
between brackets. -/
def monocle (e : Env) (m : Monitor) : Monitor :=
  let n := m.clients.countP (fun c => decide (ISVISIBLE m c ≠ 0))
  let m1 := if n > 0 then { m with ltsymbol := "[" ++ toString n ++ "]" } else m
  { m1 with clients := m1.clients.map (fun c =>
      if c.isfloating ≠ 0 ∨ ISVISIBLE m1 c = 0 then c
      else resize e m1 c m1.wx m1.wy (m1.ww - 2 * c.bw) (m1.wh - 2 * c.bw) 0) }

/-- The function `showhide`, walking the focus stack from the given position.
Visible clients that float (or live in the floating layout) and are not
fullscreen are passed through `resize`; moving windows on the server has no
effect on the state.  An id without a client in `m->clients` is skipped. -/
def showhide (e : Env) : Monitor → List Window → Monitor
  | m, [] => m
  | m, w :: ws =>
    match m.client? w with
    | none => showhide e m ws
    | some c =>
      if ISVISIBLE m c ≠ 0 then
        if ((m.lt m.sellt).arrange = none ∨ c.isfloating ≠ 0) ∧ c.isfullscreen = 0 then
          showhide e (m.modifyClient w (fun c => resize e m c c.x c.y c.w c.h 0)) ws
        else showhide e m ws
      else showhide e m ws

/-- The function `restack`: it redraws the bar and restacks windows on the
server, and changes nothing in the state. -/
def restack (m : Monitor) : Monitor := m

/-- Modelled from the spec: `arrangemon` is absent from the source file; by
section 4.D the current arrange function of the monitor, if any, is invoked. -/
def arrangemon (e : Env) (m : Monitor) : Monitor :=
  match (m.lt m.sellt).arrange with
  | some ArrangeFn.tile => tile e m
  | some ArrangeFn.monocle => monocle e m
  | none => m

/-- Modelled from the spec: `arrange` is absent from the source file; by
section 4.D, for a non-null monitor it runs `showhide(m->stack)`, then the
current arrange function, then `restack(m)`. -/
def arrange (e : Env) (m : Monitor) : Monitor :=
  restack (arrangemon e (showhide e m m.stack))

/-- The function `setfullscreen` for the client `w` of monitor `m`. -/
def setfullscreen (e : Env) (m : Monitor) (w : Window) (fullscreen : Int) : Monitor :=
  match m.client? w with
  | none => m
  | some c =>
    if fullscreen ≠ 0 ∧ c.isfullscreen = 0 then
      m.modifyClient w (fun c =>
        let c := { c with isfullscreen := 1 }
        let c := { c with oldstate := c.isfloating }
        let c := { c with oldbw := c.bw }
        let c := { c with bw := 0 }
        let c := { c with isfloating := 1 }
        resizeclient c m.mx m.my m.mw m.mh)
    else if fullscreen = 0 ∧ c.isfullscreen ≠ 0 then
      arrange e (m.modifyClient w (fun c =>
        let c := { c with isfullscreen := 0 }
        let c := { c with isfloating := c.oldstate }
        let c := { c with bw := c.oldbw }
        let c := { c with x := c.oldx }
        let c := { c with y := c.oldy }
        let c := { c with w := c.oldw }
        let c := { c with h := c.oldh }
        resizeclient c c.x c.y c.w c.h))
    else m

/-! ## Test data -/

/-- A client with every numeric field zero. -/
def Client.zero : Client :=
  { name := "", mina := 0, maxa := 0, x := 0, y := 0, w := 0, h := 0,
    oldx := 0, oldy := 0, oldw := 0, oldh := 0, basew := 0, baseh := 0,
    incw := 0, inch := 0, maxw := 0, maxh := 0, minw := 0, minh := 0,
    hintsvalid := 0, bw := 0, oldbw := 0, tags := 0, isfixed := 0,
    isfloating := 0, isurgent := 0, neverfocus := 0, oldstate := 0,
    isfullscreen := 0, mon := 0, win := 0, normalhints := none }

/-- The tile layout of the default configuration. -/
def Layout.tiled : Layout := { symbol := "[]=", arrange := some ArrangeFn.tile }

/-- The floating layout of the default configuration. -/
def Layout.floating : Layout := { symbol := "><>", arrange := none }

/-- The monocle layout of the default configuration. -/
def Layout.monocled : Layout := { symbol := "[M]", arrange := some ArrangeFn.monocle }

/-- A 1920x1080 monitor with a 16 pixel bar on top, tile layout, tag 1 viewed,
no clients. -/
def Monitor.sample : Monitor :=
  { ltsymbol := "[]=", mfact := mkRat 1 2, nmaster := 1, num := 0, bary := 0,
    mx := 0, my := 0, mw := 1920, mh := 1080, wx := 0, wy := 16, ww := 1920, wh := 1064,
    seltags := 0, sellt := 0, tagset0 := 1, tagset1 := 1, showbar := 1, topbar := 1,
    clients := [], sel := none, stack := [], barwin := 1000,
    lt0 := Layout.tiled, lt1 := Layout.floating }

/-- An environment with nine tags, no rules, size hints not respected for tiled
clients, bar height 16 on a 1920x1080 screen. -/
def Env.sample : Env :=
  { ntags := 9, rules := [], resizehints := 0, lockfullscreen := 1, borderpx := 1,
    snap := 32, bh := 16, sw := 1920, sh := 1080, hintstail := fun _ w h => (w, h) }

/-! ## Auxiliary notions used in the statements -/

/-- The part of a client that no layout pass writes: window, border width,
the floating and fullscreen flags and the tags; a client hidden under the
tagset `T` is not written at all. -/
def Keep (T : Nat) (c c1 : Client) : Prop :=
  c1.win = c.win ∧ c1.bw = c.bw ∧ c1.isfloating = c.isfloating ∧
  c1.isfullscreen = c.isfullscreen ∧ c1.tags = c.tags ∧ (c.tags &&& T = 0 → c1 = c)

/-- The client as the second `setfullscreen` hands it to `arrange`: current
geometry, border width and floating flag copied to the saved fields, not
fullscreen. -/
def Client.restored (c : Client) : Client :=
  { c with oldx := c.x, oldy := c.y, oldw := c.w, oldh := c.h,
           oldbw := c.bw, oldstate := c.isfloating, isfullscreen := 0 }

/-- The client as the first branch of `setfullscreen` leaves it, on a monitor
with screen rectangle `(mx, my, mw, mh)`. -/
def Client.fullscreened (m : Monitor) (c : Client) : Client :=
  resizeclient { c with isfullscreen := 1, oldstate := c.isfloating, oldbw := c.bw,
                        bw := 0, isfloating := 1 } m.mx m.my m.mw m.mh

/-- The client as the second branch of `setfullscreen` leaves it before the call
of `arrange`. -/
def Client.unfullscreened (c : Client) : Client :=
  resizeclient { c with isfullscreen := 0, isfloating := c.oldstate, bw := c.oldbw,
                        x := c.oldx, y := c.oldy, w := c.oldw, h := c.oldh }
    c.oldx c.oldy c.oldw c.oldh

/-- A tiled client on tag 1 with window id 7 and geometry (10, 20, 800, 600),
border width 1. -/
def Client.sample : Client :=
  { Client.zero with win := 7, tags := 1, x := 10, y := 20, w := 800, h := 600, bw := 1 }

/-- The sample monitor managing the sample client alone. -/
def Monitor.single : Monitor :=
  { Monitor.sample with clients := [Client.sample], stack := [7], sel := some 7 }

/-! ## Client registry, focus and commands -/

/-- Modelled from the spec: `attach` is absent from the source file; by section
4.B it prepends `c` to `c.mon.clients`. -/
def attach (m : Monitor) (c : Client) : Monitor :=
  { m with clients := c :: m.clients }

/-- Remove the first client with window `w` from a client list. -/
def removeFirst (w : Window) : List Client → List Client
  | [] => []
  | c :: cs => if c.win = w then cs else c :: removeFirst w cs

/-- Modelled from the spec: `detach` is absent from the source file; by section
4.B it splices `c` out of `c.mon.clients`. -/
def detach (m : Monitor) (w : Window) : Monitor :=
  { m with clients := removeFirst w m.clients }

/-- Modelled from the spec: `attachstack` is absent from the source file; by
section 4.B it does for the focus stack what `attach` does for the client list. -/
def attachstack (m : Monitor) (w : Window) : Monitor :=
  { m with stack := w :: m.stack }

/-- Modelled from the spec: `detachstack` is absent from the source file; by
section 4.B it does for the focus stack what `detach` does for the client list. -/
def detachstack (m : Monitor) (w : Window) : Monitor :=
  { m with stack := m.stack.erase w }

/-- The walk of `focus(NULL)` over the focus stack: the first id whose client is
visible. -/
def firstvisiblestack (m : Monitor) : List Window → Option Window
  | [] => none
  | w :: ws =>
    match m.client? w with
    | some c => if ISVISIBLE m c ≠ 0 then some w else firstvisiblestack m ws
    | none => firstvisiblestack m ws

/-- Modelled from the spec: `focus` is absent from the source file.  Here `m` is
the selected monitor and `c` is null or a client of `m`.  By section 4.E a null
`c` is replaced by the most recently focused visible client (the first visible
one on the stack); the previous selection is unfocused (no effect on the state)
and `c` becomes the selection; by section 3 the stack has the most recently
focused client at its head. -/
def focus (m : Monitor) (c : Option Window) : Monitor :=
  let c := match c with
    | some w => some w
    | none => firstvisiblestack m m.stack
  match c with
  | some w => { attachstack (detachstack m w) w with sel := some w }
  | none => { m with sel := none }

/-- The function `view` on the selected monitor `m`, with argument `arg->ui`. -/
def view (e : Env) (m : Monitor) (ui : Nat) : Monitor :=
  if ui &&& TAGMASK e = m.tagset m.seltags then m
  else
    let m := { m with seltags := m.seltags ^^^ 1 }
    let m := if ui &&& TAGMASK e ≠ 0 then m.setTagset m.seltags (ui &&& TAGMASK e) else m
    let m := focus m none
    arrange e m

/-- The active tagset `m->tagset[m->seltags]`. -/
def Monitor.active (m : Monitor) : Nat := m.tagset m.seltags

/-- The function `tag` on the selected monitor `m`, with argument `arg->ui`. -/
def tag (e : Env) (m : Monitor) (ui : Nat) : Monitor :=
  match m.sel with
  | some w =>
    if ui &&& TAGMASK e ≠ 0 then
      let m := m.modifyClient w (fun c => { c with tags := ui &&& TAGMASK e })
      let m := focus m none
      arrange e m
    else m
  | none => m

/-- The globals `mons` and `selmon`: the monitor list and the index of the
selected monitor in it.  A `Monitor *` is an index into `mons`. -/
structure State where
  mons : List Monitor
  selmon : Nat
deriving DecidableEq

/-- Store through a monitor pointer: apply `f` to the monitor at index `i`. -/
def State.modifyMon (s : State) (i : Nat) (f : Monitor → Monitor) : State :=
  match s.mons[i]? with
  | some m => { s with mons := s.mons.set i (f m) }
  | none => s

/-- The function `wintoclient`: the first client with window `w`, searching the
client lists of the monitors in order. -/
def wintoclient : List Monitor → Window → Option Client
  | [], _ => none
  | m :: ms, w =>
    match m.client? w with
    | some c => some c
    | none => wintoclient ms w

/-- Modelled from the spec: `arrange` is absent from the source file; by section
4.D a null argument arranges every monitor. -/
def arrangeall (e : Env) (s : State) : State :=
  { s with mons := s.mons.map (arrange e) }

/-- Modelled from the spec: `unfocus` is absent from the source file; by section
4.E it reverts the border colour and optionally clears the active-window hint,
which are effects on the server only. -/
def unfocus (m : Monitor) (_w : Window) (_setfocus : Int) : Monitor := m

/-- The function `sendmon` for the client with window `w` and the monitor at
index `dst`.  The state is returned unchanged when a pointer is dangling. -/
def sendmon (e : Env) (s : State) (w : Window) (dst : Nat) : State :=
  match wintoclient s.mons w with
  | none => s
  | some c =>
    if c.mon = dst then s
    else
      match s.mons[c.mon]?, s.mons[dst]? with
      | some _, some md =>
        let s := s.modifyMon c.mon (fun m => unfocus m w 1)
        let s := s.modifyMon c.mon (fun m => detach m w)
        let s := s.modifyMon c.mon (fun m => detachstack m w)
        let c := { c with mon := dst }
        let c := { c with tags := md.tagset md.seltags }
        let s := s.modifyMon dst (fun m => attach m c)
        let s := s.modifyMon dst (fun m => attachstack m w)
        let s := s.modifyMon s.selmon (fun m => focus m none)
        arrangeall e s
      | _, _ => s

/-- The libc function `strstr`, as a test: does `needle` occur in `hay`. -/
def strstr : List Char → List Char → Bool
  | [], needle => needle.isEmpty
  | h :: hs, needle => needle.isPrefixOf (h :: hs) || strstr hs needle

/-- The condition of the rule loop of `applyrules`: every field the rule gives
occurs in the corresponding string of the client. -/
def rulematches (r : Rule) (name cls inst : String) : Bool :=
  (match r.title with
    | none => true
    | some t => strstr name.data t.data) &&
  (match r.cls with
    | none => true
    | some t => strstr cls.data t.data) &&
  (match r.instance_ with
    | none => true
    | some t => strstr inst.data t.data)

/-- The search `for (m = mons; m && m->num != r->monitor; m = m->next);` of
`applyrules`: the index of the first monitor with number `num`. -/
def findmon (num : Int) : List Monitor → Option Nat
  | [] => none
  | m :: ms => if m.num = num then some 0 else (findmon num ms).map (fun i => i + 1)

/-- The rule loop of `applyrules` over the rest of the rule table. -/
def applyrulesloop (mons : List Monitor) (cls inst : String) : List Rule → Client → Client
  | [], c => c
  | r :: rs, c =>
    if rulematches r c.name cls inst then
      let c := { c with isfloating := r.isfloating }
      let c := { c with tags := c.tags ||| r.tags }
      let c := match findmon r.monitor mons with
        | some i => { c with mon := i }
        | none => c
      applyrulesloop mons cls inst rs c
    else applyrulesloop mons cls inst rs c

/-- The function `applyrules` for a client `c` that is not attached yet.
`res_class` and `res_name` are the strings of the class hint as read by
`XGetClassHint` (`none` for a null pointer).  The result is `none` when
`c->mon` is dangling at the final dereference. -/
def applyrules (e : Env) (s : State) (c : Client) (res_class res_name : Option String) :
    Option Client :=
  let c := { c with isfloating := 0 }
  let c := { c with tags := 0 }
  let cls := match res_class with
    | some x => x
    | none => "broken"
  let inst := match res_name with
    | some x => x
    | none => "broken"
  let c := applyrulesloop s.mons cls inst e.rules c
  match s.mons[c.mon]? with
  | some m =>
    some { c with tags := if c.tags &&& TAGMASK e ≠ 0 then c.tags &&& TAGMASK e
                          else m.tagset m.seltags }
  | none => none

/-- A tag mask is valid: non-zero and without bits outside `TAGMASK`. -/
abbrev validtags (e : Env) (t : Nat) : Prop := t ≠ 0 ∧ t &&& TAGMASK e = t

/-- A second monitor, to the right of the sample monitor, viewing tag 2. -/
def Monitor.second : Monitor :=
  { Monitor.sample with num := 1, mx := 1920, wx := 1920, tagset0 := 2, barwin := 1001 }

/-- Two monitors side by side; the first one is selected and manages the sample
client. -/
def State.dual : State := { mons := [Monitor.single, Monitor.second], selmon := 0 }

/-- The rules of the table whose given class, instance and title fields occur in
the strings of the client, in table order. -/
def matchingrules (e : Env) (name cls inst : String) : List Rule :=
  e.rules.filter (fun r => rulematches r name cls inst)

/-- The effect of `applyrules` in the words of the specification: the tags of
all matching rules are OR-ed and masked by `TAGMASK`, with the active tagset of
the resulting monitor as fallback for an empty mask; the floating flag is that
of the last matching rule (0 when none matches); the monitor is the one named by
the last matching rule that names an existing monitor, and is left as it is when
there is no such rule. -/
def applyrulesSpec (e : Env) (s : State) (c : Client) (res_class res_name : Option String) :
    Option Client :=
  let cls := match res_class with
    | some x => x
    | none => "broken"
  let inst := match res_name with
    | some x => x
    | none => "broken"
  let ms := matchingrules e c.name cls inst
  let tags := ms.foldl (fun t r => t ||| r.tags) 0
  let isfloating := match ms.getLast? with
    | some r => r.isfloating
    | none => 0
  let mon := match (ms.filterMap (fun r => findmon r.monitor s.mons)).getLast? with
    | some i => i
    | none => c.mon
  match s.mons[mon]? with
  | some m =>
    some { c with isfloating := isfloating, mon := mon,
                  tags := if tags &&& TAGMASK e ≠ 0 then tags &&& TAGMASK e
                          else m.tagset m.seltags }
  | none => none

/-- A rule table with a rule that sends every client to monitor 1, followed by
a rule that matches every client and names no monitor (-1), as the rules of the
default configuration do. -/
def Env.ruled : Env :=
  { Env.sample with rules :=
      [ { cls := none, instance_ := none, title := none, tags := 0, isfloating := 0,
          monitor := 1 },
        { cls := none, instance_ := none, title := none, tags := 4, isfloating := 1,
          monitor := -1 } ] }

/-- The standing assumptions on a monitor under which the `int` and
`unsigned int` arithmetic of `tile` does not wrap: `nmaster` is not negative,
the work area has a non-negative size and lies within the range of `int`,
`mfact` lies between 0 and 1 (numerator between 0 and the denominator), the
number of clients fits the `unsigned int` counters, and the border width of
every client is non-negative with `2 * bw` an `int`. -/
abbrev Monitor.sane (m : Monitor) : Prop :=
  0 ≤ m.nmaster ∧ m.nmaster ≤ 2147483647 ∧
  0 ≤ m.ww ∧ m.ww ≤ 2147483647 ∧ 0 ≤ m.wh ∧ m.wh ≤ 2147483647 ∧
  -2147483648 ≤ m.wx ∧ m.wx + m.ww ≤ 2147483647 ∧
  -2147483648 ≤ m.wy ∧ m.wy + m.wh ≤ 2147483647 ∧
  0 ≤ m.mfact.num ∧ m.mfact.num ≤ (m.mfact.den : Int) ∧
  m.clients.length ≤ 2147483647 ∧
  ∀ c ∈ m.clients, 0 ≤ c.bw ∧ c.bw ≤ 1073741823

/-- The columns of `tile`: `cs1` is `cs` with every client that `nexttiled`
does not skip passed through `resize`, with `x = wx` and outer width `mw` for
the clients of loop index below `nmaster`, and `x = wx + mw` and outer width
`ww - mw` for the others; `i` is the loop index of the first client of `cs`. -/
def tileplaced (e : Env) (m : Monitor) (mw : Int) : Nat → List Client → List Client → Prop
  | _, [], [] => True
  | i, c :: cs, c1 :: cs1 =>
    if c.isfloating ≠ 0 ∨ ISVISIBLE m c = 0 then c1 = c ∧ tileplaced e m mw i cs cs1
    else
      (∃ y h, c1 = resize e m c (if (i : Int) < m.nmaster then m.wx else m.wx + mw) y
          (if (i : Int) < m.nmaster then mw - 2 * c.bw else m.ww - mw - 2 * c.bw) h 0) ∧
      tileplaced e m mw (i + 1) cs cs1
  | _, _, _ => False

/-- The sample monitor with `nmaster = 0`, managing the sample client alone. -/
def Monitor.nomaster : Monitor := { Monitor.single with nmaster := 0 }

/-- The sample monitor with three tiled clients 7, 8 and 9. -/
def Monitor.triple : Monitor :=
  { Monitor.sample with
    clients := [Client.sample, { Client.sample with win := 8 }, { Client.sample with win := 9 }],
    stack := [7, 8, 9], sel := some 7 }

/-- The outer heights of a column in the words of the specification: with `k`
slots still to fill below the offset `off` in a work area of height `wh`, the
next client gets `(wh - off) / k` and the offset advances by that height. -/
def colheights (wh : Nat) : Nat → Nat → List Nat
  | _, 0 => []
  | off, k + 1 => (wh - off) / (k + 1) :: colheights wh (off + (wh - off) / (k + 1)) k

/-- The rectangle of the tiled client number `k` (counting from 0) with border
width `bw` in the words of the specification, for `n` tiled clients and master
width `mw`: the first `min(n, nmaster)` clients form the master column at
`x = wx`, the others the stack column at `x = wx + mw`; in each column the
clients follow each other from `wy` downwards, each below the outer heights of
the ones before it. -/
def specrect (m : Monitor) (n : Nat) (mw : Int) (k : Nat) (bw : Int) : Geom :=
  let nm := min n m.nmaster.toNat
  if (k : Int) < m.nmaster then
    { x := m.wx,
      y := m.wy + (((colheights m.wh.toNat 0 nm).take k).sum : Nat),
      w := mw - 2 * bw,
      h := ((colheights m.wh.toNat 0 nm).getD k 0 : Nat) - 2 * bw }
  else
    { x := m.wx + mw,
      y := m.wy + (((colheights m.wh.toNat 0 (n - nm)).take (k - nm)).sum : Nat),
      w := m.ww - mw - 2 * bw,
      h := ((colheights m.wh.toNat 0 (n - nm)).getD (k - nm) 0 : Nat) - 2 * bw }

/-- The geometry of all clients after tiling in the words of the specification:
clients that are floating or hidden keep theirs, the tiled clients get their
`specrect` in list order; `k` is the number of the first tiled client of the
list. -/
def tilespec (m : Monitor) (n : Nat) (mw : Int) : Nat → List Client → List Geom
  | _, [] => []
  | k, c :: cs =>
    if c.isfloating ≠ 0 ∨ ISVISIBLE m c = 0 then c.geom :: tilespec m n mw k cs
    else specrect m n mw k c.bw :: tilespec m n mw (k + 1) cs

/-- The test that `applysizehints` leaves the proposed rectangles unchanged:
for every tiled client of the list, `resize` with its `specrect` leaves it with
exactly that geometry. -/
def tilefixed (e : Env) (m : Monitor) (n : Nat) (mw : Int) : Nat → List Client → Bool
  | _, [] => true
  | k, c :: cs =>
    if c.isfloating ≠ 0 ∨ ISVISIBLE m c = 0 then tilefixed e m n mw k cs
    else
      decide ((resize e m c (specrect m n mw k c.bw).x (specrect m n mw k c.bw).y
        (specrect m n mw k c.bw).w (specrect m n mw k c.bw).h 0).geom = specrect m n mw k c.bw)
      && tilefixed e m n mw (k + 1) cs

/-- The sample client with window id 8. -/
def Client.second : Client := { Client.sample with win := 8 }

/-- The sample client made floating. -/
def Client.floater : Client := { Client.sample with isfloating := 1 }

/-- The sample monitor in monocle layout with the floating sample client and a
tiled client 8. -/
def Monitor.mono : Monitor :=
  { Monitor.sample with
    ltsymbol := "[M]", lt0 := Layout.monocled,
    clients := [Client.floater, Client.second],
    stack := [7, 8], sel := some 7 }

/-- The sample monitor in monocle layout without clients. -/
def Monitor.monoempty : Monitor :=
  { Monitor.sample with ltsymbol := "[M]", lt0 := Layout.monocled }

/-- The loop `for (c = l; c && !ISVISIBLE(c); c = c->next);` of `focusstack`:
the first visible client from position `l` on. -/
def firstvisible (m : Monitor) : List Client → Option Client
  | [] => none
  | c :: cs => if ISVISIBLE m c ≠ 0 then some c else firstvisible m cs

/-- The position `sel->next`: the clients after the client with window `w`. -/
def nextof (w : Window) : List Client → List Client
  | [] => []
  | c :: cs => if c.win = w then cs else nextof w cs

/-- The loop `for (i = l; i != sel; i = i->next) if (ISVISIBLE(i)) c = i;` of
`focusstack`, started with the given `c`: the resulting `c` and the position
`i` at which the loop stops. -/
def lastvisiblebefore (m : Monitor) (sel : Window) :
    Option Client → List Client → Option Client × List Client
  | c, [] => (c, [])
  | c, i :: is =>
    if i.win = sel then (c, i :: is)
    else lastvisiblebefore m sel (if ISVISIBLE m i ≠ 0 then some i else c) is

/-- The loop `for (; i; i = i->next) if (ISVISIBLE(i)) c = i;` of `focusstack`,
started with the given `c`. -/
def lastvisible (m : Monitor) : Option Client → List Client → Option Client
  | c, [] => c
  | c, i :: is => lastvisible m (if ISVISIBLE m i ≠ 0 then some i else c) is

/-- The function `focusstack` on the selected monitor `m`, with argument
`arg->i`.  A selection without a client in `m->clients` cannot occur; the
monitor is then returned unchanged. -/
def focusstack (e : Env) (m : Monitor) (i : Int) : Monitor :=
  match m.sel with
  | none => m
  | some w =>
    match m.client? w with
    | none => m
    | some s =>
      if s.isfullscreen ≠ 0 ∧ e.lockfullscreen ≠ 0 then m
      else
        let c := if i > 0 then
            (match firstvisible m (nextof w m.clients) with
              | some c => some c
              | none => firstvisible m m.clients)
          else
            (match lastvisiblebefore m w none m.clients with
              | (some c, _) => some c
              | (none, rest) => lastvisible m none rest)
        match c with
        | some c => restack (focus m (some c.win))
        | none => m

/-- A fullscreen client with window id 9 on tag 1 (fullscreen clients float and
have no border). -/
def Client.full : Client :=
  { Client.sample with win := 9, isfullscreen := 1, isfloating := 1, bw := 0,
                       x := 0, y := 0, w := 1920, h := 1080 }

/-- The sample monitor with the selected client 7 followed by the fullscreen
client 9. -/
def Monitor.withfull : Monitor :=
  { Monitor.sample with clients := [Client.sample, Client.full], stack := [7, 9],
                        sel := some 7 }

/-! ## Commands on the layout parameters, error handler, key bindings -/

/-- The function `setmfact` on the selected monitor `m`; `arg` is `none` for a
null pointer and `some f` for `arg->f = f`.  The literals `0.05` and `0.95` are
read as the rationals 1/20 and 19/20. -/
def setmfact (e : Env) (m : Monitor) (arg : Option Rat) : Monitor :=
  match arg with
  | none => m
  | some af =>
    if (m.lt m.sellt).arrange = none then m
    else
      let f := if af < 1 then af + m.mfact else af - 1
      if f < 1 / 20 ∨ f > 19 / 20 then m
      else arrange e { m with mfact := f }

/-- The function `incnmaster` on the selected monitor `m`, with argument
`arg->i`. -/
def incnmaster (e : Env) (m : Monitor) (i : Int) : Monitor :=
  arrange e { m with nmaster := max (m.nmaster + i) 0 }

/-- The copy `strncpy(m->ltsymbol, symbol, sizeof m->ltsymbol)` into the 16
characters of `ltsymbol`. -/
def copysymbol (symbol : String) : String := String.mk (symbol.data.take 16)

/-- The function `setlayout` on the selected monitor `m`.  The argument is
`none` for a null `arg`, `some none` for a null `arg->v` and `some (some l)`
for `arg->v` pointing to the layout `l`; a `Layout *` is represented by the
layout it points to (the entries of the layout table are distinct).
Drawing the bar has no effect on the state. -/
def setlayout (e : Env) (m : Monitor) (arg : Option (Option Layout)) : Monitor :=
  let v : Option Layout := match arg with
    | some v => v
    | none => none
  let m := if v = none ∨ v ≠ some (m.lt m.sellt) then { m with sellt := m.sellt ^^^ 1 } else m
  let m := match v with
    | some l => m.setLt m.sellt l
    | none => m
  let m := { m with ltsymbol := copysymbol (m.lt m.sellt).symbol }
  if m.sel ≠ none then arrange e m else m

/-- The outcome of the error handler: the value returned and whether the default
handler of Xlib was called. -/
structure XErrorResult where
  ret : Int
  calledxlib : Bool
deriving DecidableEq

/-- The function `xerror` for an error event with the given request and error
codes; `xerrorxlib` is the default handler of Xlib.  The error codes
`BadWindow` = 3, `BadMatch` = 8, `BadDrawable` = 9, `BadAccess` = 10 are those
of X.h and the request codes `X_ConfigureWindow` = 12, `X_GrabButton` = 28,
`X_GrabKey` = 33, `X_SetInputFocus` = 42, `X_CopyArea` = 62,
`X_PolySegment` = 66, `X_PolyFillRectangle` = 70, `X_PolyText8` = 74 those of
Xproto.h. -/
def xerror (xerrorxlib : Nat → Nat → Int) (request_code error_code : Nat) : XErrorResult :=
  if error_code = 3
      ∨ (request_code = 42 ∧ error_code = 8)
      ∨ (request_code = 74 ∧ error_code = 9)
      ∨ (request_code = 70 ∧ error_code = 9)
      ∨ (request_code = 66 ∧ error_code = 9)
      ∨ (request_code = 12 ∧ error_code = 8)
      ∨ (request_code = 28 ∧ error_code = 10)
      ∨ (request_code = 33 ∧ error_code = 10)
      ∨ (request_code = 62 ∧ error_code = 9) then
    { ret := 0, calledxlib := false }
  else
    { ret := xerrorxlib request_code error_code, calledxlib := true }

/-- Bitwise complement of an `unsigned int`. -/
def unot (x : Nat) : Nat := 4294967295 ^^^ (x % 4294967296)

/-- The macro `CLEANMASK` for the given value of the global `numlockmask`.
`LockMask` is 2 and `ShiftMask|ControlMask|Mod1Mask|...|Mod5Mask` is
1 + 4 + 8 + 16 + 32 + 64 + 128 = 253 (X.h). -/
def CLEANMASK (numlockmask : Nat) (mask : Nat) : Nat :=
  mask &&& unot (numlockmask ||| 2) &&& 253

/-- The struct `Key`; `func` is `none` for a null function pointer and otherwise
names the command, `arg` is its argument. -/
structure Key where
  mod : Nat
  keysym : Nat
  func : Option Nat
  arg : Nat
deriving DecidableEq

/-- The function `keypress` for an event whose key code translates to `keysym`
and whose modifier state is `state`: the commands it calls with their
arguments, in table order. -/
def keypress (numlockmask : Nat) (keys : List Key) (keysym state : Nat) : List (Nat × Nat) :=
  keys.filterMap (fun k =>
    if keysym = k.keysym ∧ CLEANMASK numlockmask k.mod = CLEANMASK numlockmask state then
      k.func.map (fun f => (f, k.arg))
    else none)

/-! ## Client messages -/

/-- The atoms of `netatom` that `clientmessage` compares with; their values are
assigned by the X server. -/
structure Atoms where
  NetWMState : Nat
  NetWMFullscreen : Nat
  NetActiveWindow : Nat
deriving DecidableEq

/-- The fields of `XClientMessageEvent` that `clientmessage` reads: the window,
the message type and the first three longs of the data. -/
structure XClientMessageEvent where
  window : Window
  message_type : Nat
  l0 : Int
  l1 : Int
  l2 : Int
deriving DecidableEq

/-- Conversion of a `long` to `unsigned long` (64 bits), as the comparison of
`cme->data.l[i]` with an `Atom` performs it. -/
def ulong (x : Int) : Nat := (x % 18446744073709551616).toNat

/-- The function `seturgent`, without the update of the window's WM hints on the
server. -/
def seturgent (c : Client) (urg : Int) : Client := { c with isurgent := urg }

/-- The function `clientmessage`.  Modelled from the spec: the head of the
function, which obtains `cme` and `c`, is cut from the source file; `c` is the
managed client of the event window (`wintoclient(cme->window)`), found on the
monitor `c->mon`.  From `if (!c) return;` on the body follows the source. -/
def clientmessage (e : Env) (a : Atoms) (s : State) (cme : XClientMessageEvent) : State :=
  match wintoclient s.mons cme.window with
  | none => s
  | some c =>
    if cme.message_type = a.NetWMState then
      if ulong cme.l1 = a.NetWMFullscreen ∨ ulong cme.l2 = a.NetWMFullscreen then
        s.modifyMon c.mon (fun m => setfullscreen e m c.win
          (if cme.l0 = 1 ∨ (cme.l0 = 2 ∧ c.isfullscreen = 0) then 1 else 0))
      else s
    else if cme.message_type = a.NetActiveWindow then
      if ¬ (c.mon = s.selmon ∧ (s.mons[s.selmon]?).bind (fun m => m.sel) = some c.win)
          ∧ c.isurgent = 0 then
        s.modifyMon c.mon (fun m => m.modifyClient c.win (fun c => seturgent c 1))
      else s
    else s

/-- Atom values for the examples. -/
def Atoms.sample : Atoms := { NetWMState := 300, NetWMFullscreen := 301, NetActiveWindow := 302 }

/-! ## Zoom -/

/-- The function `pop` for a client `c` of monitor `m`. -/
def pop (e : Env) (m : Monitor) (c : Client) : Monitor :=
  let m := detach m c.win
  let m := attach m c
  let m := focus m (some c.win)
  arrange e m

/-- The function `zoom` on the selected monitor `m`.  The pointer comparison
`c == nexttiled(selmon->clients)` compares window ids, which identify clients;
a selection that is not in the client list leaves the monitor unchanged. -/
def zoom (e : Env) (m : Monitor) : Monitor :=
  match m.sel with
  | none => m
  | some w =>
    match m.client? w with
    | none => m
    | some c =>
      if (m.lt m.sellt).arrange = none ∨ c.isfloating ≠ 0 then m
      else
        match nexttiled m m.clients with
        | d :: rest =>
          if d.win = w then
            match nexttiled m rest with
            | [] => m
            | c2 :: _ => pop e m c2
          else pop e m c
        | [] => pop e m c

/-- The three-client monitor with the second client selected. -/
def Monitor.triple8 : Monitor := { Monitor.triple with sel := some 8, stack := [8, 7, 9] }

/-! ## List invariants -/

/-- The list invariants of section 3 on a state: on every monitor the window ids
of `clients` are distinct, `stack` holds the same ids (in some order), and the
`mon` field of each client is the index of the monitor whose list contains it;
and no window id occurs on two monitors. -/
abbrev State.listinv (s : State) : Prop :=
  (∀ p ∈ s.mons.enum,
    (p.2.clients.map Client.win).Nodup ∧ p.2.stack.Perm (p.2.clients.map Client.win) ∧
    ∀ x ∈ p.2.clients.map Client.mon, x = p.1) ∧
  (∀ p ∈ s.mons.enum, ∀ q ∈ s.mons.enum, ∀ x ∈ p.2.clients.map Client.win,
    x ∈ q.2.clients.map Client.win → p.1 = q.1)

/-! ## Monitor geometry -/

/-- The struct `XineramaScreenInfo`. -/
structure XineramaScreenInfo where
  screen_number : Int
  x_org : Int
  y_org : Int
  width : Int
  height : Int
deriving DecidableEq

/-- The function `isuniquegeom` over the first `n` entries of `unique`, given as
a list: 0 when one of them has the geometry of `info`, else 1. -/
def isuniquegeom (unique : List XineramaScreenInfo) (info : XineramaScreenInfo) : Int :=
  if unique.any (fun u => decide (u.x_org = info.x_org ∧ u.y_org = info.y_org
      ∧ u.width = info.width ∧ u.height = info.height)) then 0 else 1

/-- The loop of `updategeom` that copies the screens with a new geometry to
`unique`, in their order. -/
def uniquegeoms (info : List XineramaScreenInfo) : List XineramaScreenInfo :=
  info.foldl (fun unique i => if isuniquegeom unique i ≠ 0 then unique ++ [i] else unique) []

/-- The values of `config.h` that `createmon` copies into a new monitor. -/
structure MonitorDefaults where
  mfact : Rat
  nmaster : Int
  showbar : Int
  topbar : Int
  lt0 : Layout
  lt1 : Layout

/-- Modelled from the spec: `createmon` is absent from the source file; by
section 4.C it initialises the tagsets to 1, `mfact`, `nmaster`, `showbar` and
`topbar` from the configuration and the layouts from the layout table; the
other fields of the new monitor are zero and its lists are empty. -/
def createmon (d : MonitorDefaults) : Monitor :=
  { ltsymbol := d.lt0.symbol, mfact := d.mfact, nmaster := d.nmaster, num := 0, bary := 0,
    mx := 0, my := 0, mw := 0, mh := 0, wx := 0, wy := 0, ww := 0, wh := 0,
    seltags := 0, sellt := 0, tagset0 := 1, tagset1 := 1,
    showbar := d.showbar, topbar := d.topbar,
    clients := [], sel := none, stack := [], barwin := 0, lt0 := d.lt0, lt1 := d.lt1 }

/-- Modelled from the spec: `updatebarpos` is absent from the source file; by
section 4.C the work area is the screen rectangle with a strip of height `bh`
removed from the top or the bottom when the bar is shown. -/
def updatebarpos (e : Env) (m : Monitor) : Monitor :=
  let m := { m with wy := m.my, wh := m.mh }
  if m.showbar ≠ 0 then
    let m := { m with wh := m.wh - e.bh }
    let m := { m with bary := if m.topbar ≠ 0 then m.wy else m.wy + m.wh }
    { m with wy := if m.topbar ≠ 0 then m.wy + e.bh else m.wy }
  else { m with bary := - e.bh }

/-- Modelled from the spec: `cleanupmon` is absent from the source file; by
section 3 (lifecycles) the monitor is destroyed, that is, taken out of the
monitor list.  The monitor is given by its index. -/
def cleanupmon (ms : List Monitor) (i : Nat) : List Monitor := ms.eraseIdx i

/-- The loop `for (i = n; i < nn; i++)` of `updategeom`: each round appends a
new monitor to the list; `k` is the number of rounds. -/
def growmons (d : MonitorDefaults) (ms : List Monitor) : Nat → List Monitor
  | 0 => ms
  | k + 1 => growmons d (ms ++ [createmon d]) k

/-- The loop of `updategeom` over the monitors and `unique` in parallel, from
index `i`: a monitor that is new (`i >= n`) or whose screen rectangle differs
gets the geometry of `unique[i]`.  The second component is `dirty`. -/
def geomloop (e : Env) (n : Nat) :
    Nat → List XineramaScreenInfo → List Monitor → Int → List Monitor × Int
  | _, [], ms, dirty => (ms, dirty)
  | _, _ :: _, [], dirty => ([], dirty)
  | i, u :: us, m :: ms, dirty =>
    if i ≥ n ∨ u.x_org ≠ m.mx ∨ u.y_org ≠ m.my ∨ u.width ≠ m.mw ∨ u.height ≠ m.mh then
      let m := { m with num := i }
      let m := { m with wx := u.x_org, mx := u.x_org }
      let m := { m with wy := u.y_org, my := u.y_org }
      let m := { m with ww := u.width, mw := u.width }
      let m := { m with wh := u.height, mh := u.height }
      let r := geomloop e n (i + 1) us ms 1
      (updatebarpos e m :: r.1, r.2)
    else
      let r := geomloop e n (i + 1) us ms dirty
      (m :: r.1, r.2)

/-- The loop `while ((c = m->clients))` of `updategeom` for a removed monitor
`ml` other than the first monitor `m0`, by recursion on `m->clients`: the head
client leaves both lists of `ml` and is attached to `m0` with `c->mon = mons`
(index 0).  The result is the pair of the first and the removed monitor. -/
def migrate : List Client → Monitor → Monitor → Monitor × Monitor
  | [], m0, ml => (m0, ml)
  | c :: cs, m0, ml =>
    let ml := { ml with clients := cs }
    let ml := detachstack ml c.win
    let c := { c with mon := 0 }
    let m0 := attach m0 c
    let m0 := attachstack m0 c.win
    migrate cs m0 ml

/-- One round of the loop `for (i = nn; i < n; i++)` of `updategeom`: the
clients of the last monitor move to the first one, `selmon` moves to the first
monitor when it was the last one, and the last monitor is destroyed.  The
result is `none` when the C code does not return: with an empty monitor list
(null dereference), and when the last monitor is the first one and has a
client, which the `while` loop then re-attaches to it for ever. -/
def removelast (s : State) (dirty : Int) : Option (State × Int) :=
  let l := s.mons.length - 1
  match s.mons[0]?, s.mons[l]? with
  | some m0, some ml =>
    if l = 0 then
      if ml.clients = [] then
        some ({ mons := cleanupmon s.mons l, selmon := if l = s.selmon then 0 else s.selmon },
              dirty)
      else none
    else
      let r := migrate ml.clients m0 ml
      let dirty := if ml.clients = [] then dirty else 1
      let mons := (s.mons.set 0 r.1).set l r.2
      some ({ mons := cleanupmon mons l, selmon := if l = s.selmon then 0 else s.selmon },
            dirty)
  | _, _ => none

/-- The loop `for (i = nn; i < n; i++)` of `updategeom`, `k` rounds. -/
def removemons : Nat → State → Int → Option (State × Int)
  | 0, s, dirty => some (s, dirty)
  | k + 1, s, dirty =>
    match removelast s dirty with
    | some r => removemons k r.1 r.2
    | none => none

/-- The macro `INTERSECT`: the area of the intersection of the rectangle with
the work area of `m` (in the integers). -/
def INTERSECT (x y w h : Int) (m : Monitor) : Int :=
  max 0 (min (x + w) (m.wx + m.ww) - max x m.wx)
    * max 0 (min (y + h) (m.wy + m.wh) - max y m.wy)

/-- The loop of `recttomon` from monitor index `i`, with the current result `r`
and its area. -/
def recttomonloop (x y w h : Int) : List Monitor → Nat → Nat → Int → Nat
  | [], _, r, _ => r
  | m :: ms, i, r, area =>
    if INTERSECT x y w h m > area then recttomonloop x y w h ms (i + 1) i (INTERSECT x y w h m)
    else recttomonloop x y w h ms (i + 1) r area

/-- The function `recttomon`. -/
def recttomon (s : State) (x y w h : Int) : Nat :=
  recttomonloop x y w h s.mons 0 s.selmon 0

/-- The index of the first monitor whose bar window is `w`. -/
def barmon (w : Window) : List Monitor → Nat → Option Nat
  | [], _ => none
  | m :: ms, i => if w = m.barwin then some i else barmon w ms (i + 1)

/-- The function `wintomon`; `root` is the root window and `ptr` the result of
`getrootptr` (`none` when it fails). -/
def wintomon (s : State) (root : Window) (ptr : Option (Int × Int)) (w : Window) : Nat :=
  match (if w = root then ptr else none) with
  | some p => recttomon s p.1 p.2 1 1
  | none =>
    match barmon w s.mons 0 with
    | some i => i
    | none =>
      match wintoclient s.mons w with
      | some c => c.mon
      | none => s.selmon

/-- The function `updategeom`.  `xinerama` is `none` when Xinerama is not active
(or not compiled in) and the result of `XineramaQueryScreens` otherwise.  The
result is the new state with the value of `dirty`, or `none` when the C code does
not return (see `removelast`). -/
def updategeom (e : Env) (d : MonitorDefaults) (root : Window) (ptr : Option (Int × Int))
    (xinerama : Option (List XineramaScreenInfo)) (s : State) : Option (State × Int) :=
  let r : Option (State × Int) :=
    match xinerama with
    | some info =>
      let n := s.mons.length
      let unique := uniquegeoms info
      let nn := unique.length
      let mons := growmons d s.mons (nn - n)
      let g := geomloop e n 0 unique mons 0
      removemons (n - nn) { s with mons := g.1 } g.2
    | none =>
      let mons := if s.mons = [] then [createmon d] else s.mons
      match mons with
      | m0 :: ms =>
        if m0.mw ≠ e.sw ∨ m0.mh ≠ e.sh then
          let m0 := { m0 with ww := e.sw, mw := e.sw }
          let m0 := { m0 with wh := e.sh, mh := e.sh }
          some ({ s with mons := updatebarpos e m0 :: ms }, 1)
        else some ({ s with mons := mons }, 0)
      | [] => none
  match r with
  | some (s, dirty) =>
    if dirty ≠ 0 then
      let s := { s with selmon := 0 }
      some ({ s with selmon := wintomon s root ptr root }, dirty)
    else some (s, dirty)
  | none => none

/-- Sample defaults for new monitors. -/
def MonitorDefaults.sample : MonitorDefaults :=
  { mfact := mkRat 1 2, nmaster := 1, showbar := 1, topbar := 1,
    lt0 := Layout.tiled, lt1 := Layout.floating }

/-- The sample client with window id 8 on the second monitor. -/
def Client.onsecond : Client := { Client.sample with win := 8, mon := 1 }

/-- The sample client on a third monitor, with the given window id. -/
def Client.onthird (w : Window) : Client := { Client.sample with win := w, mon := 2 }

/-- A third monitor with clients 9 and 10. -/
def Monitor.third : Monitor :=
  { Monitor.second with
    num := 2, mx := 3840, wx := 3840, barwin := 1002,
    clients := [Client.onthird 9, Client.onthird 10], stack := [10, 9], sel := some 10 }

/-- Three monitors: the sample client on the first, client 8 on the second,
clients 9 and 10 on the third, which is selected. -/
def State.three : State :=
  { mons := [Monitor.single,
      { Monitor.second with clients := [Client.onsecond], stack := [8], sel := some 8 },
      Monitor.third],
    selmon := 2 }

/-- A single screen of 1920x1080 at the origin. -/
def XineramaScreenInfo.sample : XineramaScreenInfo :=
  { screen_number := 0, x_org := 0, y_org := 0, width := 1920, height := 1080 }

/-! ## Divisors of the tiling loop -/

/-- The divisor `MIN(n, m->nmaster) - i` of the master branch of `tile` at loop
index `i`, in `unsigned int` arithmetic (the expression under `/` in
`tilemaster`). -/
def masterdiv (m : Monitor) (n i : Nat) : Nat := usub (min n (u32 m.nmaster)) i

/-- The divisor `n - i` of the stack branch of `tile` at loop index `i`, in
`unsigned int` arithmetic (the expression under `/` in `tilestack`). -/
def stackdiv (n i : Nat) : Nat := usub n i

/-- The divisors the placement loop of `tile` uses, in iteration order, from
loop index `i` over the rest of the client list: one for each client that
`nexttiled` does not skip, `masterdiv` while `i < m->nmaster` and `stackdiv`
afterwards. -/
def tiledivisors (m : Monitor) (n : Nat) : Nat → List Client → List Nat
  | _, [] => []
  | i, c :: cs =>
    if c.isfloating ≠ 0 ∨ ISVISIBLE m c = 0 then tiledivisors m n i cs
    else if i < u32 m.nmaster then masterdiv m n i :: tiledivisors m n (i + 1) cs
    else stackdiv n i :: tiledivisors m n (i + 1) cs

/-! ## Text properties and the status text -/

/-- The fields of `XTextProperty` that `gettextprop` reads.  `value` holds the
bytes of the property; Xlib terminates them with a NUL byte. -/
structure XTextProperty where
  value : List Nat
  encoding : Nat
  nitems : Nat
deriving DecidableEq

/-- The outcome of `XmbTextPropertyToTextList`: the return value, the count `n`
and the first string `*list` (`none` for a null pointer). -/
structure TextList where
  status : Int
  n : Int
  first : Option (List Nat)
deriving DecidableEq

/-- The C string held by a sequence of bytes: the bytes before the first NUL. -/
def cstr (l : List Nat) : List Nat := l.takeWhile (fun b => decide (b ≠ 0))

/-- The libc function `strncpy(dst, src, n)` on a buffer `dst` of at least `n`
bytes: the first `n` bytes become the string `src`, cut after `n` bytes or
padded with NUL bytes up to `n`; the rest of the buffer is left as it is. -/
def strncpy (dst src : List Nat) (n : Nat) : List Nat :=
  (cstr src ++ List.replicate n 0).take n ++ dst.drop n

/-- The libc function `strcpy(dst, src)`: the string and its terminating NUL are
written to the start of the buffer; `none` when they do not fit (a write beyond
the buffer). -/
def strcpy (dst src : List Nat) : Option (List Nat) :=
  if (cstr src).length + 1 ≤ dst.length then
    some (cstr src ++ [0] ++ dst.drop ((cstr src).length + 1))
  else none

/-- The function `gettextprop` for a buffer `text` (`none` for a null pointer) of
`size` bytes.  `prop` is the outcome of `XGetTextProperty` (`none` when it
fails) and `mb` that of `XmbTextPropertyToTextList` for the property.  The
result is the return value and the buffer.  `XA_STRING` is the atom 31 and
`Success` is 0. -/
def gettextprop (prop : Option XTextProperty) (mb : TextList) (text : Option (List Nat))
    (size : Nat) : Int × Option (List Nat) :=
  match text with
  | none => (0, none)
  | some t =>
    if size = 0 then (0, some t)
    else
      let t := t.set 0 0
      match prop with
      | none => (0, some t)
      | some name =>
        if name.nitems = 0 then (0, some t)
        else
          let t :=
            if name.encoding = 31 then strncpy t name.value (size - 1)
            else if mb.status ≥ 0 ∧ mb.n > 0 then
              match mb.first with
              | some s => strncpy t s (size - 1)
              | none => t
            else t
          let t := t.set (size - 1) 0
          (1, some t)

/-- The function `updatestatus` on the 256 bytes of `stext`; `version` holds the
bytes of the string `VERSION`, which the build defines.  The bytes 100, 119,
109, 45 are `"dwm-"`.  Drawing the bar has no effect on the state.  The result
is `none` when `strcpy` writes beyond `stext`. -/
def updatestatus (version : List Nat) (prop : Option XTextProperty) (mb : TextList)
    (stext : List Nat) : Option (List Nat) :=
  let r := gettextprop prop mb (some stext) 256
  match r.2 with
  | some t => if r.1 = 0 then strcpy t ([100, 119, 109, 45] ++ version) else some t
  | none => none

/-- A buffer of eight bytes holding stale text without a terminator. -/
def stale8 : List Nat := [120, 120, 120, 120, 120, 120, 120, 120]

/-- The 256 bytes of `stext` holding stale text without a terminator. -/
def stale256 : List Nat := List.replicate 256 120

/-- The bytes of the version string `"6.5"`. -/
def version65 : List Nat := [54, 46, 53]

/-- A `STRING` property with the ten bytes `"abcdefghij"`. -/
def XTextProperty.sample : XTextProperty :=
  { value := [97, 98, 99, 100, 101, 102, 103, 104, 105, 106], encoding := 31, nitems := 10 }

/-- A failed conversion to a text list. -/
def TextList.failed : TextList := { status := -1, n := 0, first := none }

/-- The three-client monitor with a work area 1000 pixels wide and
`mfact = 0.7f`, the `float` nearest to 0.7, which is 11744051 / 2^24. -/
def Monitor.seventy : Monitor :=
  { Monitor.triple with ww := 1000, mw := 1000, mfact := mkRat 11744051 16777216 }

/-- The three-client monitor with a work area 30 pixels wide. -/
def Monitor.narrow : Monitor := { Monitor.triple with ww := 30, mw := 30 }

/-! ## Saved fields and samples for the fullscreen round trip -/

/-- The client without its saved fields `oldx, oldy, oldw, oldh, oldbw` and
`oldstate`, which are written by `resizeclient` and `setfullscreen` and read
by `setfullscreen` only. -/
def Client.core (c : Client) : Client :=
  { c with oldx := 0, oldy := 0, oldw := 0, oldh := 0, oldbw := 0, oldstate := 0 }

/-- The sample client in the slot `tile` gives a single tiled client of the
sample monitor. -/
def Client.tiled : Client := { Client.sample with x := 0, y := 16, w := 1918, h := 1062 }

/-- A floating client on tag 1 with window id 8, inside the work area. -/
def Client.floating8 : Client := { Client.sample with win := 8, isfloating := 1 }

/-- A client on tag 2 with window id 9, hidden while tag 1 is viewed. -/
def Client.hidden9 : Client := { Client.sample with win := 9, tags := 2 }

/-- The sample monitor after a layout pass: client 7 tiled in the master slot,
client 8 floating inside the work area, client 9 hidden. -/
def Monitor.laidout : Monitor :=
  { Monitor.sample with
    clients := [Client.tiled, Client.floating8, Client.hidden9],
    stack := [7, 8, 9], sel := some 7 }

/-- A floating client on tag 1 that lies wholly above the work area of the
sample monitor: its outer box ends at `y = 12`, above `wy = 16`, and still
reaches into the screen. -/
def Client.above : Client := { Client.sample with isfloating := 1, y := -590 }

/-- The sample monitor managing the client `Client.above` alone. -/
def Monitor.above : Monitor :=
  { Monitor.sample with clients := [Client.above], stack := [7], sel := some 7 }

/-! # Theorems -/

/-! ## Layout passes leave identity, border and flags alone -/

theorem updatesizehints_fields (c : Client) :
    (updatesizehints c).win = c.win ∧ (updatesizehints c).bw = c.bw ∧
    (updatesizehints c).isfloating = c.isfloating ∧
    (updatesizehints c).isfullscreen = c.isfullscreen ∧
    (updatesizehints c).tags = c.tags ∧ (updatesizehints c).geom = c.geom := by
  refine ⟨?_, ?_, ?_, ?_, ?_, ?_⟩ <;> rfl

theorem resize_fields (e : Env) (m : Monitor) (c : Client) (x y w h i : Int) :
    (resize e m c x y w h i).win = c.win ∧ (resize e m c x y w h i).bw = c.bw ∧
    (resize e m c x y w h i).isfloating = c.isfloating ∧
    (resize e m c x y w h i).isfullscreen = c.isfullscreen ∧
    (resize e m c x y w h i).tags = c.tags := by
  unfold resize applysizehints
  simp only []
  split_ifs <;> simp [resizeclient, updatesizehints]

theorem Keep.refl (T : Nat) (c : Client) : Keep T c c :=
  ⟨rfl, rfl, rfl, rfl, rfl, fun _ => rfl⟩

theorem Keep.trans {T : Nat} {a b c : Client} (h1 : Keep T a b) (h2 : Keep T b c) :
    Keep T a c := by
  obtain ⟨a1, a2, a3, a4, a5, a6⟩ := h1
  obtain ⟨b1, b2, b3, b4, b5, b6⟩ := h2
  refine ⟨by rw [b1, a1], by rw [b2, a2], by rw [b3, a3], by rw [b4, a4], by rw [b5, a5], ?_⟩
  intro h
  have hb : b = a := a6 h
  subst hb
  exact b6 h

theorem resize_keep (e : Env) (m : Monitor) (T : Nat) (c : Client) (x y w h i : Int)
    (hv : c.tags &&& T ≠ 0) : Keep T c (resize e m c x y w h i) := by
  obtain ⟨h1, h2, h3, h4, h5⟩ := resize_fields e m c x y w h i
  exact ⟨h1, h2, h3, h4, h5, fun h0 => absurd h0 hv⟩

theorem forall2_keep_refl (T : Nat) (l : List Client) : List.Forall₂ (Keep T) l l := by
  induction l with
  | nil => exact List.Forall₂.nil
  | cons c cs ih => exact List.Forall₂.cons (Keep.refl T c) ih

theorem forall2_keep_trans {T : Nat} {l1 l2 l3 : List Client}
    (h1 : List.Forall₂ (Keep T) l1 l2) (h2 : List.Forall₂ (Keep T) l2 l3) :
    List.Forall₂ (Keep T) l1 l3 := by
  induction h1 generalizing l3 with
  | nil => cases h2; exact List.Forall₂.nil
  | cons hab _ ih =>
    cases h2 with
    | cons hbc hrest => exact List.Forall₂.cons (Keep.trans hab hbc) (ih hrest)

theorem forall2_keep_map (T : Nat) (f : Client → Client) (l : List Client)
    (hf : ∀ c, Keep T c (f c)) : List.Forall₂ (Keep T) l (l.map f) := by
  induction l with
  | nil => exact List.Forall₂.nil
  | cons c cs ih => exact List.Forall₂.cons (hf c) ih

theorem tileloop_keep (e : Env) (m : Monitor) (n mw : Nat) (cs : List Client) :
    ∀ i my ty, List.Forall₂ (Keep (m.tagset m.seltags)) cs (tileloop e m n mw i my ty cs) := by
  induction cs with
  | nil => intro i my ty; exact List.Forall₂.nil
  | cons c cs ih =>
    intro i my ty
    unfold tileloop
    by_cases hs : c.isfloating ≠ 0 ∨ ISVISIBLE m c = 0
    · rw [if_pos hs]
      exact List.Forall₂.cons (Keep.refl _ c) (ih i my ty)
    · rw [if_neg hs]
      have hv : c.tags &&& m.tagset m.seltags ≠ 0 := by
        intro h0; exact hs (Or.inr h0)
      by_cases hm : i < u32 m.nmaster
      · rw [if_pos hm]
        exact List.Forall₂.cons (resize_keep e m _ c _ _ _ _ 0 hv) (ih _ _ _)
      · rw [if_neg hm]
        exact List.Forall₂.cons (resize_keep e m _ c _ _ _ _ 0 hv) (ih _ _ _)

theorem tile_keep (e : Env) (m : Monitor) :
    List.Forall₂ (Keep (m.tagset m.seltags)) m.clients (tile e m).clients := by
  unfold tile
  simp only []
  split_ifs
  · exact forall2_keep_refl _ _
  · exact tileloop_keep e m _ _ _ 0 0 0

theorem monocle_keep (e : Env) (m : Monitor) :
    List.Forall₂ (Keep (m.tagset m.seltags)) m.clients (monocle e m).clients := by
  unfold monocle
  simp only []
  split_ifs
  all_goals
    apply forall2_keep_map
    intro c
    split_ifs with hs
    · exact Keep.refl _ c
    · apply resize_keep
      intro h0
      exact hs (Or.inr h0)

theorem showhide_frame (e : Env) (ws : List Window) :
    ∀ m : Monitor, showhide e m ws = { m with clients := (showhide e m ws).clients } := by
  induction ws with
  | nil => intro m; rfl
  | cons w ws ih =>
    intro m
    unfold showhide
    split
    · exact ih m
    · split_ifs
      · rw [ih (m.modifyClient w _)]
        rfl
      · exact ih m
      · exact ih m

theorem find_cons_eq (a : Client) (l : List Client) (w : Window) (h : a.win = w) :
    (a :: l).find? (fun c => c.win == w) = some a := by
  simp [List.find?_cons, h]

theorem find_cons_ne (a : Client) (l : List Client) (w : Window) (h : ¬ a.win = w) :
    (a :: l).find? (fun c => c.win == w) = l.find? (fun c => c.win == w) := by
  simp [List.find?_cons, h]

theorem forall2_keep_modifyFirst (T : Nat) (w : Window) (f : Client → Client)
    (l : List Client)
    (hf : ∀ c, l.find? (fun c => c.win == w) = some c → Keep T c (f c)) :
    List.Forall₂ (Keep T) l (modifyFirst w f l) := by
  induction l with
  | nil => exact List.Forall₂.nil
  | cons c cs ih =>
    unfold modifyFirst
    by_cases hw : c.win = w
    · rw [if_pos hw]
      exact List.Forall₂.cons (hf c (find_cons_eq c cs w hw)) (forall2_keep_refl T cs)
    · rw [if_neg hw]
      refine List.Forall₂.cons (Keep.refl T c) (ih ?_)
      intro d hd
      apply hf
      rw [find_cons_ne c cs w hw]
      exact hd

theorem showhide_keep (e : Env) (ws : List Window) :
    ∀ m : Monitor,
      List.Forall₂ (Keep (m.tagset m.seltags)) m.clients (showhide e m ws).clients := by
  induction ws with
  | nil => intro m; exact forall2_keep_refl _ _
  | cons w ws ih =>
    intro m
    unfold showhide
    split
    · exact ih m
    · rename_i c hc
      split_ifs with hv hf
      · have h1 : List.Forall₂ (Keep (m.tagset m.seltags)) m.clients
            (m.modifyClient w (fun c => resize e m c c.x c.y c.w c.h 0)).clients := by
          apply forall2_keep_modifyFirst
          intro d hd
          have hdc : d = c := by
            unfold Monitor.client? at hc
            rw [hc] at hd
            exact (Option.some.inj hd).symm
          subst hdc
          exact resize_keep e m _ d _ _ _ _ 0 hv
        exact forall2_keep_trans h1 (ih (m.modifyClient w _))
      · exact ih m
      · exact ih m

theorem arrangemon_keep (e : Env) (m : Monitor) :
    List.Forall₂ (Keep (m.tagset m.seltags)) m.clients (arrangemon e m).clients := by
  unfold arrangemon
  split
  · exact tile_keep e m
  · exact monocle_keep e m
  · exact forall2_keep_refl _ _

theorem arrange_keep (e : Env) (m : Monitor) :
    List.Forall₂ (Keep (m.tagset m.seltags)) m.clients (arrange e m).clients := by
  unfold arrange restack
  have h1 := showhide_keep e m.stack m
  have h2 := arrangemon_keep e (showhide e m m.stack)
  have hT : (showhide e m m.stack).tagset (showhide e m m.stack).seltags
      = m.tagset m.seltags := by
    rw [showhide_frame e m.stack m]; rfl
  rw [hT] at h2
  exact forall2_keep_trans h1 h2

theorem find_of_forall2_keep {T : Nat} {l l1 : List Client} (h : List.Forall₂ (Keep T) l l1)
    (w : Window) (c : Client) (hc : l.find? (fun c => c.win == w) = some c) :
    ∃ c1, l1.find? (fun c => c.win == w) = some c1 ∧ Keep T c c1 := by
  induction h with
  | nil => simp at hc
  | @cons a b la lb hab _ ih =>
    by_cases hw : a.win = w
    · have hb : b.win = w := by rw [hab.1, hw]
      rw [find_cons_eq a la w hw] at hc
      have hac : a = c := Option.some.inj hc
      subst hac
      exact ⟨b, find_cons_eq b lb w hb, hab⟩
    · have hb : ¬ b.win = w := by rw [hab.1]; exact hw
      rw [find_cons_ne a la w hw] at hc
      obtain ⟨c1, h1, h2⟩ := ih hc
      exact ⟨c1, by rw [find_cons_ne b lb w hb]; exact h1, h2⟩

theorem find_modifyFirst (w : Window) (f : Client → Client) (hf : ∀ c, (f c).win = c.win)
    (l : List Client) (c : Client) (hc : l.find? (fun c => c.win == w) = some c) :
    (modifyFirst w f l).find? (fun c => c.win == w) = some (f c) := by
  induction l with
  | nil => simp at hc
  | cons a as ih =>
    unfold modifyFirst
    by_cases hw : a.win = w
    · rw [find_cons_eq a as w hw] at hc
      have hac : a = c := Option.some.inj hc
      subst hac
      rw [if_pos hw]
      exact find_cons_eq (f a) as w (by rw [hf, hw])
    · rw [find_cons_ne a as w hw] at hc
      rw [if_neg hw, find_cons_ne a _ w hw]
      exact ih hc

theorem modifyFirst_modifyFirst (w : Window) (f g : Client → Client)
    (hf : ∀ c, (f c).win = c.win) (l : List Client) :
    modifyFirst w g (modifyFirst w f l) = modifyFirst w (fun c => g (f c)) l := by
  induction l with
  | nil => rfl
  | cons a as ih =>
    by_cases hw : a.win = w
    · simp [modifyFirst, hw, hf]
    · simp [modifyFirst, hw, ih]

/-! ## Layout passes do not read the saved fields -/

theorem updatesizehints_core (c : Client) :
    updatesizehints c.core = (updatesizehints c).core := rfl

theorem resizeclient_core (c : Client) (x y w h : Int) :
    (resizeclient c.core x y w h).core = (resizeclient c x y w h).core := rfl

theorem resize_core_self (e : Env) (m : Monitor) (c : Client) (x y w h i : Int)
    (hh : ∀ (c : Client) (w h : Int), e.hintstail c.core w h = e.hintstail c w h) :
    (resize e m c.core x y w h i).core = (resize e m c x y w h i).core := by
  have hcl : applysizehintsClamp e m c.core x y w h i = applysizehintsClamp e m c x y w h i := rfl
  have hfl : c.core.isfloating = c.isfloating := rfl
  have hhv : c.core.hintsvalid = c.hintsvalid := rfl
  unfold resize applysizehints
  simp only []
  rw [hcl, hfl, hhv]
  by_cases hg : e.resizehints ≠ 0 ∨ c.isfloating ≠ 0 ∨ (m.lt m.sellt).arrange = none
  · rw [if_pos hg, if_pos hg]
    by_cases hv : c.hintsvalid = 0
    · rw [if_pos hv, if_pos hv]
      simp only []
      rw [updatesizehints_core, hh]
      split_ifs <;> first | rfl | (exfalso; simp_all [Client.core, Client.geom])
    · rw [if_neg hv, if_neg hv]
      simp only []
      rw [hh]
      split_ifs <;> first | rfl | (exfalso; simp_all [Client.core, Client.geom])
  · rw [if_neg hg, if_neg hg]
    simp only []
    split_ifs <;> first | rfl | (exfalso; simp_all [Client.core, Client.geom])

theorem resize_core (e : Env) (m : Monitor) (c1 c : Client) (x y w h i : Int)
    (hh : ∀ (c : Client) (w h : Int), e.hintstail c.core w h = e.hintstail c w h)
    (hc : c1.core = c.core) :
    (resize e m c1 x y w h i).core = (resize e m c x y w h i).core := by
  rw [← resize_core_self e m c1 x y w h i hh, ← resize_core_self e m c x y w h i hh, hc]

theorem tilecount_core (m : Monitor) (cs0 : List Client) {cs1 cs : List Client}
    (h : List.Forall₂ (fun a b : Client => a.core = b.core) cs1 cs) :
    tilecount { m with clients := cs0 } cs1 = tilecount m cs := by
  induction h with
  | nil => rfl
  | @cons a b la lb hab _ ih =>
    have hf : a.isfloating = b.isfloating := by
      have h0 := congrArg Client.isfloating hab
      exact h0
    have ht : a.tags = b.tags := by
      have h0 := congrArg Client.tags hab
      exact h0
    have hv : ISVISIBLE { m with clients := cs0 } a = ISVISIBLE m b := by
      unfold ISVISIBLE
      rw [ht]
      rfl
    unfold tilecount
    rw [hf, hv, ih]

theorem tileloop_core (e : Env) (m : Monitor) (cs0 : List Client) (n mw : Nat)
    (hh : ∀ (c : Client) (w h : Int), e.hintstail c.core w h = e.hintstail c w h)
    {cs1 cs : List Client}
    (h : List.Forall₂ (fun a b : Client => a.core = b.core) cs1 cs) :
    ∀ i my ty, List.Forall₂ (fun a b : Client => a.core = b.core)
      (tileloop e { m with clients := cs0 } n mw i my ty cs1) (tileloop e m n mw i my ty cs) := by
  induction h with
  | nil => intro i my ty; exact List.Forall₂.nil
  | @cons a b la lb hab _ ih =>
    intro i my ty
    have hf : a.isfloating = b.isfloating := by
      have h0 := congrArg Client.isfloating hab
      exact h0
    have ht : a.tags = b.tags := by
      have h0 := congrArg Client.tags hab
      exact h0
    have hbw : a.bw = b.bw := by
      have h0 := congrArg Client.bw hab
      exact h0
    have hv : ISVISIBLE { m with clients := cs0 } a = ISVISIBLE m b := by
      unfold ISVISIBLE
      rw [ht]
      rfl
    have hnm : ({ m with clients := cs0 } : Monitor).nmaster = m.nmaster := rfl
    have hwh : ({ m with clients := cs0 } : Monitor).wh = m.wh := rfl
    have hres : ∀ (g : Geom), (resize e { m with clients := cs0 } a g.x g.y g.w g.h 0).core
        = (resize e m b g.x g.y g.w g.h 0).core := by
      intro g
      exact resize_core e m a b g.x g.y g.w g.h 0 hh hab
    have hht : ∀ (g : Geom), HEIGHT (resize e { m with clients := cs0 } a g.x g.y g.w g.h 0)
        = HEIGHT (resize e m b g.x g.y g.w g.h 0) := by
      intro g
      have h1 := congrArg Client.h (hres g)
      have h2 := congrArg Client.bw (hres g)
      unfold HEIGHT
      exact congrArg₂ (fun p q => p + 2 * q) h1 h2
    have hm : tilemaster { m with clients := cs0 } n mw i my a = tilemaster m n mw i my b := by
      unfold tilemaster
      rw [hbw]
    have hs : tilestack { m with clients := cs0 } n mw i ty a = tilestack m n mw i ty b := by
      unfold tilestack
      rw [hbw]
    unfold tileloop
    rw [hf, hv, hnm, hwh, hm, hs]
    split_ifs
    · exact List.Forall₂.cons hab (ih i my ty)
    · simp only []
      rw [hht]
      exact List.Forall₂.cons (hres _) (ih _ _ _)
    · simp only []
      rw [hht]
      exact List.Forall₂.cons (hres _) (ih _ _ _)

theorem tile_core (e : Env) (m : Monitor) (cs1 : List Client)
    (hh : ∀ (c : Client) (w h : Int), e.hintstail c.core w h = e.hintstail c w h)
    (h : List.Forall₂ (fun a b : Client => a.core = b.core) cs1 m.clients) :
    List.Forall₂ (fun a b : Client => a.core = b.core)
      (tile e { m with clients := cs1 }).clients (tile e m).clients := by
  have hn : tilecount { m with clients := cs1 } cs1 = tilecount m m.clients :=
    tilecount_core m cs1 h
  unfold tile
  simp only []
  rw [hn]
  by_cases h0 : tilecount m m.clients = 0
  · rw [if_pos h0, if_pos h0]
    exact h
  · rw [if_neg h0, if_neg h0]
    exact tileloop_core e m cs1 _ _ hh h 0 0 0

theorem map_core (f1 f : Client → Client)
    (hf : ∀ a b : Client, a.core = b.core → (f1 a).core = (f b).core)
    {cs1 cs : List Client}
    (h : List.Forall₂ (fun a b : Client => a.core = b.core) cs1 cs) :
    List.Forall₂ (fun a b : Client => a.core = b.core) (cs1.map f1) (cs.map f) := by
  induction h with
  | nil => exact List.Forall₂.nil
  | @cons a b la lb hab _ ih => exact List.Forall₂.cons (hf a b hab) ih

theorem monocle_step_core (e : Env) (m : Monitor) (cs0 : List Client) (s0 : String)
    (hh : ∀ (c : Client) (w h : Int), e.hintstail c.core w h = e.hintstail c w h)
    (a b : Client) (hab : a.core = b.core) :
    (if a.isfloating ≠ 0 ∨ ISVISIBLE { m with clients := cs0, ltsymbol := s0 } a = 0 then a
      else resize e { m with clients := cs0, ltsymbol := s0 } a m.wx m.wy
        (m.ww - 2 * a.bw) (m.wh - 2 * a.bw) 0).core
    = (if b.isfloating ≠ 0 ∨ ISVISIBLE m b = 0 then b
      else resize e m b m.wx m.wy (m.ww - 2 * b.bw) (m.wh - 2 * b.bw) 0).core := by
  have hf : a.isfloating = b.isfloating := by
    have h0 := congrArg Client.isfloating hab
    exact h0
  have ht : a.tags = b.tags := by
    have h0 := congrArg Client.tags hab
    exact h0
  have hbw : a.bw = b.bw := by
    have h0 := congrArg Client.bw hab
    exact h0
  have hv : ISVISIBLE { m with clients := cs0, ltsymbol := s0 } a = ISVISIBLE m b := by
    unfold ISVISIBLE
    rw [ht]
    rfl
  rw [hf, hv, hbw]
  split_ifs
  · exact hab
  · exact resize_core e m a b _ _ _ _ 0 hh hab

theorem monocle_core (e : Env) (m : Monitor) (cs1 : List Client)
    (hh : ∀ (c : Client) (w h : Int), e.hintstail c.core w h = e.hintstail c w h)
    (h : List.Forall₂ (fun a b : Client => a.core = b.core) cs1 m.clients) :
    List.Forall₂ (fun a b : Client => a.core = b.core)
      (monocle e { m with clients := cs1 }).clients (monocle e m).clients := by
  unfold monocle
  simp only []
  split_ifs
  · exact map_core _ _
      (fun a b hab => Eq.trans
        (monocle_step_core e { m with ltsymbol := _ } cs1 _ hh a b hab) rfl) h
  · exact map_core _ _
      (fun a b hab => monocle_step_core e m cs1 _ hh a b hab) h
  · exact map_core _ _
      (fun a b hab => Eq.trans
        (monocle_step_core e { m with ltsymbol := _ } cs1 m.ltsymbol hh a b hab) rfl) h
  · exact map_core _ _
      (fun a b hab => monocle_step_core e m cs1 m.ltsymbol hh a b hab) h

theorem arrangemon_core (e : Env) (m : Monitor) (cs1 : List Client)
    (hh : ∀ (c : Client) (w h : Int), e.hintstail c.core w h = e.hintstail c w h)
    (h : List.Forall₂ (fun a b : Client => a.core = b.core) cs1 m.clients) :
    List.Forall₂ (fun a b : Client => a.core = b.core)
      (arrangemon e { m with clients := cs1 }).clients (arrangemon e m).clients := by
  have hl : (({ m with clients := cs1 } : Monitor).lt ({ m with clients := cs1 } : Monitor).sellt)
      = m.lt m.sellt := rfl
  unfold arrangemon
  rw [hl]
  split
  · exact tile_core e m cs1 hh h
  · exact monocle_core e m cs1 hh h
  · exact h

theorem find_core (w : Window) {cs1 cs : List Client}
    (h : List.Forall₂ (fun a b : Client => a.core = b.core) cs1 cs) :
    (cs1.find? (fun c => c.win == w) = none ∧ cs.find? (fun c => c.win == w) = none) ∨
    ∃ a b, cs1.find? (fun c => c.win == w) = some a ∧
      cs.find? (fun c => c.win == w) = some b ∧ a.core = b.core := by
  induction h with
  | nil => exact Or.inl ⟨rfl, rfl⟩
  | @cons a b la lb hab _ ih =>
    have hw : a.win = b.win := by
      have h0 := congrArg Client.win hab
      exact h0
    by_cases hb : b.win = w
    · exact Or.inr ⟨a, b, find_cons_eq a la w (by rw [hw, hb]), find_cons_eq b lb w hb, hab⟩
    · have ha : ¬ a.win = w := by rw [hw]; exact hb
      rw [find_cons_ne a la w ha, find_cons_ne b lb w hb]
      exact ih

theorem modifyFirst_core (w : Window) (f1 f : Client → Client)
    (hf : ∀ a b : Client, a.core = b.core → (f1 a).core = (f b).core)
    {cs1 cs : List Client}
    (h : List.Forall₂ (fun a b : Client => a.core = b.core) cs1 cs) :
    List.Forall₂ (fun a b : Client => a.core = b.core)
      (modifyFirst w f1 cs1) (modifyFirst w f cs) := by
  induction h with
  | nil => exact List.Forall₂.nil
  | @cons a b la lb hab hl ih =>
    have hw : a.win = b.win := by
      have h0 := congrArg Client.win hab
      exact h0
    unfold modifyFirst
    rw [hw]
    split_ifs
    · exact List.Forall₂.cons (hf a b hab) hl
    · exact List.Forall₂.cons hab ih

theorem showhide_cons_none (e : Env) (m : Monitor) (w : Window) (ws : List Window)
    (hc : m.client? w = none) : showhide e m (w :: ws) = showhide e m ws := by
  rw [showhide, hc]

theorem showhide_cons_some (e : Env) (m : Monitor) (w : Window) (ws : List Window) (c : Client)
    (hc : m.client? w = some c) :
    showhide e m (w :: ws)
      = if ISVISIBLE m c ≠ 0 ∧
          ((m.lt m.sellt).arrange = none ∨ c.isfloating ≠ 0) ∧ c.isfullscreen = 0 then
          showhide e (m.modifyClient w (fun c => resize e m c c.x c.y c.w c.h 0)) ws
        else showhide e m ws := by
  rw [showhide, hc]
  simp only []
  split_ifs <;> first | rfl | (exfalso; tauto)

theorem showhide_core (e : Env)
    (hh : ∀ (c : Client) (w h : Int), e.hintstail c.core w h = e.hintstail c w h)
    (ws : List Window) :
    ∀ (m : Monitor) (cs1 : List Client),
      List.Forall₂ (fun a b : Client => a.core = b.core) cs1 m.clients →
      ∃ cs2, showhide e { m with clients := cs1 } ws = { m with clients := cs2 } ∧
        List.Forall₂ (fun a b : Client => a.core = b.core) cs2 (showhide e m ws).clients := by
  induction ws with
  | nil => intro m cs1 h; exact ⟨cs1, rfl, h⟩
  | cons w ws ih =>
    intro m cs1 h
    rcases find_core w h with ⟨h1, h2⟩ | ⟨a, b, h1, h2, hab⟩
    · rw [showhide_cons_none e { m with clients := cs1 } w ws h1,
        showhide_cons_none e m w ws h2]
      exact ih m cs1 h
    · rw [showhide_cons_some e { m with clients := cs1 } w ws a h1,
        showhide_cons_some e m w ws b h2]
      have hf : a.isfloating = b.isfloating := by
        have h0 := congrArg Client.isfloating hab
        exact h0
      have hfs : a.isfullscreen = b.isfullscreen := by
        have h0 := congrArg Client.isfullscreen hab
        exact h0
      have ht : a.tags = b.tags := by
        have h0 := congrArg Client.tags hab
        exact h0
      have hv : ISVISIBLE { m with clients := cs1 } a = ISVISIBLE m b := by
        unfold ISVISIBLE
        rw [ht]
        rfl
      have hl : (({ m with clients := cs1 } : Monitor).lt
          ({ m with clients := cs1 } : Monitor).sellt) = m.lt m.sellt := rfl
      rw [hf, hfs, hv, hl]
      split_ifs
      · have hm : List.Forall₂ (fun a b : Client => a.core = b.core)
            (modifyFirst w (fun c => resize e { m with clients := cs1 } c c.x c.y c.w c.h 0) cs1)
            (m.modifyClient w (fun c => resize e m c c.x c.y c.w c.h 0)).clients := by
          apply modifyFirst_core w _ _ _ h
          intro p q hpq
          have hx : p.x = q.x := by
            have h0 := congrArg Client.x hpq
            exact h0
          have hy : p.y = q.y := by
            have h0 := congrArg Client.y hpq
            exact h0
          have hw : p.w = q.w := by
            have h0 := congrArg Client.w hpq
            exact h0
          have hhh : p.h = q.h := by
            have h0 := congrArg Client.h hpq
            exact h0
          show (resize e { m with clients := cs1 } p p.x p.y p.w p.h 0).core
            = (resize e m q q.x q.y q.w q.h 0).core
          rw [hx, hy, hw, hhh]
          exact resize_core e m p q _ _ _ _ 0 hh hpq
        obtain ⟨cs2, e2, r2⟩ := ih (m.modifyClient w (fun c => resize e m c c.x c.y c.w c.h 0)) _ hm
        exact ⟨cs2, e2, r2⟩
      · exact ih m cs1 h

theorem arrange_core (e : Env) (m : Monitor) (cs1 : List Client)
    (hh : ∀ (c : Client) (w h : Int), e.hintstail c.core w h = e.hintstail c w h)
    (h : List.Forall₂ (fun a b : Client => a.core = b.core) cs1 m.clients) :
    List.Forall₂ (fun a b : Client => a.core = b.core)
      (arrange e { m with clients := cs1 }).clients (arrange e m).clients := by
  obtain ⟨cs2, e2, r2⟩ := showhide_core e hh m.stack m cs1 h
  have hfr := showhide_frame e m.stack m
  unfold arrange restack
  have e3 : showhide e { m with clients := cs1 } ({ m with clients := cs1 } : Monitor).stack
      = { showhide e m m.stack with clients := cs2 } := by
    rw [hfr]
    exact e2
  rw [e3]
  exact arrangemon_core e (showhide e m m.stack) cs2 hh r2

theorem restored_core (w : Window) (cs : List Client)
    (h : ∀ c, cs.find? (fun c => c.win == w) = some c → c.isfullscreen = 0) :
    List.Forall₂ (fun a b : Client => a.core = b.core) (modifyFirst w Client.restored cs) cs := by
  induction cs with
  | nil => exact List.Forall₂.nil
  | cons c cs ih =>
    unfold modifyFirst
    by_cases hw : c.win = w
    · rw [if_pos hw]
      have h0 := h c (find_cons_eq c cs w hw)
      refine List.Forall₂.cons ?_ (List.forall₂_same.mpr (fun _ _ => rfl))
      unfold Client.restored Client.core
      simp only []
      rw [← h0]
    · rw [if_neg hw]
      refine List.Forall₂.cons rfl (ih ?_)
      intro d hd
      apply h
      rw [find_cons_ne c cs w hw]
      exact hd

theorem map_geom_core {cs1 cs : List Client}
    (h : List.Forall₂ (fun a b : Client => a.core = b.core) cs1 cs) :
    cs1.map Client.geom = cs.map Client.geom := by
  induction h with
  | nil => rfl
  | @cons a b la lb hab _ ih =>
    have hg : a.geom = b.geom := by
      have h0 := congrArg Client.geom hab
      exact h0
    rw [List.map_cons, List.map_cons, hg, ih]

theorem arrange_restored (e : Env) (m : Monitor) (w : Window) (c : Client)
    (hc : m.client? w = some c) (hfs : c.isfullscreen = 0)
    (hh : ∀ (c : Client) (w h : Int), e.hintstail c.core w h = e.hintstail c w h) :
    List.Forall₂ (fun a b : Client => a.core = b.core)
      (arrange e (m.modifyClient w Client.restored)).clients (arrange e m).clients := by
  apply arrange_core e m _ hh
  apply restored_core
  intro d hd
  have hdc : d = c := by
    unfold Monitor.client? at hc
    rw [hc] at hd
    exact (Option.some.inj hd).symm
  rw [hdc]
  exact hfs

/-! ## Fullscreen (C1, C2) -/

theorem setfullscreen_first_eq (e : Env) (m : Monitor) (w : Window) (c : Client)
    (hc : m.client? w = some c) (hfs : c.isfullscreen = 0) :
    setfullscreen e m w 1 = m.modifyClient w (Client.fullscreened m) := by
  unfold setfullscreen
  rw [hc]
  simp only []
  rw [if_pos ⟨by decide, hfs⟩]
  rfl

theorem setfullscreen_second_eq (e : Env) (m : Monitor) (w : Window) (c : Client)
    (hc : m.client? w = some c) (hfs : c.isfullscreen ≠ 0) :
    setfullscreen e m w 0 = arrange e (m.modifyClient w Client.unfullscreened) := by
  unfold setfullscreen
  rw [hc]
  simp only []
  rw [if_neg (by simp), if_pos ⟨trivial, hfs⟩]
  rfl

/-- C2: after `setfullscreen(c, 1)` on a client that is not fullscreen the client
is fullscreen and floating, has border width 0 and covers the screen rectangle
`(mx, my, mw, mh)` of its monitor. -/
theorem setfullscreen_on (e : Env) (m : Monitor) (w : Window) (c : Client)
    (hc : m.client? w = some c) (hfs : c.isfullscreen = 0) :
    ∃ c1, (setfullscreen e m w 1).client? w = some c1 ∧
      c1.isfullscreen = 1 ∧ c1.isfloating = 1 ∧ c1.bw = 0 ∧
      c1.x = m.mx ∧ c1.y = m.my ∧ c1.w = m.mw ∧ c1.h = m.mh := by
  rw [setfullscreen_first_eq e m w c hc hfs]
  refine ⟨_, find_modifyFirst w (Client.fullscreened m) (fun _ => rfl) m.clients c hc, ?_⟩
  simp [Client.fullscreened, resizeclient]

theorem setfullscreen_on_witness :
    ∃ c1, (setfullscreen Env.sample Monitor.single 7 1).client? 7 = some c1 ∧
      c1.isfullscreen = 1 ∧ c1.isfloating = 1 ∧ c1.bw = 0 ∧
      c1.x = Monitor.single.mx ∧ c1.y = Monitor.single.my ∧
      c1.w = Monitor.single.mw ∧ c1.h = Monitor.single.mh :=
  setfullscreen_on Env.sample Monitor.single 7 Client.sample (by decide) (by decide)

theorem setfullscreen_twice_eq (e : Env) (m : Monitor) (w : Window) (c : Client)
    (hc : m.client? w = some c) (hfs : c.isfullscreen = 0) :
    setfullscreen e (setfullscreen e m w 1) w 0
      = arrange e (m.modifyClient w Client.restored) := by
  rw [setfullscreen_first_eq e m w c hc hfs]
  have h1 : (m.modifyClient w (Client.fullscreened m)).client? w
      = some (Client.fullscreened m c) :=
    find_modifyFirst w (Client.fullscreened m) (fun _ => rfl) m.clients c hc
  rw [setfullscreen_second_eq e _ w _ h1 (by simp [Client.fullscreened, resizeclient])]
  unfold Monitor.modifyClient
  simp only []
  rw [modifyFirst_modifyFirst w (Client.fullscreened m) Client.unfullscreened (fun _ => rfl)]
  rfl

/-- C1 (amended): for a client `c` that is not fullscreen, `setfullscreen(c, 1)`
followed by `setfullscreen(c, 0)` is the closing `arrange(c->mon)` applied to the
monitor in which `c` has its previous geometry, border width and floating flag
(copied to the saved fields) and is not fullscreen.  Afterwards `bw` and
`isfloating` have their previous values and `isfullscreen` is 0.  The fields
`x, y, w, h` have their previous values when `c` is hidden.  When the size-hint
arithmetic of `applysizehints` does not read the saved fields, every client
ends with the geometry that `arrange(c->mon)` gives it in the state before the
two calls; so `x, y, w, h` of `c` have their previous values whenever that
`arrange` leaves the geometry of `c` as it is, and on a monitor whose layout
`arrange` leaves as it is the two calls leave every geometry as it was. -/
theorem setfullscreen_roundtrip (e : Env) (m : Monitor) (w : Window) (c : Client)
    (hc : m.client? w = some c) (hfs : c.isfullscreen = 0) :
    setfullscreen e (setfullscreen e m w 1) w 0
        = arrange e (m.modifyClient w Client.restored) ∧
    (m.modifyClient w Client.restored).client? w = some c.restored ∧
    c.restored.geom = c.geom ∧ c.restored.bw = c.bw ∧
    c.restored.isfloating = c.isfloating ∧ c.restored.isfullscreen = 0 ∧
    ∃ c2, (setfullscreen e (setfullscreen e m w 1) w 0).client? w = some c2 ∧
      c2.bw = c.bw ∧ c2.isfloating = c.isfloating ∧ c2.isfullscreen = 0 ∧
      (ISVISIBLE m c = 0 → c2.x = c.x ∧ c2.y = c.y ∧ c2.w = c.w ∧ c2.h = c.h) ∧
      ((∀ (d : Client) (w h : Int), e.hintstail d.core w h = e.hintstail d w h) →
        (setfullscreen e (setfullscreen e m w 1) w 0).clients.map Client.geom
          = (arrange e m).clients.map Client.geom ∧
        ((arrange e m).client? w).map Client.geom = some c2.geom ∧
        (((arrange e m).client? w).map Client.geom = some c.geom →
          c2.x = c.x ∧ c2.y = c.y ∧ c2.w = c.w ∧ c2.h = c.h) ∧
        ((arrange e m).clients.map Client.geom = m.clients.map Client.geom →
          (setfullscreen e (setfullscreen e m w 1) w 0).clients.map Client.geom
            = m.clients.map Client.geom)) := by
  have hfind : (m.modifyClient w Client.restored).client? w = some c.restored :=
    find_modifyFirst w Client.restored (fun _ => rfl) m.clients c hc
  refine ⟨setfullscreen_twice_eq e m w c hc hfs, hfind, rfl, rfl, rfl, rfl, ?_⟩
  rw [setfullscreen_twice_eq e m w c hc hfs]
  have hk := arrange_keep e (m.modifyClient w Client.restored)
  obtain ⟨c2, h2, hkeep⟩ := find_of_forall2_keep hk w c.restored hfind
  refine ⟨c2, h2, hkeep.2.1, hkeep.2.2.1, hkeep.2.2.2.1, ?_, ?_⟩
  · intro hv
    have heq : c2 = c.restored := hkeep.2.2.2.2.2 hv
    rw [heq]
    exact ⟨rfl, rfl, rfl, rfl⟩
  · intro hh
    have hr := arrange_restored e m w c hc hfs hh
    have hmap := map_geom_core hr
    have hget : ((arrange e m).client? w).map Client.geom = some c2.geom := by
      rcases find_core w hr with ⟨h1, _⟩ | ⟨a, b, h1, hb, hab⟩
      · rw [h1] at h2
        exact absurd h2 (by simp)
      · rw [h1] at h2
        have ha : a = c2 := Option.some.inj h2
        subst ha
        have hg : a.geom = b.geom := by
          have h0 := congrArg Client.geom hab
          exact h0
        unfold Monitor.client?
        rw [hb, hg]
        rfl
    refine ⟨hmap, hget, ?_, ?_⟩
    · intro hsame
      rw [hget] at hsame
      have hg : c2.geom = c.geom := Option.some.inj hsame
      exact ⟨congrArg Geom.x hg, congrArg Geom.y hg, congrArg Geom.w hg, congrArg Geom.h hg⟩
    · intro hlay
      rw [hmap, hlay]

theorem setfullscreen_roundtrip_witness :
    (Monitor.laidout.client? 7 = some Client.tiled ∧ Client.tiled.isfullscreen = 0 ∧
      ISVISIBLE Monitor.laidout Client.tiled ≠ 0 ∧
      (arrange Env.sample Monitor.laidout).clients.map Client.geom
        = Monitor.laidout.clients.map Client.geom ∧
      (setfullscreen Env.sample (setfullscreen Env.sample Monitor.laidout 7 1) 7 0).clients.map
        Client.geom = Monitor.laidout.clients.map Client.geom ∧
      ∃ c2, (setfullscreen Env.sample (setfullscreen Env.sample Monitor.laidout 7 1) 7 0).client? 7
          = some c2 ∧
        c2.bw = 1 ∧ c2.isfloating = 0 ∧ c2.isfullscreen = 0 ∧
        c2.x = 0 ∧ c2.y = 16 ∧ c2.w = 1918 ∧ c2.h = 1062) ∧
    (Monitor.laidout.client? 9 = some Client.hidden9 ∧
      ISVISIBLE Monitor.laidout Client.hidden9 = 0 ∧
      ∃ c2, (setfullscreen Env.sample (setfullscreen Env.sample Monitor.laidout 9 1) 9 0).client? 9
          = some c2 ∧
        c2.bw = 1 ∧ c2.isfloating = 0 ∧ c2.isfullscreen = 0 ∧
        c2.x = 10 ∧ c2.y = 20 ∧ c2.w = 800 ∧ c2.h = 600) := by
  obtain ⟨_, _, _, _, _, _, c2, h2, hbw, hfl, hfs, _, hlay⟩ :=
    setfullscreen_roundtrip Env.sample Monitor.laidout 7 Client.tiled (by decide) (by decide)
  obtain ⟨_, _, _, _, _, _, c3, h3, hbw3, hfl3, hfs3, hhid, _⟩ :=
    setfullscreen_roundtrip Env.sample Monitor.laidout 9 Client.hidden9 (by decide) (by decide)
  have hl := hlay (fun _ _ _ => rfl)
  exact ⟨⟨by decide, by decide, by decide, by decide, hl.2.2.2 (by decide),
      c2, h2, hbw, hfl, hfs, hl.2.2.1 (by decide)⟩,
    by decide, by decide, c3, h3, hbw3, hfl3, hfs3, hhid (by decide)⟩

/-- C1 (counterexample): the client `Client.above` is floating, visible and not
fullscreen, with geometry (10, -590, 800, 600): it lies wholly above the work
area, which starts at `wy = 16`.  After `setfullscreen(c, 1); setfullscreen(c, 0)`
the closing `arrange` has passed it through `showhide` and `resize`, and
`applysizehints` has moved it to `y = 16`. -/
theorem setfullscreen_roundtrip_above :
    Monitor.above.client? 7 = some Client.above ∧ Client.above.isfullscreen = 0 ∧
    Client.above.isfloating = 1 ∧ ISVISIBLE Monitor.above Client.above ≠ 0 ∧
    Client.above.geom = { x := 10, y := -590, w := 800, h := 600 } ∧
    ((setfullscreen Env.sample (setfullscreen Env.sample Monitor.above 7 1) 7 0).client? 7).map
      Client.geom = some { x := 10, y := 16, w := 800, h := 600 } := by
  decide

/-! ## Views (C3, C4) -/

theorem tile_tagfields (e : Env) (m : Monitor) :
    (tile e m).seltags = m.seltags ∧ (tile e m).tagset0 = m.tagset0 ∧
    (tile e m).tagset1 = m.tagset1 := by
  unfold tile
  simp only []
  split_ifs <;> exact ⟨rfl, rfl, rfl⟩

theorem monocle_tagfields (e : Env) (m : Monitor) :
    (monocle e m).seltags = m.seltags ∧ (monocle e m).tagset0 = m.tagset0 ∧
    (monocle e m).tagset1 = m.tagset1 := by
  unfold monocle
  simp only []
  split_ifs <;> exact ⟨rfl, rfl, rfl⟩

theorem arrange_tagfields (e : Env) (m : Monitor) :
    (arrange e m).seltags = m.seltags ∧ (arrange e m).tagset0 = m.tagset0 ∧
    (arrange e m).tagset1 = m.tagset1 := by
  have hs : (showhide e m m.stack).seltags = m.seltags ∧
      (showhide e m m.stack).tagset0 = m.tagset0 ∧
      (showhide e m m.stack).tagset1 = m.tagset1 := by
    rw [showhide_frame e m.stack m]
    exact ⟨rfl, rfl, rfl⟩
  unfold arrange restack arrangemon
  split
  · have h := tile_tagfields e (showhide e m m.stack)
    exact ⟨h.1.trans hs.1, h.2.1.trans hs.2.1, h.2.2.trans hs.2.2⟩
  · have h := monocle_tagfields e (showhide e m m.stack)
    exact ⟨h.1.trans hs.1, h.2.1.trans hs.2.1, h.2.2.trans hs.2.2⟩
  · exact hs

theorem focus_tagfields (m : Monitor) (c : Option Window) :
    (focus m c).seltags = m.seltags ∧ (focus m c).tagset0 = m.tagset0 ∧
    (focus m c).tagset1 = m.tagset1 := by
  unfold focus
  simp only []
  split <;> exact ⟨rfl, rfl, rfl⟩

theorem arrange_focus_tagfields (e : Env) (m : Monitor) (c : Option Window) :
    (arrange e (focus m c)).seltags = m.seltags ∧
    (arrange e (focus m c)).tagset0 = m.tagset0 ∧
    (arrange e (focus m c)).tagset1 = m.tagset1 := by
  have ha := arrange_tagfields e (focus m c)
  have hf := focus_tagfields m c
  exact ⟨ha.1.trans hf.1, ha.2.1.trans hf.2.1, ha.2.2.trans hf.2.2⟩

theorem fin2_cases (i : Fin 2) : i = 0 ∨ i = 1 := by
  rcases i with ⟨v, hv⟩
  interval_cases v
  · left; rfl
  · right; rfl

/-- The tagset fields after `view`: nothing changes when the masked argument is
the active tagset; otherwise `seltags` flips and the newly selected slot takes
the masked argument when that is non-zero. -/
theorem view_tagfields (e : Env) (m : Monitor) (ui : Nat) :
    ((view e m ui).seltags, (view e m ui).tagset0, (view e m ui).tagset1) =
      if ui &&& TAGMASK e = m.active then (m.seltags, m.tagset0, m.tagset1)
      else if m.seltags = 0 then
        (1, m.tagset0, if ui &&& TAGMASK e ≠ 0 then ui &&& TAGMASK e else m.tagset1)
      else (0, if ui &&& TAGMASK e ≠ 0 then ui &&& TAGMASK e else m.tagset0, m.tagset1) := by
  unfold view Monitor.active
  by_cases h : ui &&& TAGMASK e = m.tagset m.seltags
  · rw [if_pos h, if_pos h]
  · rw [if_neg h, if_neg h]
    simp only []
    rw [(arrange_focus_tagfields e _ none).1, (arrange_focus_tagfields e _ none).2.1,
      (arrange_focus_tagfields e _ none).2.2]
    have x01 : (0 : Fin 2) ^^^ 1 = 1 := by decide
    have x10 : (1 : Fin 2) ^^^ 1 = 0 := by decide
    rcases fin2_cases m.seltags with h0 | h1
    · rw [h0]
      by_cases hz : ui &&& TAGMASK e ≠ 0
      · simp [hz, Monitor.setTagset, x01]
      · simp [hz, x01]
    · rw [h1]
      by_cases hz : ui &&& TAGMASK e ≠ 0
      · simp [hz, Monitor.setTagset, x10]
      · simp [hz, x10]

theorem view_active (e : Env) (m : Monitor) (ui : Nat) :
    (view e m ui).active =
      if ui &&& TAGMASK e = m.active then m.active
      else if ui &&& TAGMASK e ≠ 0 then ui &&& TAGMASK e
      else m.tagset (m.seltags ^^^ 1) := by
  have h := view_tagfields e m ui
  have x01 : (0 : Fin 2) ^^^ 1 = 1 := by decide
  have x10 : (1 : Fin 2) ^^^ 1 = 0 := by decide
  unfold Monitor.active Monitor.tagset at *
  by_cases ha : ui &&& TAGMASK e = if m.seltags = 0 then m.tagset0 else m.tagset1
  · rw [if_pos ha] at h
    rw [if_pos ha]
    simp only [Prod.mk.injEq] at h
    rw [h.1, h.2.1, h.2.2]
  · rw [if_neg ha] at h
    rw [if_neg ha]
    rcases fin2_cases m.seltags with h0 | h1
    · rw [if_pos h0] at h
      simp only [Prod.mk.injEq] at h
      rw [h.1, h.2.1, h.2.2, h0, x01]
      simp
    · have h10 : ¬ m.seltags = 0 := by rw [h1]; decide
      rw [if_neg h10] at h
      simp only [Prod.mk.injEq] at h
      rw [h.1, h.2.1, h.2.2, h1, x10]
      simp

theorem view_prev (e : Env) (m : Monitor) (ui : Nat)
    (h : ui &&& TAGMASK e ≠ m.active) :
    (view e m ui).tagset ((view e m ui).seltags ^^^ 1) = m.active := by
  have ht := view_tagfields e m ui
  have x01 : (0 : Fin 2) ^^^ 1 = 1 := by decide
  have x10 : (1 : Fin 2) ^^^ 1 = 0 := by decide
  rw [if_neg h] at ht
  unfold Monitor.active Monitor.tagset at *
  rcases fin2_cases m.seltags with h0 | h1
  · rw [if_pos h0] at ht
    simp only [Prod.mk.injEq] at ht
    rw [ht.1, ht.2.1, h0, x10]
    simp
  · have h10 : ¬ m.seltags = 0 := by rw [h1]; decide
    rw [if_neg h10] at ht
    simp only [Prod.mk.injEq] at ht
    rw [ht.1, ht.2.2, h1, x01]
    simp

/-- C3 (amended): for non-zero masks `A` and `B` within `TAGMASK` with `A ≠ B`,
after `view(A); view(B); view(0)` the active tagset of the selected monitor is
`A`. -/
theorem view_view_view_zero (e : Env) (m : Monitor) (A B : Nat)
    (hA : A ≠ 0) (hB : B ≠ 0) (hAm : A &&& TAGMASK e = A) (hBm : B &&& TAGMASK e = B)
    (hAB : A ≠ B) :
    (view e (view e (view e m A) B) 0).active = A := by
  have h1 : (view e m A).active = A := by
    rw [view_active, hAm]
    split_ifs with h
    · exact h.symm
    · rfl
  have hne : B &&& TAGMASK e ≠ (view e m A).active := by
    rw [hBm, h1]; exact fun h => hAB h.symm
  have h2 : (view e (view e m A) B).active = B := by
    rw [view_active, if_neg hne, hBm, if_pos hB]
  have h2p : (view e (view e m A) B).tagset ((view e (view e m A) B).seltags ^^^ 1) = A := by
    rw [view_prev e (view e m A) B hne, h1]
  have h0 : (0 : Nat) &&& TAGMASK e = 0 := Nat.zero_and _
  rw [view_active, h0, h2, if_neg (fun h => hB h.symm), if_neg (by simp), h2p]

theorem view_view_view_zero_witness :
    (view Env.sample (view Env.sample (view Env.sample Monitor.single 2) 4) 0).active = 2 :=
  view_view_view_zero Env.sample Monitor.single 2 4 (by decide) (by decide) (by decide)
    (by decide) (by decide)

/-- C3 (counterexample): on the sample monitor (active tagset 1, both slots 1),
`view(2); view(2); view(0)` ends on tagset 1 and not on 2: the second `view(2)`
returns early, so `view(0)` goes back to the tagset viewed before the first
call. -/
theorem view_same_twice_then_zero :
    (2 : Nat) ≠ 0 ∧ (2 : Nat) &&& TAGMASK Env.sample = 2 ∧
    (view Env.sample (view Env.sample (view Env.sample Monitor.single 2) 2) 0).active = 1 := by
  decide

/-- C4: when both tagset slots of the selected monitor are non-zero and within
`TAGMASK`, then after `view` with any argument both slots are still non-zero and
within `TAGMASK`, and so is the active tagset. -/
theorem view_tagsets_nonzero (e : Env) (m : Monitor) (ui : Nat)
    (h0 : m.tagset0 ≠ 0) (h1 : m.tagset1 ≠ 0)
    (h0m : m.tagset0 &&& TAGMASK e = m.tagset0) (h1m : m.tagset1 &&& TAGMASK e = m.tagset1) :
    (view e m ui).tagset0 ≠ 0 ∧ (view e m ui).tagset1 ≠ 0 ∧
    (view e m ui).tagset0 &&& TAGMASK e = (view e m ui).tagset0 ∧
    (view e m ui).tagset1 &&& TAGMASK e = (view e m ui).tagset1 ∧
    (view e m ui).active ≠ 0 ∧
    (view e m ui).active &&& TAGMASK e = (view e m ui).active := by
  have ht := view_tagfields e m ui
  have hmm : (ui &&& TAGMASK e) &&& TAGMASK e = ui &&& TAGMASK e := by
    rw [Nat.land_assoc, Nat.and_self]
  have hslots : (view e m ui).tagset0 ≠ 0 ∧ (view e m ui).tagset1 ≠ 0 ∧
      (view e m ui).tagset0 &&& TAGMASK e = (view e m ui).tagset0 ∧
      (view e m ui).tagset1 &&& TAGMASK e = (view e m ui).tagset1 := by
    split_ifs at ht with ha hs hz hz
    all_goals simp only [Prod.mk.injEq] at ht
    all_goals rw [ht.2.1, ht.2.2]
    · exact ⟨h0, h1, h0m, h1m⟩
    · exact ⟨h0, hz, h0m, hmm⟩
    · exact ⟨h0, h1, h0m, h1m⟩
    · exact ⟨hz, h1, hmm, h1m⟩
    · exact ⟨h0, h1, h0m, h1m⟩
  refine ⟨hslots.1, hslots.2.1, hslots.2.2.1, hslots.2.2.2, ?_⟩
  unfold Monitor.active Monitor.tagset
  split_ifs
  · exact ⟨hslots.1, hslots.2.2.1⟩
  · exact ⟨hslots.2.1, hslots.2.2.2⟩

theorem view_tagsets_nonzero_witness :
    (view Env.sample Monitor.single 4294967295).tagset0 ≠ 0 ∧
    (view Env.sample Monitor.single 4294967295).tagset1 ≠ 0 ∧
    (view Env.sample Monitor.single 4294967295).tagset0 &&& TAGMASK Env.sample
      = (view Env.sample Monitor.single 4294967295).tagset0 ∧
    (view Env.sample Monitor.single 4294967295).tagset1 &&& TAGMASK Env.sample
      = (view Env.sample Monitor.single 4294967295).tagset1 ∧
    (view Env.sample Monitor.single 4294967295).active ≠ 0 ∧
    (view Env.sample Monitor.single 4294967295).active &&& TAGMASK Env.sample
      = (view Env.sample Monitor.single 4294967295).active :=
  view_tagsets_nonzero Env.sample Monitor.single 4294967295 (by decide) (by decide)
    (by decide) (by decide)

/-! ## Tag masks stay valid (C5) -/

theorem focus_clients (m : Monitor) (c : Option Window) : (focus m c).clients = m.clients := by
  unfold focus
  simp only []
  split <;> rfl

theorem focus_active (m : Monitor) (c : Option Window) : (focus m c).active = m.active := by
  have h := focus_tagfields m c
  unfold Monitor.active Monitor.tagset
  rw [h.1, h.2.1, h.2.2]

theorem arrange_focus_find (e : Env) (m : Monitor) (f : Option Window) (w : Window) (c : Client)
    (hc : m.client? w = some c) :
    ∃ c1, (arrange e (focus m f)).client? w = some c1 ∧ c1.tags = c.tags := by
  have hk := arrange_keep e (focus m f)
  have hc2 : (focus m f).clients.find? (fun c => c.win == w) = some c := by
    rw [focus_clients]; exact hc
  obtain ⟨c1, h1, h2⟩ := find_of_forall2_keep hk w c hc2
  exact ⟨c1, h1, h2.2.2.2.2.1⟩

theorem validtags_mask (e : Env) (ui : Nat) (h : ui &&& TAGMASK e ≠ 0) :
    validtags e (ui &&& TAGMASK e) :=
  ⟨h, by rw [Nat.land_assoc, Nat.and_self]⟩

theorem tag_selected (e : Env) (m : Monitor) (ui : Nat) (w : Window) (c : Client)
    (hsel : m.sel = some w) (hc : m.client? w = some c) (hv : validtags e c.tags) :
    ∃ c1, (tag e m ui).client? w = some c1 ∧ validtags e c1.tags ∧
      (ui &&& TAGMASK e ≠ 0 → c1.tags = ui &&& TAGMASK e) := by
  unfold tag
  rw [hsel]
  simp only []
  by_cases hz : ui &&& TAGMASK e ≠ 0
  · rw [if_pos hz]
    have hfind : (m.modifyClient w (fun c => { c with tags := ui &&& TAGMASK e })).client? w
        = some { c with tags := ui &&& TAGMASK e } :=
      find_modifyFirst w (fun c => { c with tags := ui &&& TAGMASK e }) (fun _ => rfl)
        m.clients c hc
    obtain ⟨c1, h1, h2⟩ := arrange_focus_find e _ none w _ hfind
    refine ⟨c1, h1, ?_, fun _ => h2⟩
    rw [h2]
    exact validtags_mask e ui hz
  · rw [if_neg hz]
    exact ⟨c, hc, hv, fun h => absurd h hz⟩

theorem findmon_lt (num : Int) (ms : List Monitor) (i : Nat)
    (h : findmon num ms = some i) : i < ms.length := by
  induction ms generalizing i with
  | nil => simp [findmon] at h
  | cons m ms ih =>
    unfold findmon at h
    split_ifs at h
    · have : i = 0 := (Option.some.inj h).symm
      subst this
      simp
    · cases hf : findmon num ms with
      | none => rw [hf] at h; simp at h
      | some j =>
        rw [hf] at h
        have : i = j + 1 := (Option.some.inj h).symm
        subst this
        have := ih j hf
        simp
        omega

theorem applyrulesloop_mon (mons : List Monitor) (cls inst : String) (rs : List Rule) :
    ∀ c : Client, c.mon < mons.length →
      (applyrulesloop mons cls inst rs c).mon < mons.length := by
  induction rs with
  | nil => intro c h; exact h
  | cons r rs ih =>
    intro c h
    unfold applyrulesloop
    split_ifs
    · apply ih
      simp only []
      split
      · rename_i i hi
        exact findmon_lt _ _ _ hi
      · exact h
    · exact ih c h

theorem applyrules_valid (e : Env) (s : State) (c : Client) (rc rn : Option String)
    (hmons : ∀ m ∈ s.mons, validtags e m.active) (hc : c.mon < s.mons.length) :
    ∃ c1, applyrules e s c rc rn = some c1 ∧ validtags e c1.tags := by
  unfold applyrules
  simp only []
  have hlt := applyrulesloop_mon s.mons
    (match rc with | some x => x | none => "broken")
    (match rn with | some x => x | none => "broken") e.rules
    { c with isfloating := 0, tags := 0 } hc
  obtain ⟨m, hm⟩ : ∃ m, s.mons[(applyrulesloop s.mons
      (match rc with | some x => x | none => "broken")
      (match rn with | some x => x | none => "broken") e.rules
      { c with isfloating := 0, tags := 0 }).mon]? = some m :=
    ⟨_, List.getElem?_eq_getElem hlt⟩
  rw [hm]
  refine ⟨_, rfl, ?_⟩
  simp only []
  split_ifs with hz
  · exact validtags_mask e _ hz
  · exact hmons m (List.getElem?_mem hm)

theorem modifyMon_get (s : State) (i : Nat) (f : Monitor → Monitor) (j : Nat) :
    (s.modifyMon i f).mons[j]? = if i = j then (s.mons[j]?).map f else s.mons[j]? := by
  unfold State.modifyMon
  cases h : s.mons[i]? with
  | none =>
    simp only []
    split_ifs with hij
    · subst hij; rw [h]; rfl
    · rfl
  | some m =>
    simp only []
    rw [List.getElem?_set']
    split_ifs with hij
    · subst hij; rw [h]; rfl
    · rfl

theorem modifyMon_selmon (s : State) (i : Nat) (f : Monitor → Monitor) :
    (s.modifyMon i f).selmon = s.selmon := by
  unfold State.modifyMon
  split <;> rfl

theorem wintoclient_win (ms : List Monitor) (w : Window) (c : Client)
    (h : wintoclient ms w = some c) : c.win = w := by
  induction ms with
  | nil => simp [wintoclient] at h
  | cons m ms ih =>
    unfold wintoclient at h
    split at h
    · rename_i d hd
      have hdc : d = c := Option.some.inj h
      subst hdc
      unfold Monitor.client? at hd
      have := List.find?_some hd
      simpa using this
    · exact ih h

theorem sendmon_tags (e : Env) (s : State) (w : Window) (dst : Nat) (c : Client)
    (msrc md : Monitor) (hc : wintoclient s.mons w = some c) (hne : c.mon ≠ dst)
    (hsrc : s.mons[c.mon]? = some msrc) (hdst : s.mons[dst]? = some md) :
    ∃ m1 c1, (sendmon e s w dst).mons[dst]? = some m1 ∧ m1.client? w = some c1 ∧
      c1.tags = md.active := by
  have hwin := wintoclient_win s.mons w c hc
  unfold sendmon
  rw [hc]
  simp only []
  rw [if_neg hne, hsrc, hdst]
  simp only []
  unfold arrangeall
  simp only [List.getElem?_map, modifyMon_get, modifyMon_selmon, if_neg hne, if_true, hdst,
    Option.map_some']
  have hhead : (attachstack (attach md { c with mon := dst, tags := md.tagset md.seltags }) w).client? w
      = some { c with mon := dst, tags := md.tagset md.seltags } := by
    unfold attachstack attach Monitor.client?
    exact find_cons_eq _ _ w hwin
  by_cases hs : s.selmon = dst
  · rw [if_pos hs]
    simp only [Option.map_some']
    obtain ⟨c1, h1, h2⟩ := arrange_focus_find e _ none w _ hhead
    exact ⟨_, c1, rfl, h1, h2⟩
  · rw [if_neg hs]
    simp only [Option.map_some']
    have hk := arrange_keep e (attachstack (attach md
      { c with mon := dst, tags := md.tagset md.seltags }) w)
    obtain ⟨c1, h1, h2⟩ := find_of_forall2_keep hk w _ hhead
    exact ⟨_, c1, rfl, h1, h2.2.2.2.2.1⟩

theorem sendmon_same (e : Env) (s : State) (w : Window) (c : Client)
    (hc : wintoclient s.mons w = some c) : sendmon e s w c.mon = s := by
  unfold sendmon
  rw [hc]
  simp

/-- C5: in a state where the active tagset of every monitor is non-zero and
within `TAGMASK`, the operations that write a client's tag mask keep it non-zero
and within `TAGMASK`: `tag` stores `arg & TAGMASK` when that is non-zero and
leaves the selected client alone otherwise; `applyrules` returns a client with a
valid mask for every rule table and class hint; `sendmon` to another monitor
stores that monitor's active tagset, and `sendmon` to the client's own monitor
changes nothing. -/
theorem tags_stay_valid (e : Env) (s : State)
    (hmons : ∀ m ∈ s.mons, validtags e m.active) :
    (∀ (m : Monitor) (ui : Nat) (w : Window) (c : Client),
      m.sel = some w → m.client? w = some c → validtags e c.tags →
      ∃ c1, (tag e m ui).client? w = some c1 ∧ validtags e c1.tags ∧
        (ui &&& TAGMASK e ≠ 0 → c1.tags = ui &&& TAGMASK e)) ∧
    (∀ (c : Client) (rc rn : Option String), c.mon < s.mons.length →
      ∃ c1, applyrules e s c rc rn = some c1 ∧ validtags e c1.tags) ∧
    (∀ (w : Window) (dst : Nat) (c : Client) (msrc md : Monitor),
      wintoclient s.mons w = some c → c.mon ≠ dst →
      s.mons[c.mon]? = some msrc → s.mons[dst]? = some md →
      ∃ m1 c1, (sendmon e s w dst).mons[dst]? = some m1 ∧ m1.client? w = some c1 ∧
        c1.tags = md.active ∧ validtags e c1.tags) ∧
    (∀ (w : Window) (c : Client), wintoclient s.mons w = some c →
      sendmon e s w c.mon = s) := by
  refine ⟨?_, ?_, ?_, ?_⟩
  · intro m ui w c hsel hc hv
    exact tag_selected e m ui w c hsel hc hv
  · intro c rc rn hc
    exact applyrules_valid e s c rc rn hmons hc
  · intro w dst c msrc md hc hne hsrc hdst
    obtain ⟨m1, c1, h1, h2, h3⟩ := sendmon_tags e s w dst c msrc md hc hne hsrc hdst
    refine ⟨m1, c1, h1, h2, h3, ?_⟩
    rw [h3]
    exact hmons md (List.getElem?_mem hdst)
  · intro w c hc
    exact sendmon_same e s w c hc

theorem tags_stay_valid_witness :
    (∀ m ∈ State.dual.mons, validtags Env.sample m.active) ∧
    (∃ c1, (tag Env.sample Monitor.single 6).client? 7 = some c1 ∧
      validtags Env.sample c1.tags ∧
      (6 &&& TAGMASK Env.sample ≠ 0 → c1.tags = 6 &&& TAGMASK Env.sample)) ∧
    (∃ c1, applyrules Env.sample State.dual Client.sample none none = some c1 ∧
      validtags Env.sample c1.tags) ∧
    (∃ m1 c1, (sendmon Env.sample State.dual 7 1).mons[1]? = some m1 ∧
      m1.client? 7 = some c1 ∧ c1.tags = Monitor.second.active ∧
      validtags Env.sample c1.tags) :=
  ⟨by decide,
   (tags_stay_valid Env.sample State.dual (by decide)).1 Monitor.single 6 7 Client.sample
     (by decide) (by decide) (by decide),
   (tags_stay_valid Env.sample State.dual (by decide)).2.1 Client.sample none none (by decide),
   (tags_stay_valid Env.sample State.dual (by decide)).2.2.1 7 1 Client.sample Monitor.single
     Monitor.second (by decide) (by decide) (by decide) (by decide)⟩

/-! ## Rules (C6) -/

theorem getLast?_cons_some {α : Type} (a : α) (l : List α) :
    (a :: l).getLast? = some (match l.getLast? with
      | some b => b
      | none => a) := by
  induction l generalizing a with
  | nil => rfl
  | cons b l ih =>
    rw [List.getLast?_cons_cons, ih b]

/-- One pass of the body of the rule loop. -/
theorem applyrulesloop_cons (mons : List Monitor) (cls inst : String) (r : Rule)
    (rs : List Rule) (c : Client) :
    applyrulesloop mons cls inst (r :: rs) c =
      if rulematches r c.name cls inst then
        applyrulesloop mons cls inst rs
          { c with isfloating := r.isfloating, tags := c.tags ||| r.tags,
                   mon := (match findmon r.monitor mons with
                     | some i => i
                     | none => c.mon) }
      else applyrulesloop mons cls inst rs c := by
  rw [applyrulesloop]
  split_ifs
  · cases findmon r.monitor mons <;> rfl
  · rfl

/-- The rule loop, in closed form over the matching rules of the rest of the
table. -/
theorem applyrulesloop_eq (mons : List Monitor) (cls inst : String) (rs : List Rule) :
    ∀ c : Client, applyrulesloop mons cls inst rs c =
      { c with
        isfloating := (match (rs.filter (fun r => rulematches r c.name cls inst)).getLast? with
          | some r => r.isfloating
          | none => c.isfloating),
        tags := (rs.filter (fun r => rulematches r c.name cls inst)).foldl
          (fun t r => t ||| r.tags) c.tags,
        mon := (match ((rs.filter (fun r => rulematches r c.name cls inst)).filterMap
            (fun r => findmon r.monitor mons)).getLast? with
          | some i => i
          | none => c.mon) } := by
  induction rs with
  | nil => intro c; rfl
  | cons r rs ih =>
    intro c
    rw [applyrulesloop_cons]
    by_cases hm : rulematches r c.name cls inst = true
    · have hfil : (r :: rs).filter (fun r => rulematches r c.name cls inst)
          = r :: rs.filter (fun r => rulematches r c.name cls inst) := by
        simp [List.filter, hm]
      rw [if_pos hm, ih, hfil]
      simp only [List.foldl_cons, getLast?_cons_some]
      cases hf : findmon r.monitor mons with
      | none =>
        have hfm : (r :: rs.filter (fun r => rulematches r c.name cls inst)).filterMap
              (fun r => findmon r.monitor mons)
            = (rs.filter (fun r => rulematches r c.name cls inst)).filterMap
              (fun r => findmon r.monitor mons) := by
          simp [List.filterMap_cons, hf]
        rw [hfm]
        cases (List.filter (fun r => rulematches r c.name cls inst) rs).getLast? <;> rfl
      | some i =>
        have hfm : (r :: rs.filter (fun r => rulematches r c.name cls inst)).filterMap
              (fun r => findmon r.monitor mons)
            = i :: (rs.filter (fun r => rulematches r c.name cls inst)).filterMap
              (fun r => findmon r.monitor mons) := by
          simp [List.filterMap_cons, hf]
        rw [hfm, getLast?_cons_some]
        cases (List.filter (fun r => rulematches r c.name cls inst) rs).getLast? <;>
          cases (List.filterMap (fun r => findmon r.monitor mons)
            (List.filter (fun r => rulematches r c.name cls inst) rs)).getLast? <;> rfl
    · have hfil : (r :: rs).filter (fun r => rulematches r c.name cls inst)
          = rs.filter (fun r => rulematches r c.name cls inst) := by
        simp [List.filter, hm]
      rw [if_neg hm, ih, hfil]

/-- C6 (amended): `applyrules` does what the specification says when "the
monitor named by the last matching rule" is read as the monitor named by the
last matching rule that names an existing monitor: the tags of all matching
rules are OR-ed and masked by `TAGMASK` (active tagset of the resulting monitor
when the mask is empty), the floating flag is that of the last matching rule
(0 when none matches), and the monitor is unchanged when no matching rule names
an existing monitor. -/
theorem applyrules_eq_spec (e : Env) (s : State) (c : Client) (rc rn : Option String) :
    applyrules e s c rc rn = applyrulesSpec e s c rc rn := by
  unfold applyrules applyrulesSpec matchingrules
  simp only []
  rw [applyrulesloop_eq]

/-- C6 (counterexample): with two monitors and a rule table whose first rule
sends every client to monitor 1 and whose last rule matches every client and
names monitor -1, the last matching rule names monitor -1, no monitor has that
number, and `applyrules` leaves the client on monitor 1, the one named by the
earlier rule. -/
theorem applyrules_keeps_earlier_monitor :
    (matchingrules Env.ruled Client.sample.name "broken" "broken").getLast?.map
      (fun r => r.monitor) = some (-1) ∧
    findmon (-1) State.dual.mons = none ∧
    (applyrules Env.ruled State.dual Client.sample none none).map
      (fun c => (c.mon, (State.dual.mons[c.mon]?).map (fun m => m.num), c.isfloating, c.tags))
      = some (1, some 1, 1, 4) := by
  decide

/-! ## Machine arithmetic of `tile` -/

theorem i32_uadd_u32 (a : Int) (b : Nat)
    (h1 : -2147483648 ≤ a + b) (h2 : a + b ≤ 2147483647) :
    i32 (uadd (u32 a) b) = a + b := by
  unfold i32 uadd u32
  split <;> omega

theorem i32_usub_u32 (a : Nat) (b : Int) (hb : -2147483648 ≤ b)
    (hb2 : b ≤ 2147483647) (h1 : -2147483648 ≤ a - b) (h2 : a - b ≤ 2147483647) :
    i32 (usub a (u32 b)) = a - b := by
  unfold i32 usub u32
  split <;> omega

theorem u32_nonneg (a : Int) (h0 : 0 ≤ a) (h1 : a ≤ 2147483647) : (u32 a : Int) = a := by
  unfold u32
  omega

/-! ## Float rounding -/

theorem log2fuel_spec : ∀ (fuel n : Nat), n ≠ 0 → n ≤ fuel →
    2 ^ log2fuel fuel n ≤ n ∧ n < 2 ^ (log2fuel fuel n + 1) := by
  intro fuel
  induction fuel with
  | zero => intro n h0 hle; omega
  | succ f ih =>
    intro n h0 hle
    unfold log2fuel
    by_cases h2 : n < 2
    · rw [if_pos h2]
      simp
      omega
    · rw [if_neg h2]
      obtain ⟨h1, h3⟩ := ih (n / 2) (by omega) (by omega)
      constructor
      · rw [pow_succ]
        omega
      · rw [pow_succ]
        omega

theorem rne_le (n d N : Nat) (hd : 0 < d) (h : n ≤ N * d) : rne n d ≤ N := by
  have hdm := Nat.div_add_mod n d
  have hr : n % d < d := Nat.mod_lt n hd
  have hq : n / d ≤ N := by
    calc n / d ≤ N * d / d := Nat.div_le_div_right h
      _ = N := Nat.mul_div_cancel N hd
  by_cases hlt : n / d < N
  · unfold rne
    split_ifs <;> omega
  · have hqN : n / d = N := by omega
    have hr0 : n % d = 0 := by
      rw [hqN] at hdm
      have : d * N = N * d := Nat.mul_comm d N
      omega
    unfold rne
    rw [hr0]
    simp [hd, hqN]

theorem flog2_lower (a b : Nat) (ha : 0 < a) (hb : 0 < b) (he : 0 ≤ flog2 a b) :
    b * 2 ^ (flog2 a b).toNat ≤ a := by
  obtain ⟨ha1, _⟩ := log2fuel_spec a a (by omega) (le_refl a)
  obtain ⟨_, hb2⟩ := log2fuel_spec b b (by omega) (le_refl b)
  unfold flog2 at he ⊢
  simp only [] at he ⊢
  by_cases hc : b * 2 ^ ((log2fuel a a : Int) - (log2fuel b b : Int)).toNat
      ≤ a * 2 ^ (-((log2fuel a a : Int) - (log2fuel b b : Int))).toNat
  · rw [if_pos hc] at he ⊢
    have h0 : (-((log2fuel a a : Int) - (log2fuel b b : Int))).toNat = 0 := by omega
    rw [h0, pow_zero, Nat.mul_one] at hc
    exact hc
  · rw [if_neg hc] at he ⊢
    have hd : ((log2fuel a a : Int) - (log2fuel b b : Int) - 1).toNat + (log2fuel b b + 1)
        = log2fuel a a := by omega
    have h1 : b * 2 ^ ((log2fuel a a : Int) - (log2fuel b b : Int) - 1).toNat
        ≤ 2 ^ (log2fuel b b + 1) * 2 ^ ((log2fuel a a : Int) - (log2fuel b b : Int) - 1).toNat :=
      Nat.mul_le_mul_right _ (le_of_lt hb2)
    rw [← pow_add, Nat.add_comm, hd] at h1
    exact le_trans h1 ha1

/-- Truncation of the float `M * 2^s` to a natural number. -/
theorem f32round_trunc_le (a b F : Nat) (hb : 0 < b) (h : a ≤ F * b)
    (hF : 0 ≤ flog2 a b - 23 → 2 ^ (flog2 a b - 23).toNat ∣ F) :
    (f32round a b).1 * 2 ^ (f32round a b).2.toNat / 2 ^ (-(f32round a b).2).toNat ≤ F := by
  unfold f32round
  by_cases ha : a = 0
  · rw [if_pos ha]
    simp
  · rw [if_neg ha]
    simp only []
    by_cases hs : 0 ≤ flog2 a b - 23
    · obtain ⟨N, hN⟩ := hF hs
      have h0 : (-(flog2 a b - 23)).toNat = 0 := by omega
      rw [h0, pow_zero, Nat.mul_one, Nat.div_one]
      have hM : rne a (b * 2 ^ (flog2 a b - 23).toNat) ≤ N := by
        apply rne_le _ _ _ (Nat.mul_pos hb (Nat.pow_pos (by decide)))
        calc a ≤ F * b := h
          _ = N * (b * 2 ^ (flog2 a b - 23).toNat) := by rw [hN]; ring
      calc rne a (b * 2 ^ (flog2 a b - 23).toNat) * 2 ^ (flog2 a b - 23).toNat
          ≤ N * 2 ^ (flog2 a b - 23).toNat := Nat.mul_le_mul_right _ hM
        _ = F := by rw [hN]; ring
    · have h0 : (flog2 a b - 23).toNat = 0 := by omega
      rw [h0, pow_zero, Nat.mul_one, Nat.mul_one]
      have hM : rne (a * 2 ^ (-(flog2 a b - 23)).toNat) b
          ≤ F * 2 ^ (-(flog2 a b - 23)).toNat := by
        apply rne_le _ _ _ hb
        calc a * 2 ^ (-(flog2 a b - 23)).toNat
            ≤ F * b * 2 ^ (-(flog2 a b - 23)).toNat := Nat.mul_le_mul_right _ h
          _ = F * 2 ^ (-(flog2 a b - 23)).toNat * b := by ring
      calc rne (a * 2 ^ (-(flog2 a b - 23)).toNat) b / 2 ^ (-(flog2 a b - 23)).toNat
          ≤ F * 2 ^ (-(flog2 a b - 23)).toNat / 2 ^ (-(flog2 a b - 23)).toNat :=
            Nat.div_le_div_right hM
        _ = F := Nat.mul_div_cancel F (Nat.pow_pos (by decide))

theorem f32int_le (w : Nat) : f32int w ≤ w := by
  unfold f32int
  exact Nat.div_mul_le_self w _

/-- A rational at most 1 rounds to a float at most 1: its exponent is negative
and its mantissa at most the corresponding power of two. -/
theorem f32round_le_one (a b : Nat) (hb : 0 < b) (h : a ≤ b) :
    (f32round a b).2.toNat = 0 ∧ (f32round a b).1 ≤ 2 ^ (-(f32round a b).2).toNat := by
  unfold f32round
  by_cases ha : a = 0
  · rw [if_pos ha]
    simp
  · rw [if_neg ha]
    simp only []
    have he : flog2 a b ≤ 0 := by
      by_contra hn
      have hlow := flog2_lower a b (by omega) hb (by omega)
      have h2 : 2 ^ 1 ≤ 2 ^ (flog2 a b).toNat :=
        Nat.pow_le_pow_right (by decide) (by omega)
      have h3 : b * 2 ^ 1 ≤ b * 2 ^ (flog2 a b).toNat := Nat.mul_le_mul_left b h2
      omega
    have h0 : (flog2 a b - 23).toNat = 0 := by omega
    refine ⟨h0, ?_⟩
    rw [h0, pow_zero, Nat.mul_one]
    apply rne_le _ _ _ hb
    exact Nat.mul_comm _ _ ▸ Nat.mul_le_mul_left _ h

theorem f32int_dvd (w a b : Nat) (ha : 0 < a) (hb : 0 < b) (h : a ≤ f32int w * b)
    (he : 0 ≤ flog2 a b - 23) : 2 ^ (flog2 a b - 23).toNat ∣ f32int w := by
  have hlow := flog2_lower a b ha hb (by omega)
  have hFw := f32int_le w
  have hw0 : w ≠ 0 := by
    intro h0
    rw [h0] at hFw
    have : f32int 0 = 0 := by omega
    rw [h0, this] at h
    omega
  obtain ⟨_, hw2⟩ := log2fuel_spec w w hw0 (le_refl w)
  have hpow : 2 ^ (flog2 a b).toNat ≤ w := by
    have h1 : b * 2 ^ (flog2 a b).toNat ≤ b * f32int w := by
      rw [Nat.mul_comm b (f32int w)]
      exact le_trans hlow h
    exact le_trans (Nat.le_of_mul_le_mul_left h1 hb) hFw
  have hle : (flog2 a b).toNat ≤ log2fuel w w := by
    by_contra hn
    have h2 : 2 ^ (log2fuel w w + 1) ≤ 2 ^ (flog2 a b).toNat :=
      Nat.pow_le_pow_right (by decide) (by omega)
    omega
  have hk : (flog2 a b - 23).toNat ≤ log2fuel w w - 23 := by omega
  unfold f32int
  exact Dvd.dvd.mul_left (pow_dvd_pow 2 hk) _

theorem f32mul_le (w num den : Nat) (hden : 0 < den) (h : num ≤ den) :
    f32mul w num den ≤ w := by
  obtain ⟨hq0, hq1⟩ := f32round_le_one num den hden h
  unfold f32mul
  simp only []
  rw [hq0, pow_zero, Nat.mul_one]
  have hb : 0 < 2 ^ (-(f32round num den).2).toNat := Nat.pow_pos (by decide)
  have hab : f32int w * (f32round num den).1
      ≤ f32int w * 2 ^ (-(f32round num den).2).toNat := Nat.mul_le_mul_left _ hq1
  by_cases ha : f32int w * (f32round num den).1 = 0
  · rw [ha]
    simp [f32round]
  · refine le_trans (f32round_trunc_le _ _ (f32int w) hb hab ?_) (f32int_le w)
    intro he
    exact f32int_dvd w _ _ (by omega) hb hab he

theorem rne_ge (n d : Nat) : n / d ≤ rne n d := by
  unfold rne
  split_ifs <;> omega

/-- Below `2^24` the truncated float of `a / b` is the floor of `a / b` or one
more. -/
theorem f32round_trunc_near (a b : Nat) (hb : 0 < b) (h : a < 16777216 * b) :
    a / b ≤ (f32round a b).1 * 2 ^ (f32round a b).2.toNat / 2 ^ (-(f32round a b).2).toNat ∧
    (f32round a b).1 * 2 ^ (f32round a b).2.toNat / 2 ^ (-(f32round a b).2).toNat
      ≤ a / b + 1 := by
  by_cases ha : a = 0
  · rw [ha]
    simp [f32round]
  have hs : flog2 a b - 23 ≤ 0 := by
    by_contra hn
    have hlow := flog2_lower a b (by omega) hb (by omega)
    have h2 : 2 ^ 24 ≤ 2 ^ (flog2 a b).toNat := Nat.pow_le_pow_right (by decide) (by omega)
    have h3 : b * 2 ^ 24 ≤ b * 2 ^ (flog2 a b).toNat := Nat.mul_le_mul_left b h2
    omega
  constructor
  · unfold f32round
    rw [if_neg ha]
    simp only []
    have h0 : (flog2 a b - 23).toNat = 0 := by omega
    rw [h0, pow_zero, Nat.mul_one, Nat.mul_one]
    have hpos : 0 < 2 ^ (-(flog2 a b - 23)).toNat := Nat.pow_pos (by decide)
    rw [Nat.le_div_iff_mul_le hpos]
    refine le_trans ?_ (rne_ge _ _)
    rw [Nat.le_div_iff_mul_le hb]
    calc a / b * 2 ^ (-(flog2 a b - 23)).toNat * b
        = a / b * b * 2 ^ (-(flog2 a b - 23)).toNat := by ring
      _ ≤ a * 2 ^ (-(flog2 a b - 23)).toNat :=
          Nat.mul_le_mul_right _ (Nat.div_mul_le_self a b)
  · apply f32round_trunc_le a b (a / b + 1) hb
    · have := Nat.div_add_mod a b
      have hr := Nat.mod_lt a hb
      have : (a / b + 1) * b = b * (a / b) + b := by ring
      omega
    · intro he
      have h0 : (flog2 a b - 23).toNat = 0 := by omega
      rw [h0, pow_zero]
      exact one_dvd _

theorem f32int_small (w : Nat) (h : w < 16777216) : f32int w = w := by
  have hk : log2fuel w w - 23 = 0 := by
    by_cases h0 : w = 0
    · rw [h0]
      rfl
    · obtain ⟨h1, _⟩ := log2fuel_spec w w h0 (le_refl w)
      by_contra hn
      have h2 : 2 ^ 24 ≤ 2 ^ log2fuel w w := Nat.pow_le_pow_right (by decide) (by omega)
      omega
  unfold f32int
  rw [hk, pow_zero, Nat.div_one, Nat.mul_one]

/-- For `w < 2^24` and `num <= den` the truncated float product is the floor of
the exact product of `w` and the float of `num / den`, or one more. -/
theorem f32mul_near (w num den : Nat) (hden : 0 < den) (h : num ≤ den) (hw : w < 16777216) :
    w * (f32round num den).1 / 2 ^ (-(f32round num den).2).toNat ≤ f32mul w num den ∧
    f32mul w num den ≤ w * (f32round num den).1 / 2 ^ (-(f32round num den).2).toNat + 1 := by
  obtain ⟨hq0, hq1⟩ := f32round_le_one num den hden h
  unfold f32mul
  simp only []
  rw [hq0, pow_zero, Nat.mul_one, f32int_small w hw]
  have hb : 0 < 2 ^ (-(f32round num den).2).toNat := Nat.pow_pos (by decide)
  apply f32round_trunc_near _ _ hb
  calc w * (f32round num den).1 ≤ w * 2 ^ (-(f32round num den).2).toNat :=
        Nat.mul_le_mul_left _ hq1
    _ < 16777216 * 2 ^ (-(f32round num den).2).toNat := Nat.mul_lt_mul_of_pos_right hw hb

theorem mfactmul_eq (m : Monitor) (hs : m.sane) :
    mfactmul m = f32mul m.ww.toNat m.mfact.num.toNat m.mfact.den ∧
    0 ≤ (mfactmul m : Int) ∧ (mfactmul m : Int) ≤ m.ww := by
  obtain ⟨_, _, hww0, hww1, _, _, _, _, _, _, hn0, hn1, _⟩ := hs
  have hw : m.ww.natAbs = m.ww.toNat := by omega
  have hq : m.mfact.num.natAbs = m.mfact.num.toNat := by omega
  have hle := f32mul_le m.ww.toNat m.mfact.num.toNat m.mfact.den m.mfact.den_pos (by omega)
  have hmf : mfactmul m = f32mul m.ww.toNat m.mfact.num.toNat m.mfact.den := by
    unfold mfactmul
    simp only []
    rw [if_neg (by omega), hw, hq]
    omega
  rw [hmf]
  refine ⟨rfl, by omega, by omega⟩

theorem tilemw_eq (m : Monitor) (n : Nat) (hs : m.sane) (hn : 1 ≤ n) :
    (tilemw m n : Int) =
      (if 0 < m.nmaster ∧ m.nmaster < n then (mfactmul m : Int)
       else if m.nmaster = 0 then 0 else m.ww) ∧
    0 ≤ (tilemw m n : Int) ∧ (tilemw m n : Int) ≤ m.ww := by
  have hmf := mfactmul_eq m hs
  obtain ⟨hnm0, hnm1, hww0, hww1, _⟩ := hs
  have hu : (u32 m.nmaster : Int) = m.nmaster := u32_nonneg _ hnm0 hnm1
  have hw : (u32 m.ww : Int) = m.ww := u32_nonneg _ hww0 hww1
  unfold tilemw
  by_cases h1 : n > u32 m.nmaster
  · rw [if_pos h1]
    by_cases h2 : m.nmaster ≠ 0
    · rw [if_pos h2, if_pos ⟨by omega, by omega⟩]
      exact ⟨rfl, hmf.2.1, hmf.2.2⟩
    · rw [if_neg h2, if_neg (by omega), if_pos (by omega)]
      refine ⟨rfl, le_refl _, ?_⟩
      simpa using hww0
  · rw [if_neg h1, if_neg (by omega), if_neg (by omega)]
    exact ⟨hw, by omega, by omega⟩

/-! ## Columns of `tile` (C7) -/

theorem tileloop_placed (e : Env) (m : Monitor) (n mw : Nat) (hs : m.sane)
    (hmw : (mw : Int) ≤ m.ww) (cs : List Client) (hbw : ∀ c ∈ cs, 0 ≤ c.bw ∧ c.bw ≤ 1073741823) :
    ∀ i my ty, tileplaced e m mw i cs (tileloop e m n mw i my ty cs) := by
  obtain ⟨hnm0, hnm1, hww0, hww1, _, _, hwx0, hwx1, _, _, _, _, _⟩ := hs
  have hu : (u32 m.nmaster : Int) = m.nmaster := u32_nonneg _ hnm0 hnm1
  have hw : (u32 m.ww : Int) = m.ww := u32_nonneg _ hww0 hww1
  induction cs with
  | nil => intro i my ty; simp [tileloop, tileplaced]
  | cons c cs ih =>
    intro i my ty
    have hc := hbw c (List.mem_cons_self c cs)
    have ih1 := ih (fun d hd => hbw d (List.mem_cons_of_mem c hd))
    unfold tileloop
    by_cases hsk : c.isfloating ≠ 0 ∨ ISVISIBLE m c = 0
    · rw [if_pos hsk]
      unfold tileplaced
      rw [if_pos hsk]
      exact ⟨rfl, ih1 i my ty⟩
    · rw [if_neg hsk]
      by_cases hm : i < u32 m.nmaster
      · rw [if_pos hm]
        unfold tileplaced
        rw [if_neg hsk]
        have hm1 : (i : Int) < m.nmaster := by omega
        refine ⟨⟨(tilemaster m n mw i my c).y, (tilemaster m n mw i my c).h, ?_⟩, ih1 _ _ _⟩
        simp only [tilemaster]
        rw [if_pos hm1, if_pos hm1, i32_usub_u32 mw (2 * c.bw) (by omega) (by omega)
          (by omega) (by omega)]
      · rw [if_neg hm]
        unfold tileplaced
        rw [if_neg hsk]
        have hm1 : ¬ (i : Int) < m.nmaster := by omega
        refine ⟨⟨(tilestack m n mw i ty c).y, (tilestack m n mw i ty c).h, ?_⟩, ih1 _ _ _⟩
        simp only [tilestack]
        have hsub : (usub (u32 m.ww) mw : Int) = m.ww - mw := by
          unfold usub; omega
        rw [if_neg hm1, if_neg hm1, i32_uadd_u32 m.wx mw (by omega) (by omega),
          i32_usub_u32 _ (2 * c.bw) (by omega) (by omega) (by omega) (by omega), hsub]

/-! ## Heights of `tile` (C8) -/

theorem colheights_length (wh : Nat) (k : Nat) : ∀ off, (colheights wh off k).length = k := by
  induction k with
  | zero => intro off; rfl
  | succ k ih => intro off; simp [colheights, ih]

/-- The client number `j` of a column gets the height that is left below the
clients before it, divided by the number of slots still to fill. -/
theorem colheights_getD (wh : Nat) (j : Nat) :
    ∀ k off, j < k →
      (colheights wh off k).getD j 0
        = (wh - (off + ((colheights wh off k).take j).sum)) / (k - j) := by
  induction j with
  | zero =>
    intro k off hk
    cases k with
    | zero => omega
    | succ k => simp [colheights]
  | succ j ih =>
    intro k off hk
    cases k with
    | zero => omega
    | succ k =>
      have h := ih k (off + (wh - off) / (k + 1)) (by omega)
      simp only [colheights, List.getD_cons_succ, List.take_succ_cons, List.sum_cons]
      rw [h]
      congr 1
      · omega
      · omega

theorem colheights_prefix (wh : Nat) (k : Nat) :
    ∀ off j, off ≤ wh → off + ((colheights wh off k).take j).sum ≤ wh := by
  induction k with
  | zero => intro off j h; simp [colheights]; exact h
  | succ k ih =>
    intro off j h
    cases j with
    | zero => simp; exact h
    | succ j =>
      have hd : (wh - off) / (k + 1) ≤ wh - off := Nat.div_le_self _ _
      have := ih (off + (wh - off) / (k + 1)) j (by omega)
      simp only [colheights, List.take_succ_cons, List.sum_cons]
      omega

/-- The heights of a non-empty column filled from offset `off` add up to the
height that was left. -/
theorem colheights_sum (wh : Nat) (k : Nat) :
    ∀ off, off ≤ wh → 0 < k → off + (colheights wh off k).sum = wh := by
  induction k with
  | zero => intro off _ hk; omega
  | succ k ih =>
    intro off h _
    have hd : (wh - off) / (k + 1) ≤ wh - off := Nat.div_le_self _ _
    cases k with
    | zero => simp [colheights]; omega
    | succ k =>
      have := ih (off + (wh - off) / (k + 1 + 1)) (by omega) (by omega)
      rw [colheights, List.sum_cons]
      omega

theorem take_succ_sum (l : List Nat) (j : Nat) (h : j < l.length) :
    (l.take (j + 1)).sum = (l.take j).sum + l.getD j 0 := by
  induction l generalizing j with
  | nil => simp at h
  | cons a l ih =>
    cases j with
    | zero => simp
    | succ j =>
      have := ih j (by simpa using h)
      simp only [List.take_succ_cons, List.sum_cons, List.getD_cons_succ]
      omega

theorem usub_eq (a b : Nat) (hb : b ≤ a) (ha : a < 4294967296) : usub a b = a - b := by
  unfold usub; omega

theorem uadd_eq (a b : Nat) (h : a + b < 4294967296) : uadd a b = a + b := by
  unfold uadd; omega

theorem u32_toNat (z : Int) (h0 : 0 ≤ z) (h1 : z ≤ 2147483647) : u32 z = z.toNat := by
  unfold u32; omega

theorem div_advance (W off k : Nat) (hk : 2 ≤ k) (hoff : off ≤ W) :
    (if off + (W - off) / k < W then off + (W - off) / k else off) = off + (W - off) / k := by
  by_cases h0 : W - off = 0
  · rw [h0]; simp
  · have : (W - off) / k < W - off := Nat.div_lt_self (by omega) (by omega)
    rw [if_pos (by omega)]

theorem tilecount_skip (m : Monitor) (c : Client) (cs : List Client)
    (h : c.isfloating ≠ 0 ∨ ISVISIBLE m c = 0) : tilecount m (c :: cs) = tilecount m cs := by
  rw [tilecount, if_pos h]

theorem tilecount_tiled (m : Monitor) (c : Client) (cs : List Client)
    (h : ¬ (c.isfloating ≠ 0 ∨ ISVISIBLE m c = 0)) :
    tilecount m (c :: cs) = tilecount m cs + 1 := by
  rw [tilecount, if_neg h]

theorem height_of_geom (c c1 : Client) (g : Geom) (q : Nat) (hg : c1.geom = g)
    (hbw : c1.bw = c.bw) (hh : g.h = (q : Int) - 2 * c.bw) : HEIGHT c1 = q := by
  have : c1.h = g.h := by rw [← hg]; rfl
  unfold HEIGHT
  rw [this, hh, hbw]
  omega

theorem tilemaster_eq (m : Monitor) (n mw i my : Nat) (c : Client) (hs : m.sane)
    (hmw : (mw : Int) ≤ m.ww)
    (hc : 0 ≤ c.bw ∧ c.bw ≤ 1073741823) (hi : i < min n m.nmaster.toNat)
    (hmy : my = ((colheights m.wh.toNat 0 (min n m.nmaster.toNat)).take i).sum) :
    tilemaster m n mw i my c = specrect m n mw i c.bw ∧
    usub (u32 m.wh) my / usub (min n (u32 m.nmaster)) i
      = (colheights m.wh.toNat 0 (min n m.nmaster.toNat)).getD i 0 ∧
    my + (colheights m.wh.toNat 0 (min n m.nmaster.toNat)).getD i 0 ≤ m.wh.toNat := by
  obtain ⟨hnm0, hnm1, hww0, hww1, hwh0, hwh1, hwx0, hwx1, hwy0, hwy1, _, _, _⟩ := hs
  have hW : u32 m.wh = m.wh.toNat := u32_toNat _ hwh0 hwh1
  have hNM : u32 m.nmaster = m.nmaster.toNat := u32_toNat _ hnm0 hnm1
  have hle := colheights_prefix m.wh.toNat (min n m.nmaster.toNat) 0 i (Nat.zero_le _)
  have hle1 := colheights_prefix m.wh.toNat (min n m.nmaster.toNat) 0 (i + 1) (Nat.zero_le _)
  rw [take_succ_sum _ _ (by rw [colheights_length]; exact hi)] at hle1
  have hq := colheights_getD m.wh.toNat i (min n m.nmaster.toNat) 0 hi
  rw [← hmy] at hle hle1 hq
  have hcode : usub (u32 m.wh) my / usub (min n (u32 m.nmaster)) i
      = (colheights m.wh.toNat 0 (min n m.nmaster.toNat)).getD i 0 := by
    rw [hq, hW, hNM, usub_eq _ _ (by omega) (by omega), usub_eq _ _ (by omega) (by omega)]
    simp
  refine ⟨?_, hcode, by omega⟩
  have hi1 : (i : Int) < m.nmaster := by omega
  unfold tilemaster specrect
  simp only []
  rw [if_pos hi1, hcode, ← hmy]
  rw [i32_uadd_u32 m.wy my (by omega) (by omega),
    i32_usub_u32 mw (2 * c.bw) (by omega) (by omega) (by omega) (by omega),
    i32_usub_u32 ((colheights m.wh.toNat 0 (min n m.nmaster.toNat)).getD i 0) (2 * c.bw)
      (by omega) (by omega) (by omega) (by omega)]

theorem tilestack_eq (m : Monitor) (n mw i ty : Nat) (c : Client) (hs : m.sane)
    (hmw : (mw : Int) ≤ m.ww)
    (hn32 : n < 4294967296)
    (hc : 0 ≤ c.bw ∧ c.bw ≤ 1073741823) (hi : ¬ i < m.nmaster.toNat) (hin : i < n)
    (hty : ty = ((colheights m.wh.toNat 0 (n - min n m.nmaster.toNat)).take
      (i - min n m.nmaster.toNat)).sum) :
    tilestack m n mw i ty c = specrect m n mw i c.bw ∧
    usub (u32 m.wh) ty / usub n i
      = (colheights m.wh.toNat 0 (n - min n m.nmaster.toNat)).getD
          (i - min n m.nmaster.toNat) 0 ∧
    ty + (colheights m.wh.toNat 0 (n - min n m.nmaster.toNat)).getD
          (i - min n m.nmaster.toNat) 0 ≤ m.wh.toNat := by
  obtain ⟨hnm0, hnm1, hww0, hww1, hwh0, hwh1, hwx0, hwx1, hwy0, hwy1, _, _, _⟩ := hs
  have hW : u32 m.wh = m.wh.toNat := u32_toNat _ hwh0 hwh1
  have hWW : u32 m.ww = m.ww.toNat := u32_toNat _ hww0 hww1
  have hj : i - min n m.nmaster.toNat < n - min n m.nmaster.toNat := by omega
  have hle := colheights_prefix m.wh.toNat (n - min n m.nmaster.toNat) 0
    (i - min n m.nmaster.toNat) (Nat.zero_le _)
  have hle1 := colheights_prefix m.wh.toNat (n - min n m.nmaster.toNat) 0
    (i - min n m.nmaster.toNat + 1) (Nat.zero_le _)
  rw [take_succ_sum _ _ (by rw [colheights_length]; exact hj)] at hle1
  have hq := colheights_getD m.wh.toNat (i - min n m.nmaster.toNat)
    (n - min n m.nmaster.toNat) 0 hj
  rw [← hty] at hle hle1 hq
  have hslots : n - min n m.nmaster.toNat - (i - min n m.nmaster.toNat) = n - i := by omega
  have hcode : usub (u32 m.wh) ty / usub n i
      = (colheights m.wh.toNat 0 (n - min n m.nmaster.toNat)).getD
          (i - min n m.nmaster.toNat) 0 := by
    rw [hq, hW, usub_eq _ _ (by omega) (by omega), usub_eq _ _ (by omega) (by omega), hslots]
    simp
  refine ⟨?_, hcode, by omega⟩
  have hi1 : ¬ (i : Int) < m.nmaster := by omega
  have hsub : (usub (u32 m.ww) mw : Int) = m.ww - mw := by
    rw [hWW, usub_eq _ _ (by omega) (by omega)]; omega
  unfold tilestack specrect
  simp only []
  rw [if_neg hi1, hcode, ← hty]
  rw [i32_uadd_u32 m.wx mw (by omega) (by omega), i32_uadd_u32 m.wy ty (by omega) (by omega),
    i32_usub_u32 (usub (u32 m.ww) mw) (2 * c.bw) (by omega) (by omega) (by omega) (by omega),
    i32_usub_u32 ((colheights m.wh.toNat 0 (n - min n m.nmaster.toNat)).getD
      (i - min n m.nmaster.toNat) 0) (2 * c.bw) (by omega) (by omega) (by omega) (by omega),
    hsub]

/-- The placement loop of `tile` computes the geometry of the specification when
`applysizehints` leaves the proposed rectangles unchanged. -/
theorem tileloop_spec (e : Env) (m : Monitor) (n mw : Nat) (hs : m.sane)
    (hmw : (mw : Int) ≤ m.ww) (hn32 : n < 4294967296) (cs : List Client) :
    ∀ i my ty, (∀ c ∈ cs, 0 ≤ c.bw ∧ c.bw ≤ 1073741823) →
      i + tilecount m cs = n →
      (i < min n m.nmaster.toNat →
        my = ((colheights m.wh.toNat 0 (min n m.nmaster.toNat)).take i).sum) →
      (i < n → ty = ((colheights m.wh.toNat 0 (n - min n m.nmaster.toNat)).take
        (i - min n m.nmaster.toNat)).sum) →
      tilefixed e m n mw i cs = true →
      (tileloop e m n mw i my ty cs).map Client.geom = tilespec m n mw i cs := by
  have hs0 := hs
  obtain ⟨hnm0, hnm1, hww0, hww1, hwh0, hwh1, hwx0, hwx1, hwy0, hwy1, _, _, _⟩ := hs0
  have hW : u32 m.wh = m.wh.toNat := u32_toNat _ hwh0 hwh1
  have hNM : u32 m.nmaster = m.nmaster.toNat := u32_toNat _ hnm0 hnm1
  induction cs with
  | nil => intro i my ty _ _ _ _ _; rfl
  | cons c cs ih =>
    intro i my ty hbw hcount hmy hty hfix
    have hc := hbw c (List.mem_cons_self c cs)
    have hbw1 : ∀ d ∈ cs, 0 ≤ d.bw ∧ d.bw ≤ 1073741823 :=
      fun d hd => hbw d (List.mem_cons_of_mem c hd)
    unfold tileloop tilespec
    unfold tilefixed at hfix
    by_cases hsk : c.isfloating ≠ 0 ∨ ISVISIBLE m c = 0
    · rw [if_pos hsk] at hfix
      rw [if_pos hsk, if_pos hsk, List.map_cons]
      rw [tilecount_skip m c cs hsk] at hcount
      rw [ih i my ty hbw1 hcount hmy hty hfix]
    · rw [if_neg hsk] at hfix
      rw [if_neg hsk, if_neg hsk]
      rw [tilecount_tiled m c cs hsk] at hcount
      have hin : i < n := by omega
      rw [Bool.and_eq_true, decide_eq_true_eq] at hfix
      obtain ⟨hgeom, hfix1⟩ := hfix
      by_cases hm : i < u32 m.nmaster
      · rw [if_pos hm]
        have him : i < min n m.nmaster.toNat := by omega
        obtain ⟨hg, hq, hqle⟩ := tilemaster_eq m n mw i my c hs hmw hc him (hmy him)
        simp only []
        rw [hg, List.map_cons, hgeom]
        have hH : HEIGHT (resize e m c (specrect m n mw i c.bw).x (specrect m n mw i c.bw).y
            (specrect m n mw i c.bw).w (specrect m n mw i c.bw).h 0)
            = ((colheights m.wh.toNat 0 (min n m.nmaster.toNat)).getD i 0 : Nat) := by
          apply height_of_geom c _ _ _ hgeom (resize_fields e m c _ _ _ _ 0).2.1
          unfold specrect
          simp only []
          rw [if_pos (by omega)]
        rw [hH]
        congr 1
        apply ih _ _ _ hbw1 (by omega) _ _ hfix1
        · intro h2
          have hu : u32 (((colheights m.wh.toNat 0 (min n m.nmaster.toNat)).getD i 0 : Nat) : Int)
              = (colheights m.wh.toNat 0 (min n m.nmaster.toNat)).getD i 0 := by
            unfold u32; omega
          rw [hu, hW, uadd_eq _ _ (by omega)]
          rw [take_succ_sum _ _ (by rw [colheights_length]; exact him), ← hmy him]
          have hq2 := colheights_getD m.wh.toNat i (min n m.nmaster.toNat) 0 him
          rw [← hmy him, Nat.zero_add] at hq2
          rw [hq2]
          exact div_advance _ _ _ (by omega) (by omega)
        · intro h2
          have := hty hin
          have h0 : i - min n m.nmaster.toNat = 0 := by omega
          have h1 : i + 1 - min n m.nmaster.toNat = 0 := by omega
          rw [h0] at this
          rw [h1]
          exact this
      · rw [if_neg hm]
        have hi1 : ¬ i < m.nmaster.toNat := by omega
        obtain ⟨hg, hq, hqle⟩ := tilestack_eq m n mw i ty c hs hmw hn32 hc hi1 hin (hty hin)
        simp only []
        rw [hg, List.map_cons, hgeom]
        have hH : HEIGHT (resize e m c (specrect m n mw i c.bw).x (specrect m n mw i c.bw).y
            (specrect m n mw i c.bw).w (specrect m n mw i c.bw).h 0)
            = ((colheights m.wh.toNat 0 (n - min n m.nmaster.toNat)).getD
                (i - min n m.nmaster.toNat) 0 : Nat) := by
          apply height_of_geom c _ _ _ hgeom (resize_fields e m c _ _ _ _ 0).2.1
          unfold specrect
          simp only []
          rw [if_neg (by omega)]
        rw [hH]
        congr 1
        apply ih _ _ _ hbw1 (by omega) _ _ hfix1
        · intro h2
          omega
        · intro h2
          have hj : i - min n m.nmaster.toNat < n - min n m.nmaster.toNat := by omega
          have hu : u32 (((colheights m.wh.toNat 0 (n - min n m.nmaster.toNat)).getD
              (i - min n m.nmaster.toNat) 0 : Nat) : Int)
              = (colheights m.wh.toNat 0 (n - min n m.nmaster.toNat)).getD
                (i - min n m.nmaster.toNat) 0 := by
            unfold u32; omega
          have hidx : i + 1 - min n m.nmaster.toNat = i - min n m.nmaster.toNat + 1 := by omega
          rw [hu, hW, uadd_eq _ _ (by omega), hidx]
          rw [take_succ_sum _ _ (by rw [colheights_length]; exact hj), ← hty hin]
          have hq2 := colheights_getD m.wh.toNat (i - min n m.nmaster.toNat)
            (n - min n m.nmaster.toNat) 0 hj
          rw [← hty hin, Nat.zero_add] at hq2
          rw [hq2]
          exact div_advance _ _ _ (by omega) (by omega)

theorem tilespec_skipall (m : Monitor) (n : Nat) (mw : Int) (cs : List Client) :
    ∀ k, tilecount m cs = 0 → tilespec m n mw k cs = cs.map Client.geom := by
  induction cs with
  | nil => intro k _; rfl
  | cons c cs ih =>
    intro k h
    by_cases hsk : c.isfloating ≠ 0 ∨ ISVISIBLE m c = 0
    · rw [tilecount_skip m c cs hsk] at h
      rw [tilespec, if_pos hsk, ih k h, List.map_cons]
    · rw [tilecount_tiled m c cs hsk] at h
      omega

theorem tilecount_le (m : Monitor) (cs : List Client) : tilecount m cs ≤ cs.length := by
  induction cs with
  | nil => simp [tilecount]
  | cons c cs ih =>
    unfold tilecount
    split_ifs
    · simp; omega
    · simp; omega

theorem specrect_single (m : Monitor) (hs : m.sane) (bw : Int) :
    specrect m 1 (tilemw m 1) 0 bw
      = { x := m.wx, y := m.wy, w := m.ww - 2 * bw, h := m.wh - 2 * bw } := by
  obtain ⟨hnm0, hnm1, hww0, hww1, hwh0, hwh1, _⟩ := hs
  have hNM : u32 m.nmaster = m.nmaster.toNat := u32_toNat _ hnm0 hnm1
  have hW : u32 m.ww = m.ww.toNat := u32_toNat _ hww0 hww1
  unfold specrect tilemw
  simp only []
  by_cases h : (0 : Int) < m.nmaster
  · have hmin : min 1 m.nmaster.toNat = 1 := by omega
    have h1 : ¬ 1 > u32 m.nmaster := by omega
    rw [if_neg h1, hmin, hW]
    simp [colheights, h]
    constructor <;> omega
  · have h0 : m.nmaster = 0 := by omega
    have hmin : min 1 m.nmaster.toNat = 0 := by omega
    have h1 : 1 > u32 m.nmaster := by omega
    rw [if_pos h1, hmin]
    simp [colheights, h0]
    omega

/-- C8: when `applysizehints` leaves the rectangles proposed by `tile`
unchanged, the geometry of every client after `tile` is the one of the
specification (`tilespec`): in each column the clients are placed from `wy`
downwards, each directly below the outer heights of the clients before it, and
the client number `j` of a column of `k` slots gets the outer height
`(wh - offset) / (k - j)`; the outer heights of a non-empty master column and
of a non-empty stack column add up to `wh`; a single tiled client gets
`(wx, wy, ww - 2bw, wh - 2bw)`. -/
theorem tile_heights (e : Env) (m : Monitor) (hs : m.sane)
    (hfix : tilefixed e m (tilecount m m.clients) (tilemw m (tilecount m m.clients)) 0
      m.clients = true) :
    (tile e m).clients.map Client.geom
      = tilespec m (tilecount m m.clients) (tilemw m (tilecount m m.clients)) 0 m.clients ∧
    (∀ k j, j < k →
      (colheights m.wh.toNat 0 k).getD j 0
        = (m.wh.toNat - ((colheights m.wh.toNat 0 k).take j).sum) / (k - j)) ∧
    (0 < min (tilecount m m.clients) m.nmaster.toNat →
      (((colheights m.wh.toNat 0 (min (tilecount m m.clients) m.nmaster.toNat)).sum : Nat) : Int)
        = m.wh) ∧
    (min (tilecount m m.clients) m.nmaster.toNat < tilecount m m.clients →
      (((colheights m.wh.toNat 0
        (tilecount m m.clients - min (tilecount m m.clients) m.nmaster.toNat)).sum : Nat) : Int)
        = m.wh) ∧
    (tilecount m m.clients = 1 → ∀ bw : Int,
      specrect m 1 (tilemw m 1) 0 bw
        = { x := m.wx, y := m.wy, w := m.ww - 2 * bw, h := m.wh - 2 * bw }) := by
  have hwh0 : 0 ≤ m.wh := hs.2.2.2.2.1
  refine ⟨?_, ?_, ?_, ?_, ?_⟩
  · unfold tile
    simp only []
    by_cases hn : tilecount m m.clients = 0
    · rw [if_pos hn, tilespec_skipall m _ _ m.clients 0 hn]
    · rw [if_neg hn]
      have hmw := tilemw_eq m (tilecount m m.clients) hs (by omega)
      have hlen := tilecount_le m m.clients
      have hl : m.clients.length ≤ 2147483647 := hs.2.2.2.2.2.2.2.2.2.2.2.2.1
      exact tileloop_spec e m _ _ hs hmw.2.2 (by omega) m.clients 0 0 0
        hs.2.2.2.2.2.2.2.2.2.2.2.2.2 (by omega) (fun _ => by simp) (fun _ => by simp) hfix
  · intro k j hjk
    have := colheights_getD m.wh.toNat j k 0 hjk
    rw [Nat.zero_add] at this
    exact this
  · intro h
    have := colheights_sum m.wh.toNat _ 0 (Nat.zero_le _) h
    omega
  · intro h
    have := colheights_sum m.wh.toNat
      (tilecount m m.clients - min (tilecount m m.clients) m.nmaster.toNat) 0
      (Nat.zero_le _) (by omega)
    omega
  · intro _ bw
    exact specrect_single m hs bw

theorem tile_heights_witness :
    (tile Env.sample Monitor.triple).clients.map Client.geom
      = tilespec Monitor.triple (tilecount Monitor.triple Monitor.triple.clients)
          (tilemw Monitor.triple (tilecount Monitor.triple Monitor.triple.clients)) 0
          Monitor.triple.clients ∧
    (tile Env.sample Monitor.triple).clients.map Client.geom
      = [{ x := 0, y := 16, w := 958, h := 1062 }, { x := 960, y := 16, w := 958, h := 530 },
         { x := 960, y := 548, w := 958, h := 530 }] :=
  ⟨(tile_heights Env.sample Monitor.triple (by decide) (by decide)).1, by decide⟩

/-! ## Columns of `tile`, the statement (C7) -/

theorem specrect_columns (m : Monitor) (n : Nat) (mw : Int) (k : Nat) (bw : Int) :
    (specrect m n mw k bw).x = (if (k : Int) < m.nmaster then m.wx else m.wx + mw) ∧
    (specrect m n mw k bw).w + 2 * bw = (if (k : Int) < m.nmaster then mw else m.ww - mw) := by
  unfold specrect
  simp only []
  split_ifs
  · exact ⟨rfl, by simp⟩
  · exact ⟨rfl, by simp⟩

/-- C7 (amended): for a monitor with `n ≥ 1` tiled clients, `tile` uses as master
width `mw` the `float` product `ww * mfact` converted to `unsigned int` when
`nmaster > 0` and `n > nmaster`, the width 0 when `nmaster = 0`, and the full
width `ww` when `n ≤ nmaster`.  The converted product is at most `ww` and, for
`ww < 2^24`, it is the floor of the exact product of `ww` and the float of
`mfact`, or one more.  The clients of loop index below `nmaster` are passed to
`resize` with `x = wx` and outer width `mw`, the remaining ones with
`x = wx + mw` and outer width `ww - mw`; when `applysizehints` leaves the
proposed rectangles unchanged, the clients end with exactly these columns. -/
theorem tile_columns (e : Env) (m : Monitor) (hs : m.sane)
    (hn : 1 ≤ tilecount m m.clients) :
    (tilemw m (tilecount m m.clients) : Int) =
      (if 0 < m.nmaster ∧ m.nmaster < tilecount m m.clients then (mfactmul m : Int)
       else if m.nmaster = 0 then 0 else m.ww) ∧
    mfactmul m = f32mul m.ww.toNat m.mfact.num.toNat m.mfact.den ∧
    (mfactmul m : Int) ≤ m.ww ∧
    (m.ww < 16777216 →
      m.ww.toNat * (f32round m.mfact.num.toNat m.mfact.den).1
          / 2 ^ (-(f32round m.mfact.num.toNat m.mfact.den).2).toNat ≤ mfactmul m ∧
      mfactmul m ≤ m.ww.toNat * (f32round m.mfact.num.toNat m.mfact.den).1
          / 2 ^ (-(f32round m.mfact.num.toNat m.mfact.den).2).toNat + 1) ∧
    tileplaced e m (tilemw m (tilecount m m.clients)) 0 m.clients (tile e m).clients ∧
    (tilefixed e m (tilecount m m.clients) (tilemw m (tilecount m m.clients)) 0
        m.clients = true →
      (tile e m).clients.map Client.geom
        = tilespec m (tilecount m m.clients) (tilemw m (tilecount m m.clients)) 0
            m.clients) ∧
    (∀ (k : Nat) (bw : Int),
      (specrect m (tilecount m m.clients) (tilemw m (tilecount m m.clients)) k bw).x
        = (if (k : Int) < m.nmaster then m.wx
           else m.wx + (tilemw m (tilecount m m.clients) : Int)) ∧
      (specrect m (tilecount m m.clients) (tilemw m (tilecount m m.clients)) k bw).w + 2 * bw
        = (if (k : Int) < m.nmaster then (tilemw m (tilecount m m.clients) : Int)
           else m.ww - (tilemw m (tilecount m m.clients) : Int))) := by
  have hmw := tilemw_eq m (tilecount m m.clients) hs hn
  have hmf := mfactmul_eq m hs
  have hlen := tilecount_le m m.clients
  have hl : m.clients.length ≤ 2147483647 := hs.2.2.2.2.2.2.2.2.2.2.2.2.1
  refine ⟨hmw.1, hmf.1, hmf.2.2, ?_, ?_, ?_, fun k bw => specrect_columns m _ _ k bw⟩
  · intro hw
    rw [hmf.1]
    exact f32mul_near m.ww.toNat m.mfact.num.toNat m.mfact.den m.mfact.den_pos
      (by have := hs.2.2.2.2.2.2.2.2.2.2.2.1; have := hs.2.2.2.2.2.2.2.2.2.2.1; omega)
      (by have := hs.2.2.1; omega)
  · unfold tile
    simp only []
    rw [if_neg (by omega)]
    exact tileloop_placed e m _ _ hs hmw.2.2 m.clients hs.2.2.2.2.2.2.2.2.2.2.2.2.2 0 0 0
  · intro hfix
    unfold tile
    simp only []
    rw [if_neg (by omega)]
    exact tileloop_spec e m _ _ hs hmw.2.2 (by omega) m.clients 0 0 0
      hs.2.2.2.2.2.2.2.2.2.2.2.2.2 (by omega) (fun _ => by simp) (fun _ => by simp) hfix

theorem tile_columns_witness :
    Monitor.seventy.sane ∧ 1 ≤ tilecount Monitor.seventy Monitor.seventy.clients ∧
    (tilemw Monitor.seventy (tilecount Monitor.seventy Monitor.seventy.clients) : Int) =
      (if 0 < Monitor.seventy.nmaster ∧
          Monitor.seventy.nmaster < tilecount Monitor.seventy Monitor.seventy.clients then
        (mfactmul Monitor.seventy : Int)
       else if Monitor.seventy.nmaster = 0 then 0 else Monitor.seventy.ww) ∧
    mfactmul Monitor.seventy = 700 ∧
    (Monitor.seventy.ww < 16777216 ∧
      Monitor.seventy.ww.toNat
          * (f32round Monitor.seventy.mfact.num.toNat Monitor.seventy.mfact.den).1
          / 2 ^ (-(f32round Monitor.seventy.mfact.num.toNat Monitor.seventy.mfact.den).2).toNat
        ≤ mfactmul Monitor.seventy ∧
      mfactmul Monitor.seventy ≤ Monitor.seventy.ww.toNat
          * (f32round Monitor.seventy.mfact.num.toNat Monitor.seventy.mfact.den).1
          / 2 ^ (-(f32round Monitor.seventy.mfact.num.toNat Monitor.seventy.mfact.den).2).toNat
        + 1) ∧
    (tile Env.sample Monitor.seventy).clients.map Client.geom
      = tilespec Monitor.seventy (tilecount Monitor.seventy Monitor.seventy.clients)
          (tilemw Monitor.seventy (tilecount Monitor.seventy Monitor.seventy.clients)) 0
          Monitor.seventy.clients ∧
    (tile Env.sample Monitor.seventy).clients.map Client.geom
      = [{ x := 0, y := 16, w := 698, h := 1062 }, { x := 700, y := 16, w := 298, h := 530 },
         { x := 700, y := 548, w := 298, h := 530 }] :=
  ⟨by decide, by decide,
   (tile_columns Env.sample Monitor.seventy (by decide) (by decide)).1,
   by decide,
   ⟨by decide,
    (tile_columns Env.sample Monitor.seventy (by decide) (by decide)).2.2.2.1 (by decide)⟩,
   (tile_columns Env.sample Monitor.seventy (by decide) (by decide)).2.2.2.2.2.1 (by decide),
   by decide⟩

/-- C7 (counterexample): with `nmaster = 0` and one tiled client the master
width computed by `tile` is 0 and not `ww = 1920`, and the client is placed at
`x = wx = 0` with outer width 1920, not at `x = wx + ww`.  Moreover the width
is the truncated `float` product and not the floor of the exact product: with
`ww = 1000` and `mfact = 0.7f = 11744051 / 2^24` the exact product is
699.99998..., with floor 699, while the float product rounds to 700.0 and
`mw = 700`. -/
theorem tile_nomaster_width :
    tilecount Monitor.nomaster Monitor.nomaster.clients = 1 ∧
    tilemw Monitor.nomaster 1 = 0 ∧ Monitor.nomaster.ww = 1920 ∧
    (tile Env.sample Monitor.nomaster).clients.map Client.geom
      = [{ x := 0, y := 16, w := 1918, h := 1062 }] ∧
    tilecount Monitor.seventy Monitor.seventy.clients = 3 ∧ Monitor.seventy.nmaster = 1 ∧
    tilemw Monitor.seventy 3 = 700 ∧
    Monitor.seventy.ww * Monitor.seventy.mfact.num / (Monitor.seventy.mfact.den : Int) = 699 := by
  decide

/-- The proposed rectangle is not always the final one: on a work area 30
pixels wide the columns are 15 pixels wide, and `applysizehints` raises the
inner width 13 to the bar height 16, so the clients end with the outer width
18. -/
theorem tile_narrow_sample :
    Monitor.narrow.sane ∧ tilemw Monitor.narrow 3 = 15 ∧
    (tile Env.sample Monitor.narrow).clients.map (fun c => (c.x, WIDTH c))
      = [(0, 18), (15, 18), (15, 18)] := by
  decide

/-- The master widths of the float product on ordinary inputs. -/
theorem mfactmul_sample :
    f32mul 1000 11744051 16777216 = 700 ∧ f32mul 1440 13 20 = 935 ∧
    f32mul 1920 1 2 = 960 ∧ f32round 13 20 = (10905190, -24) := by
  decide

/-! ## Monocle (C9) -/

theorem find_map_win (f : Client → Client) (hf : ∀ c, (f c).win = c.win) (w : Window)
    (l : List Client) :
    (l.map f).find? (fun c => c.win == w) = (l.find? (fun c => c.win == w)).map f := by
  induction l with
  | nil => rfl
  | cons a l ih =>
    by_cases h : a.win = w
    · rw [List.map_cons, find_cons_eq (f a) _ w (by rw [hf, h]), find_cons_eq a l w h]
      rfl
    · rw [List.map_cons, find_cons_ne (f a) _ w (by rw [hf]; exact h), find_cons_ne a l w h, ih]

theorem resize_ltsymbol (e : Env) (m : Monitor) (s : String) (c : Client) (x y w h i : Int) :
    resize e { m with ltsymbol := s } c x y w h i = resize e m c x y w h i := rfl

theorem monocle_clients (e : Env) (m : Monitor) :
    (monocle e m).clients = m.clients.map (fun c =>
      if c.isfloating ≠ 0 ∨ ISVISIBLE m c = 0 then c
      else resize e m c m.wx m.wy (m.ww - 2 * c.bw) (m.wh - 2 * c.bw) 0) := by
  unfold monocle
  simp only []
  split_ifs <;> rfl

/-- C9 (amended): after `monocle(m)` the layout symbol is `"[N]"` for the number
`N` of visible clients when `N > 0` and is left as it is when `N = 0`; every
client that is visible and not floating has been passed through `resize` with
the work area less its border, and so fills the work area when `applysizehints`
leaves that rectangle unchanged; floating and hidden clients are as before. -/
theorem monocle_fills (e : Env) (m : Monitor) (w : Window) (c : Client)
    (hc : m.client? w = some c) :
    (monocle e m).ltsymbol =
      (if 0 < m.clients.countP (fun c => decide (ISVISIBLE m c ≠ 0)) then
        "[" ++ toString (m.clients.countP (fun c => decide (ISVISIBLE m c ≠ 0))) ++ "]"
       else m.ltsymbol) ∧
    ∃ c1, (monocle e m).client? w = some c1 ∧
      (c.isfloating ≠ 0 ∨ ISVISIBLE m c = 0 → c1 = c) ∧
      (c.isfloating = 0 → ISVISIBLE m c ≠ 0 →
        c1 = resize e m c m.wx m.wy (m.ww - 2 * c.bw) (m.wh - 2 * c.bw) 0 ∧
        (c1.geom = { x := m.wx, y := m.wy, w := m.ww - 2 * c.bw, h := m.wh - 2 * c.bw } →
          c1.x = m.wx ∧ c1.y = m.wy ∧ c1.w + 2 * c1.bw = m.ww ∧ c1.h + 2 * c1.bw = m.wh)) := by
  constructor
  · unfold monocle
    simp only []
    split_ifs <;> rfl
  · have hfind : (monocle e m).client? w = some (if c.isfloating ≠ 0 ∨ ISVISIBLE m c = 0 then c
        else resize e m c m.wx m.wy (m.ww - 2 * c.bw) (m.wh - 2 * c.bw) 0) := by
      unfold Monitor.client?
      rw [monocle_clients, find_map_win _ _ w m.clients]
      · unfold Monitor.client? at hc
        rw [hc]
        rfl
      · intro d
        split_ifs
        · rfl
        · exact (resize_fields e m d _ _ _ _ 0).1
    refine ⟨_, hfind, ?_, ?_⟩
    · intro hsk
      rw [if_pos hsk]
    · intro hf hv
      have hsk : ¬ (c.isfloating ≠ 0 ∨ ISVISIBLE m c = 0) := by
        intro h
        rcases h with h | h
        · exact h hf
        · exact hv h
      rw [if_neg hsk]
      refine ⟨rfl, ?_⟩
      intro hg
      have hbw := (resize_fields e m c m.wx m.wy (m.ww - 2 * c.bw) (m.wh - 2 * c.bw) 0).2.1
      have hx : (resize e m c m.wx m.wy (m.ww - 2 * c.bw) (m.wh - 2 * c.bw) 0).x = m.wx :=
        congrArg Geom.x hg
      have hy : (resize e m c m.wx m.wy (m.ww - 2 * c.bw) (m.wh - 2 * c.bw) 0).y = m.wy :=
        congrArg Geom.y hg
      have hw : (resize e m c m.wx m.wy (m.ww - 2 * c.bw) (m.wh - 2 * c.bw) 0).w
          = m.ww - 2 * c.bw := congrArg Geom.w hg
      have hh : (resize e m c m.wx m.wy (m.ww - 2 * c.bw) (m.wh - 2 * c.bw) 0).h
          = m.wh - 2 * c.bw := congrArg Geom.h hg
      rw [hx, hy, hw, hh, hbw]
      exact ⟨rfl, rfl, by omega, by omega⟩

theorem monocle_fills_witness :
    Monitor.mono.client? 8 = some Client.second ∧
    (monocle Env.sample Monitor.mono).ltsymbol =
      (if 0 < Monitor.mono.clients.countP (fun c => decide (ISVISIBLE Monitor.mono c ≠ 0)) then
        "[" ++ toString (Monitor.mono.clients.countP
          (fun c => decide (ISVISIBLE Monitor.mono c ≠ 0))) ++ "]"
       else Monitor.mono.ltsymbol) ∧
    ∃ c1, (monocle Env.sample Monitor.mono).client? 8 = some c1 ∧
      (Client.second.isfloating ≠ 0 ∨ ISVISIBLE Monitor.mono Client.second = 0 →
        c1 = Client.second) ∧
      (Client.second.isfloating = 0 → ISVISIBLE Monitor.mono Client.second ≠ 0 →
        c1 = resize Env.sample Monitor.mono Client.second Monitor.mono.wx Monitor.mono.wy
          (Monitor.mono.ww - 2 * Client.second.bw) (Monitor.mono.wh - 2 * Client.second.bw) 0 ∧
        (c1.geom = { x := Monitor.mono.wx, y := Monitor.mono.wy,
                     w := Monitor.mono.ww - 2 * Client.second.bw,
                     h := Monitor.mono.wh - 2 * Client.second.bw } →
          c1.x = Monitor.mono.wx ∧ c1.y = Monitor.mono.wy ∧
          c1.w + 2 * c1.bw = Monitor.mono.ww ∧ c1.h + 2 * c1.bw = Monitor.mono.wh)) :=
  ⟨by decide, monocle_fills Env.sample Monitor.mono 8 Client.second (by decide)⟩

/-- C9 (counterexample): in monocle layout with a floating client 7 at
(10, 20, 800, 600) and a tiled client 8, both visible, `monocle` leaves the
floating client where it is, so not every visible client fills the work area
(0, 16, 1920, 1064); and on a monitor without visible clients the layout symbol
stays `"[M]"` instead of becoming `"[0]"`. -/
theorem monocle_skips_floating :
    Monitor.mono.client? 7 = some Client.floater ∧
    ISVISIBLE Monitor.mono Client.floater ≠ 0 ∧
    ((monocle Env.sample Monitor.mono).client? 7).map Client.geom
      = some { x := 10, y := 20, w := 800, h := 600 } ∧
    Monitor.monoempty.clients.countP (fun c => decide (ISVISIBLE Monitor.monoempty c ≠ 0)) = 0 ∧
    (monocle Env.sample Monitor.monoempty).ltsymbol = "[M]" := by
  decide

/-! ## Cycling the focus (C10) -/

theorem firstvisible_none (m : Monitor) (l : List Client)
    (h : ∀ c ∈ l, ISVISIBLE m c = 0) : firstvisible m l = none := by
  induction l with
  | nil => rfl
  | cons a l ih =>
    rw [firstvisible, if_neg (by simp [h a (List.mem_cons_self a l)])]
    exact ih (fun c hc => h c (List.mem_cons_of_mem a hc))

theorem firstvisible_append (m : Monitor) (p : List Client) (x : Client) (r : List Client)
    (hp : ∀ c ∈ p, ISVISIBLE m c = 0) (hx : ISVISIBLE m x ≠ 0) :
    firstvisible m (p ++ x :: r) = some x := by
  induction p with
  | nil => rw [List.nil_append, firstvisible, if_pos hx]
  | cons a p ih =>
    rw [List.cons_append, firstvisible, if_neg (by simp [hp a (List.mem_cons_self a p)])]
    exact ih (fun c hc => hp c (List.mem_cons_of_mem a hc))

theorem firstvisible_split (m : Monitor) (l : List Client) (c : Client)
    (h : firstvisible m l = some c) :
    ∃ p r, l = p ++ c :: r ∧ (∀ d ∈ p, ISVISIBLE m d = 0) ∧ ISVISIBLE m c ≠ 0 := by
  induction l with
  | nil => simp [firstvisible] at h
  | cons a l ih =>
    rw [firstvisible] at h
    by_cases hv : ISVISIBLE m a ≠ 0
    · rw [if_pos hv] at h
      have hac : a = c := Option.some.inj h
      subst hac
      exact ⟨[], l, rfl, by simp, hv⟩
    · rw [if_neg hv] at h
      obtain ⟨p, r, h1, h2, h3⟩ := ih h
      refine ⟨a :: p, r, by rw [h1]; rfl, ?_, h3⟩
      intro d hd
      rcases List.mem_cons.mp hd with hda | hdp
      · rw [hda]; simpa using hv
      · exact h2 d hdp

theorem firstvisible_none_all (m : Monitor) (l : List Client) (h : firstvisible m l = none) :
    ∀ c ∈ l, ISVISIBLE m c = 0 := by
  induction l with
  | nil => simp
  | cons a l ih =>
    rw [firstvisible] at h
    by_cases hv : ISVISIBLE m a ≠ 0
    · rw [if_pos hv] at h; simp at h
    · rw [if_neg hv] at h
      intro c hc
      rcases List.mem_cons.mp hc with hca | hcl
      · rw [hca]; simpa using hv
      · exact ih h c hcl

theorem nextof_append (w : Window) (p : List Client) (x : Client) (r : List Client)
    (hp : ∀ c ∈ p, c.win ≠ w) (hx : x.win = w) : nextof w (p ++ x :: r) = r := by
  induction p with
  | nil => rw [List.nil_append, nextof, if_pos hx]
  | cons a p ih =>
    rw [List.cons_append, nextof, if_neg (hp a (List.mem_cons_self a p))]
    exact ih (fun c hc => hp c (List.mem_cons_of_mem a hc))

theorem lastvisible_invisible (m : Monitor) (l : List Client)
    (h : ∀ c ∈ l, ISVISIBLE m c = 0) : ∀ acc, lastvisible m acc l = acc := by
  induction l with
  | nil => intro acc; rfl
  | cons a l ih =>
    intro acc
    rw [lastvisible, if_neg (by simp [h a (List.mem_cons_self a l)])]
    exact ih (fun c hc => h c (List.mem_cons_of_mem a hc)) acc

theorem lastvisible_append (m : Monitor) (p q : List Client) :
    ∀ acc, lastvisible m acc (p ++ q) = lastvisible m (lastvisible m acc p) q := by
  induction p with
  | nil => intro acc; rfl
  | cons a p ih =>
    intro acc
    rw [List.cons_append, lastvisible, lastvisible, ih]

theorem lastvisible_last (m : Monitor) (p : List Client) (x : Client) (r : List Client)
    (hx : ISVISIBLE m x ≠ 0) (hr : ∀ c ∈ r, ISVISIBLE m c = 0) (acc : Option Client) :
    lastvisible m acc (p ++ x :: r) = some x := by
  rw [lastvisible_append, lastvisible, if_pos hx, lastvisible_invisible m r hr]

theorem lastvisiblebefore_append (m : Monitor) (w : Window) (p : List Client) (x : Client)
    (r : List Client) (hp : ∀ c ∈ p, c.win ≠ w) (hx : x.win = w) :
    ∀ acc, lastvisiblebefore m w acc (p ++ x :: r) = (lastvisible m acc p, x :: r) := by
  induction p with
  | nil => intro acc; rw [List.nil_append, lastvisiblebefore, if_pos hx]; rfl
  | cons a p ih =>
    intro acc
    rw [List.cons_append, lastvisiblebefore, if_neg (hp a (List.mem_cons_self a p)),
      ih (fun c hc => hp c (List.mem_cons_of_mem a hc)), lastvisible]

theorem find_split (l : List Client) (w : Window) (s : Client)
    (h : l.find? (fun c => c.win == w) = some s) :
    ∃ a b, l = a ++ s :: b ∧ s.win = w ∧ ∀ c ∈ a, c.win ≠ w := by
  induction l with
  | nil => simp at h
  | cons x l ih =>
    by_cases hx : x.win = w
    · rw [find_cons_eq x l w hx] at h
      have hxs : x = s := Option.some.inj h
      subst hxs
      exact ⟨[], l, rfl, hx, by simp⟩
    · rw [find_cons_ne x l w hx] at h
      obtain ⟨a, b, h1, h2, h3⟩ := ih h
      refine ⟨x :: a, b, by rw [h1]; rfl, h2, ?_⟩
      intro c hc
      rcases List.mem_cons.mp hc with hcx | hca
      · rw [hcx]; exact hx
      · exact h3 c hca

theorem find_append (p : List Client) (x : Client) (r : List Client) (w : Window)
    (hp : ∀ c ∈ p, c.win ≠ w) (hx : x.win = w) :
    (p ++ x :: r).find? (fun c => c.win == w) = some x := by
  induction p with
  | nil => exact find_cons_eq x r w hx
  | cons a p ih =>
    rw [List.cons_append, find_cons_ne a _ w (hp a (List.mem_cons_self a p))]
    exact ih (fun c hc => hp c (List.mem_cons_of_mem a hc))

theorem focus_sel (m : Monitor) (w : Window) :
    (focus m (some w)).sel = some w ∧ (focus m (some w)).clients = m.clients := by
  unfold focus
  exact ⟨rfl, rfl⟩

theorem focus_visible (m : Monitor) (c : Option Window) (d : Client) :
    ISVISIBLE (focus m c) d = ISVISIBLE m d := by
  have h := focus_active m c
  unfold Monitor.active at h
  unfold ISVISIBLE
  rw [h]

theorem lastvisible_congr (m m1 : Monitor) (h : ∀ c, ISVISIBLE m1 c = ISVISIBLE m c)
    (l : List Client) : ∀ acc, lastvisible m1 acc l = lastvisible m acc l := by
  induction l with
  | nil => intro acc; rfl
  | cons a l ih => intro acc; rw [lastvisible, lastvisible, h a, ih]

theorem lastvisiblebefore_congr (m m1 : Monitor) (h : ∀ c, ISVISIBLE m1 c = ISVISIBLE m c)
    (w : Window) (l : List Client) :
    ∀ acc, lastvisiblebefore m1 w acc l = lastvisiblebefore m w acc l := by
  induction l with
  | nil => intro acc; rfl
  | cons a l ih =>
    intro acc
    rw [lastvisiblebefore, lastvisiblebefore, h a, ih]

theorem lastvisible_mem (m : Monitor) (l : List Client) :
    ∀ acc c, lastvisible m acc l = some c → acc = some c ∨ (c ∈ l ∧ ISVISIBLE m c ≠ 0) := by
  induction l with
  | nil => intro acc c h; left; exact h
  | cons a l ih =>
    intro acc c h
    rw [lastvisible] at h
    rcases ih _ c h with h1 | h1
    · by_cases hv : ISVISIBLE m a ≠ 0
      · rw [if_pos hv] at h1
        have hac : a = c := Option.some.inj h1
        subst hac
        right; exact ⟨List.mem_cons_self a l, hv⟩
      · rw [if_neg hv] at h1
        left; exact h1
    · right; exact ⟨List.mem_cons_of_mem a h1.1, h1.2⟩

theorem lastvisible_some (m : Monitor) (l : List Client) :
    ∀ acc : Option Client, acc ≠ none → lastvisible m acc l ≠ none := by
  induction l with
  | nil => intro acc h; exact h
  | cons a l ih =>
    intro acc h
    rw [lastvisible]
    apply ih
    split_ifs
    · simp
    · exact h

/-- The backward step of `focusstack`: the selection becomes the client chosen
by the two loops. -/
theorem focusstack_back (e : Env) (m : Monitor) (w : Window) (s c : Client)
    (hsel : m.sel = some w) (hs : m.client? w = some s)
    (hlock : ¬ (s.isfullscreen ≠ 0 ∧ e.lockfullscreen ≠ 0))
    (p : Option Client) (rest : List Client)
    (hc : (match p with
      | some c => some c
      | none => lastvisible m none rest) = some c)
    (hloop : lastvisiblebefore m w none m.clients = (p, rest)) :
    focusstack e m (-1) = focus m (some c.win) := by
  unfold focusstack
  rw [hsel]
  simp only []
  rw [hs]
  simp only []
  rw [if_neg hlock, if_neg (by decide), hloop]
  cases p with
  | none =>
    simp only [] at hc ⊢
    rw [hc]
    rfl
  | some d =>
    simp only [] at hc ⊢
    rw [Option.some.inj hc]
    rfl

/-- The forward step of `focusstack`: the selection becomes the client chosen by
the two loops. -/
theorem focusstack_fwd (e : Env) (m : Monitor) (w : Window) (s c : Client)
    (hsel : m.sel = some w) (hs : m.client? w = some s)
    (hlock : ¬ (s.isfullscreen ≠ 0 ∧ e.lockfullscreen ≠ 0))
    (hc : (match firstvisible m (nextof w m.clients) with
      | some c => some c
      | none => firstvisible m m.clients) = some c) :
    focusstack e m 1 = focus m (some c.win) := by
  unfold focusstack
  rw [hsel]
  simp only []
  rw [hs]
  simp only []
  rw [if_neg hlock, if_pos (by decide), hc]
  rfl

theorem nodup_prefix (x : List Client) (c : Client) (y : List Client)
    (h : ((x ++ c :: y).map (fun c => c.win)).Nodup) : ∀ d ∈ x, d.win ≠ c.win := by
  intro d hd heq
  rw [List.map_append, List.nodup_append] at h
  have h1 : d.win ∈ x.map (fun c => c.win) := List.mem_map_of_mem _ hd
  have h2 : d.win ∈ (c :: y).map (fun c => c.win) := by
    rw [heq]
    exact List.mem_map_of_mem _ (List.mem_cons_self c y)
  exact h.2.2 h1 h2

/-- After a forward step to the client `c1`, found at `x ++ c1 :: y` with `s`
the last visible client of `x` or, when `x` has no visible client, of
`c1 :: y`, the backward step selects `s` again. -/
theorem focusstack_back_to (e : Env) (m : Monitor) (s c1 : Client) (x y : List Client)
    (hl : m.clients = x ++ c1 :: y)
    (hnodup : (m.clients.map (fun c => c.win)).Nodup)
    (hlock1 : ¬ (c1.isfullscreen ≠ 0 ∧ e.lockfullscreen ≠ 0))
    (hback : (match lastvisible m none x with
      | some c => some c
      | none => lastvisible m none (c1 :: y)) = some s) :
    (focusstack e (focus m (some c1.win)) (-1)).sel = some s.win := by
  have hx : ∀ d ∈ x, d.win ≠ c1.win := by
    rw [hl] at hnodup
    exact nodup_prefix x c1 y hnodup
  have hvis : ∀ c, ISVISIBLE (focus m (some c1.win)) c = ISVISIBLE m c :=
    focus_visible m (some c1.win)
  have hcl : (focus m (some c1.win)).clients = m.clients := (focus_sel m c1.win).2
  have hfind : (focus m (some c1.win)).client? c1.win = some c1 := by
    unfold Monitor.client?
    rw [hcl, hl]
    exact find_append x c1 y c1.win hx rfl
  have hloop : lastvisiblebefore (focus m (some c1.win)) c1.win none
      (focus m (some c1.win)).clients = (lastvisible m none x, c1 :: y) := by
    rw [hcl, hl, lastvisiblebefore_congr m _ hvis, lastvisiblebefore_append m c1.win x c1 y hx rfl]
  have hc : (match lastvisible m none x with
      | some c => some c
      | none => lastvisible (focus m (some c1.win)) none (c1 :: y)) = some s := by
    rw [lastvisible_congr m _ hvis]
    exact hback
  rw [focusstack_back e (focus m (some c1.win)) c1.win c1 s (focus_sel m c1.win).1 hfind hlock1
    _ _ hc hloop]
  exact (focus_sel _ s.win).1

/-- C10 (amended): on a monitor whose clients have distinct windows and whose
selected client is visible and not a locked fullscreen client, `focusstack(+1)`
selects the first visible client after the selected one or, when there is none,
the first visible client of the list; if that client is not a locked fullscreen
client either, a following `focusstack(-1)` selects the original client again.
A single `focusstack(-1)` also selects a visible client of the monitor.  Only
the return of the selection depends on the condition on the client that
`focusstack(+1)` selects. -/
theorem focusstack_roundtrip (e : Env) (m : Monitor) (w : Window) (s : Client)
    (hnodup : (m.clients.map (fun c => c.win)).Nodup)
    (hsel : m.sel = some w) (hs : m.client? w = some s) (hvis : ISVISIBLE m s ≠ 0)
    (hlock : ¬ (s.isfullscreen ≠ 0 ∧ e.lockfullscreen ≠ 0)) :
    ((∀ w1 s1, (focusstack e m 1).sel = some w1 →
        (focusstack e m 1).client? w1 = some s1 →
        ¬ (s1.isfullscreen ≠ 0 ∧ e.lockfullscreen ≠ 0)) →
      (focusstack e (focusstack e m 1) (-1)).sel = m.sel) ∧
    (∃ c1, c1 ∈ m.clients ∧ ISVISIBLE m c1 ≠ 0 ∧ (focusstack e m 1).sel = some c1.win ∧
      (match firstvisible m (nextof w m.clients) with
        | some c => some c
        | none => firstvisible m m.clients) = some c1) ∧
    (∃ c0, c0 ∈ m.clients ∧ ISVISIBLE m c0 ≠ 0 ∧
      (focusstack e m (-1)).sel = some c0.win) := by
  obtain ⟨a, b, hl, hsw, ha⟩ := find_split m.clients w s hs
  have hnext : nextof w m.clients = b := by
    rw [hl]; exact nextof_append w a s b ha hsw
  -- the forward choice, with the position of the chosen client
  have hfwd : ∃ c1 x y, m.clients = x ++ c1 :: y ∧ ISVISIBLE m c1 ≠ 0 ∧
      (match firstvisible m (nextof w m.clients) with
        | some c => some c
        | none => firstvisible m m.clients) = some c1 ∧
      (match lastvisible m none x with
        | some c => some c
        | none => lastvisible m none (c1 :: y)) = some s := by
    rw [hnext]
    cases hb : firstvisible m b with
    | some c1 =>
      obtain ⟨p, r, hb1, hp, hc1⟩ := firstvisible_split m b c1 hb
      refine ⟨c1, a ++ s :: p, r, ?_, hc1, rfl, ?_⟩
      · rw [hl, hb1]; simp
      · rw [lastvisible_last m a s p hvis hp none]
    | none =>
      have hbinv := firstvisible_none_all m b hb
      cases hfa : firstvisible m a with
      | some c1 =>
        obtain ⟨p, r, ha1, hp, hc1⟩ := firstvisible_split m a c1 hfa
        refine ⟨c1, p, r ++ s :: b, ?_, hc1, ?_, ?_⟩
        · rw [hl, ha1]; simp
        · simp only []
          rw [hl, ha1, List.append_assoc, List.cons_append]
          exact firstvisible_append m p c1 _ hp hc1
        · rw [lastvisible_invisible m p hp none]
          simp only []
          rw [← List.cons_append]
          exact lastvisible_last m (c1 :: r) s b hvis hbinv none
      | none =>
        have hainv := firstvisible_none_all m a hfa
        refine ⟨s, a, b, hl, hvis, ?_, ?_⟩
        · simp only []
          rw [hl]
          exact firstvisible_append m a s b hainv hvis
        · rw [lastvisible_invisible m a hainv none]
          simp only []
          exact lastvisible_last m [] s b hvis hbinv none
  obtain ⟨c1, x, y, hxy, hc1v, hchoice, hback⟩ := hfwd
  have hstep : focusstack e m 1 = focus m (some c1.win) :=
    focusstack_fwd e m w s c1 hsel hs hlock hchoice
  have hx : ∀ d ∈ x, d.win ≠ c1.win := by
    have hn := hnodup
    rw [hxy] at hn
    exact nodup_prefix x c1 y hn
  have hfind1 : (focusstack e m 1).client? c1.win = some c1 := by
    rw [hstep]
    unfold Monitor.client?
    rw [(focus_sel m c1.win).2, hxy]
    exact find_append x c1 y c1.win hx rfl
  refine ⟨?_, ⟨c1, ?_, hc1v, ?_, hchoice⟩, ?_⟩
  · intro hlock1
    have hl1 := hlock1 c1.win c1 (by rw [hstep]; exact (focus_sel m c1.win).1) hfind1
    rw [hstep, focusstack_back_to e m s c1 x y hxy hnodup hl1 hback, hsel, hsw]
  · rw [hxy]; simp
  · rw [hstep]; exact (focus_sel m c1.win).1
  · -- a single backward step
    have hloop : lastvisiblebefore m w none m.clients = (lastvisible m none a, s :: b) := by
      rw [hl]; exact lastvisiblebefore_append m w a s b ha hsw none
    cases hpa : lastvisible m none a with
    | some c0 =>
      rcases lastvisible_mem m a none c0 hpa with h1 | h1
      · simp at h1
      · refine ⟨c0, ?_, h1.2, ?_⟩
        · rw [hl]; simp [h1.1]
        · rw [hpa] at hloop
          rw [focusstack_back e m w s c0 hsel hs hlock _ _ rfl hloop]
          exact (focus_sel m c0.win).1
    | none =>
      rw [hpa] at hloop
      cases hps : lastvisible m none (s :: b) with
      | none =>
        have := lastvisible_some m b (some s) (by simp)
        rw [lastvisible, if_pos hvis] at hps
        exact absurd hps this
      | some c0 =>
        rcases lastvisible_mem m (s :: b) none c0 hps with h1 | h1
        · simp at h1
        · refine ⟨c0, ?_, h1.2, ?_⟩
          · rw [hl]
            exact List.mem_append_right a h1.1
          · rw [focusstack_back e m w s c0 hsel hs hlock _ _ hps hloop]
            exact (focus_sel m c0.win).1

theorem focusstack_roundtrip_witness :
    (focusstack Env.sample (focusstack Env.sample Monitor.triple 1) (-1)).sel
      = Monitor.triple.sel ∧
    (∃ c1, c1 ∈ Monitor.triple.clients ∧ ISVISIBLE Monitor.triple c1 ≠ 0 ∧
      (focusstack Env.sample Monitor.triple 1).sel = some c1.win ∧
      (match firstvisible Monitor.triple (nextof 7 Monitor.triple.clients) with
        | some c => some c
        | none => firstvisible Monitor.triple Monitor.triple.clients) = some c1) ∧
    (∃ c0, c0 ∈ Monitor.triple.clients ∧ ISVISIBLE Monitor.triple c0 ≠ 0 ∧
      (focusstack Env.sample Monitor.triple (-1)).sel = some c0.win) :=
  ⟨(focusstack_roundtrip Env.sample Monitor.triple 7 Client.sample (by decide) (by decide)
      (by decide) (by decide) (by decide)).1
    (by
      intro w1 s1 h1 h2
      have hw : w1 = 8 := by
        have h8 : (focusstack Env.sample Monitor.triple 1).sel = some 8 := by decide
        rw [h8] at h1
        exact (Option.some.inj h1).symm
      subst hw
      have hc : (focusstack Env.sample Monitor.triple 1).client? 8
          = some { Client.sample with win := 8 } := by decide
      rw [hc] at h2
      rw [← Option.some.inj h2]
      decide),
   (focusstack_roundtrip Env.sample Monitor.triple 7 Client.sample (by decide) (by decide)
      (by decide) (by decide) (by decide)).2⟩

/-- On the monitor of the counterexample (client 7 selected, the fullscreen
client 9 next) both single steps select the visible client 9. -/
theorem focusstack_withfull_steps :
    (focusstack Env.sample Monitor.withfull 1).sel = some 9 ∧
    (focusstack Env.sample Monitor.withfull (-1)).sel = some 9 := by
  decide

/-- C10 (counterexample): with `lockfullscreen` set, client 7 selected (visible,
not fullscreen) and the fullscreen client 9 next in the list, `focusstack(+1)`
selects client 9 and the following `focusstack(-1)` returns at once, so the
selection stays on 9 and does not return to 7. -/
theorem focusstack_locked_next :
    Monitor.withfull.sel = some 7 ∧ Monitor.withfull.client? 7 = some Client.sample ∧
    ISVISIBLE Monitor.withfull Client.sample ≠ 0 ∧ Client.sample.isfullscreen = 0 ∧
    (focusstack Env.sample Monitor.withfull 1).sel = some 9 ∧
    (focusstack Env.sample (focusstack Env.sample Monitor.withfull 1) (-1)).sel = some 9 := by
  decide

/-! ## The traversal by `nexttiled` -/

/-- The result of `nexttiled` is the rest of the list from the first client that
is neither floating nor hidden. -/
theorem nexttiled_eq_dropWhile (m : Monitor) (cs : List Client) :
    nexttiled m cs
      = cs.dropWhile (fun c => decide (c.isfloating ≠ 0 ∨ ISVISIBLE m c = 0)) := by
  induction cs with
  | nil => rfl
  | cons c cs ih =>
    unfold nexttiled
    by_cases h : c.isfloating ≠ 0 ∨ ISVISIBLE m c = 0
    · rw [if_pos h, ih, List.dropWhile_cons_of_pos (by simpa using h)]
    · rw [if_neg h, List.dropWhile_cons_of_neg (by simpa using h)]

/-- The loop `for (c = nexttiled(l); c; c = nexttiled(c->next)) n++` counts one
client and goes on behind it. -/
theorem tilecount_nexttiled (m : Monitor) (cs : List Client) :
    tilecount m cs = match nexttiled m cs with
      | [] => 0
      | _ :: rest => tilecount m rest + 1 := by
  induction cs with
  | nil => rfl
  | cons c cs ih =>
    unfold nexttiled
    by_cases h : c.isfloating ≠ 0 ∨ ISVISIBLE m c = 0
    · rw [if_pos h, tilecount_skip m c cs h, ih]
    · rw [if_neg h, tilecount_tiled m c cs h]

/-! ## What `arrange` leaves alone -/

theorem tile_frame (e : Env) (m : Monitor) :
    tile e m = { m with clients := (tile e m).clients } := by
  unfold tile
  simp only []
  split_ifs <;> rfl

theorem monocle_frame (e : Env) (m : Monitor) :
    monocle e m = { m with clients := (monocle e m).clients,
                           ltsymbol := (monocle e m).ltsymbol } := by
  unfold monocle
  simp only []
  split_ifs <;> rfl

/-- A layout pass writes the client list and the layout symbol only. -/
theorem arrange_frame (e : Env) (m : Monitor) :
    arrange e m = { m with clients := (arrange e m).clients,
                           ltsymbol := (arrange e m).ltsymbol } := by
  unfold arrange restack arrangemon
  split
  · rw [tile_frame, showhide_frame e m.stack m]
  · rw [monocle_frame, showhide_frame e m.stack m]
  · rw [showhide_frame e m.stack m]

theorem arrange_fields (e : Env) (m : Monitor) :
    (arrange e m).mfact = m.mfact ∧ (arrange e m).nmaster = m.nmaster ∧
    (arrange e m).sellt = m.sellt ∧ (arrange e m).lt0 = m.lt0 ∧ (arrange e m).lt1 = m.lt1 ∧
    (arrange e m).sel = m.sel ∧ (arrange e m).stack = m.stack := by
  rw [arrange_frame]
  exact ⟨rfl, rfl, rfl, rfl, rfl, rfl, rfl⟩

/-! ## Master fraction and master count (C15, C16) -/

/-- C15: in a tiling layout with `mfact` in [0.05, 0.95], `setmfact` with
argument `f` computes the candidate `mfact + f` when `f < 1` and `f - 1`
otherwise; a candidate below 0.05 or above 0.95 leaves the monitor unchanged,
any other candidate becomes `mfact`; in both cases `mfact` stays within
[0.05, 0.95] (floats read as exact rationals). -/
theorem setmfact_range (e : Env) (m : Monitor) (f : Rat)
    (hl : (m.lt m.sellt).arrange ≠ none)
    (hlo : 1 / 20 ≤ m.mfact) (hhi : m.mfact ≤ 19 / 20) :
    (setmfact e m (some f)).mfact =
      (if (if f < 1 then f + m.mfact else f - 1) < 1 / 20 ∨
          (if f < 1 then f + m.mfact else f - 1) > 19 / 20 then m.mfact
       else (if f < 1 then f + m.mfact else f - 1)) ∧
    ((if f < 1 then f + m.mfact else f - 1) < 1 / 20 ∨
        (if f < 1 then f + m.mfact else f - 1) > 19 / 20 → setmfact e m (some f) = m) ∧
    1 / 20 ≤ (setmfact e m (some f)).mfact ∧ (setmfact e m (some f)).mfact ≤ 19 / 20 := by
  unfold setmfact
  simp only []
  rw [if_neg hl]
  by_cases hc : (if f < 1 then f + m.mfact else f - 1) < 1 / 20 ∨
      (if f < 1 then f + m.mfact else f - 1) > 19 / 20
  · rw [if_pos hc, if_pos hc]
    exact ⟨rfl, fun _ => rfl, hlo, hhi⟩
  · rw [if_neg hc, if_neg hc, (arrange_fields e _).1]
    refine ⟨rfl, fun h => absurd h hc, ?_, ?_⟩
    · simp only []
      by_contra h
      exact hc (Or.inl (lt_of_not_le h))
    · simp only []
      by_contra h
      exact hc (Or.inr (lt_of_not_le h))

theorem setmfact_range_witness :
    (Monitor.single.lt Monitor.single.sellt).arrange ≠ none ∧
    1 / 20 ≤ Monitor.single.mfact ∧ Monitor.single.mfact ≤ 19 / 20 ∧
    (setmfact Env.sample Monitor.single (some (1 / 10))).mfact =
      (if (if (1 / 10 : Rat) < 1 then 1 / 10 + Monitor.single.mfact else 1 / 10 - 1) < 1 / 20 ∨
          (if (1 / 10 : Rat) < 1 then 1 / 10 + Monitor.single.mfact else 1 / 10 - 1) > 19 / 20
        then Monitor.single.mfact
       else (if (1 / 10 : Rat) < 1 then 1 / 10 + Monitor.single.mfact else 1 / 10 - 1)) ∧
    ((if (1 / 10 : Rat) < 1 then 1 / 10 + Monitor.single.mfact else 1 / 10 - 1) < 1 / 20 ∨
        (if (1 / 10 : Rat) < 1 then 1 / 10 + Monitor.single.mfact else 1 / 10 - 1) > 19 / 20 →
      setmfact Env.sample Monitor.single (some (1 / 10)) = Monitor.single) ∧
    1 / 20 ≤ (setmfact Env.sample Monitor.single (some (1 / 10))).mfact ∧
    (setmfact Env.sample Monitor.single (some (1 / 10))).mfact ≤ 19 / 20 := by
  have hm : Monitor.single.mfact = 1 / 2 := by
    show mkRat 1 2 = 1 / 2
    rw [Rat.mkRat_eq_div]
    norm_num
  have h1 : (1 : Rat) / 20 ≤ Monitor.single.mfact := by rw [hm]; norm_num
  have h2 : Monitor.single.mfact ≤ 19 / 20 := by rw [hm]; norm_num
  exact ⟨by decide, h1, h2, setmfact_range Env.sample Monitor.single (1 / 10) (by decide) h1 h2⟩

/-- C16: after `incnmaster(i)` the master count is `max(nmaster + i, 0)`, hence
not negative (the sum is taken in the integers, where it does not overflow). -/
theorem incnmaster_floor (e : Env) (m : Monitor) (i : Int) :
    (incnmaster e m i).nmaster = max (m.nmaster + i) 0 ∧ 0 ≤ (incnmaster e m i).nmaster := by
  unfold incnmaster
  rw [(arrange_fields e _).2.1]
  exact ⟨rfl, le_max_right _ _⟩

/-! ## Layout slots (C18) -/

theorem ite_arrange_sellt (e : Env) (m : Monitor) (p : Prop) [Decidable p] :
    (if p then arrange e m else m).sellt = m.sellt := by
  split_ifs
  · exact (arrange_fields e m).2.2.1
  · rfl

theorem ite_arrange_lt0 (e : Env) (m : Monitor) (p : Prop) [Decidable p] :
    (if p then arrange e m else m).lt0 = m.lt0 := by
  split_ifs
  · exact (arrange_fields e m).2.2.2.1
  · rfl

theorem ite_arrange_lt1 (e : Env) (m : Monitor) (p : Prop) [Decidable p] :
    (if p then arrange e m else m).lt1 = m.lt1 := by
  split_ifs
  · exact (arrange_fields e m).2.2.2.2.1
  · rfl

theorem ite_arrange_sellt2 (e : Env) (m : Monitor) (p : Prop) [Decidable p] :
    (if p then m else arrange e m).sellt = m.sellt := by
  split_ifs
  · rfl
  · exact (arrange_fields e m).2.2.1

theorem ite_arrange_lt02 (e : Env) (m : Monitor) (p : Prop) [Decidable p] :
    (if p then m else arrange e m).lt0 = m.lt0 := by
  split_ifs
  · rfl
  · exact (arrange_fields e m).2.2.2.1

theorem ite_arrange_lt12 (e : Env) (m : Monitor) (p : Prop) [Decidable p] :
    (if p then m else arrange e m).lt1 = m.lt1 := by
  split_ifs
  · rfl
  · exact (arrange_fields e m).2.2.2.2.1

/-- The slots of `setlayout`: `sellt` flips unless the argument is the active
layout, and a non-null argument is stored in the then selected slot. -/
theorem setlayout_slots (e : Env) (m : Monitor) (arg : Option (Option Layout)) :
    ((setlayout e m arg).sellt, (setlayout e m arg).lt0, (setlayout e m arg).lt1) =
      (match arg with
        | some (some l) =>
          if l = m.lt m.sellt then (m.sellt, m.lt0, m.lt1)
          else if m.sellt = 0 then (1, m.lt0, l) else (0, l, m.lt1)
        | _ => (m.sellt ^^^ 1, m.lt0, m.lt1)) := by
  have x01 : (0 : Fin 2) ^^^ 1 = 1 := by decide
  have x10 : (1 : Fin 2) ^^^ 1 = 0 := by decide
  rcases arg with _ | _ | l
  · unfold setlayout
    simp [ite_arrange_sellt, ite_arrange_lt0, ite_arrange_lt1, ite_arrange_sellt2, ite_arrange_lt02,
      ite_arrange_lt12]
  · unfold setlayout
    simp [ite_arrange_sellt, ite_arrange_lt0, ite_arrange_lt1, ite_arrange_sellt2, ite_arrange_lt02,
      ite_arrange_lt12]
  · unfold setlayout
    simp only [ite_arrange_sellt, ite_arrange_lt0, ite_arrange_lt1]
    by_cases hl : l = m.lt m.sellt
    · rw [if_pos hl]
      have hcond : ¬ (some l = none ∨ some l ≠ some (m.lt m.sellt)) := by simp [hl]
      rw [if_neg hcond]
      subst hl
      unfold Monitor.setLt Monitor.lt
      rcases fin2_cases m.sellt with h0 | h1
      · simp [h0]
      · simp [h1]
    · rw [if_neg hl]
      have hcond : some l = none ∨ some l ≠ some (m.lt m.sellt) := by simp [hl]
      rw [if_pos hcond]
      unfold Monitor.setLt
      rcases fin2_cases m.sellt with h0 | h1
      · simp [h0, x01]
      · simp [h1, x10]

/-- C18: after `setlayout(L)` with a non-null layout `L` the active layout is
`L`; when `L` was not active before, the layout that was active is in the other
slot and a following `setlayout(null)` makes it active again; and
`setlayout(null)` applied twice restores `sellt` and both layout slots. -/
theorem setlayout_active (e : Env) (m : Monitor) (L : Layout) :
    (setlayout e m (some (some L))).lt (setlayout e m (some (some L))).sellt = L ∧
    (L ≠ m.lt m.sellt →
      (setlayout e m (some (some L))).lt ((setlayout e m (some (some L))).sellt ^^^ 1)
        = m.lt m.sellt ∧
      (setlayout e (setlayout e m (some (some L))) (some none)).lt
          (setlayout e (setlayout e m (some (some L))) (some none)).sellt = m.lt m.sellt ∧
      (setlayout e (setlayout e m (some (some L))) none).lt
          (setlayout e (setlayout e m (some (some L))) none).sellt = m.lt m.sellt) ∧
    (setlayout e (setlayout e m (some none)) (some none)).sellt = m.sellt ∧
    (setlayout e (setlayout e m (some none)) (some none)).lt0 = m.lt0 ∧
    (setlayout e (setlayout e m (some none)) (some none)).lt1 = m.lt1 ∧
    (setlayout e (setlayout e m none) none).sellt = m.sellt ∧
    (setlayout e (setlayout e m none) none).lt0 = m.lt0 ∧
    (setlayout e (setlayout e m none) none).lt1 = m.lt1 := by
  have x01 : (0 : Fin 2) ^^^ 1 = 1 := by decide
  have x10 : (1 : Fin 2) ^^^ 1 = 0 := by decide
  have hxx : ∀ i : Fin 2, i ^^^ 1 ^^^ 1 = i := by decide
  have hL := setlayout_slots e m (some (some L))
  simp only [Prod.mk.injEq] at hL
  have hN1 := setlayout_slots e m (some none)
  have hN2 := setlayout_slots e (setlayout e m (some none)) (some none)
  have hM1 := setlayout_slots e m none
  have hM2 := setlayout_slots e (setlayout e m none) none
  simp only [Prod.mk.injEq] at hN1 hN2 hM1 hM2
  refine ⟨?_, ?_, ?_, ?_, ?_, ?_, ?_, ?_⟩
  · unfold Monitor.lt at *
    by_cases hl : L = if m.sellt = 0 then m.lt0 else m.lt1
    · rw [if_pos hl] at hL
      simp only [Prod.mk.injEq] at hL
      rw [hL.1, hL.2.1, hL.2.2]
      exact hl.symm
    · rw [if_neg hl] at hL
      rcases fin2_cases m.sellt with h0 | h1
      · rw [if_pos h0] at hL
        simp only [Prod.mk.injEq] at hL
        rw [hL.1, hL.2.2]
        simp
      · have h10 : ¬ m.sellt = 0 := by rw [h1]; decide
        rw [if_neg h10] at hL
        simp only [Prod.mk.injEq] at hL
        rw [hL.1, hL.2.1]
        simp
  · intro hl
    have hS1 := setlayout_slots e (setlayout e m (some (some L))) (some none)
    have hS2 := setlayout_slots e (setlayout e m (some (some L))) none
    simp only [Prod.mk.injEq] at hS1 hS2
    rw [if_neg hl] at hL
    unfold Monitor.lt at *
    rcases fin2_cases m.sellt with h0 | h1
    · rw [if_pos h0] at hL
      simp only [Prod.mk.injEq] at hL
      rw [hS1.1, hS1.2.1, hS2.1, hS2.2.1, hL.1, hL.2.1, h0, x10]
      simp
    · have h10 : ¬ m.sellt = 0 := by rw [h1]; decide
      rw [if_neg h10] at hL
      simp only [Prod.mk.injEq] at hL
      rw [hS1.1, hS1.2.2, hS2.1, hS2.2.2, hL.1, hL.2.2, h1, x01]
      simp
  · rw [hN2.1, hN1.1, hxx]
  · rw [hN2.2.1, hN1.2.1]
  · rw [hN2.2.2, hN1.2.2]
  · rw [hM2.1, hM1.1, hxx]
  · rw [hM2.2.1, hM1.2.1]
  · rw [hM2.2.2, hM1.2.2]

/-! ## Error handler (C19) -/

/-- C19: `xerror` returns 0 without calling the default handler exactly for
`BadWindow` (3) on any request, `BadMatch` (8) on `SetInputFocus` (42) or
`ConfigureWindow` (12), `BadDrawable` (9) on `PolyText8` (74),
`PolyFillRectangle` (70), `PolySegment` (66) or `CopyArea` (62), and
`BadAccess` (10) on `GrabKey` (33) or `GrabButton` (28); for every other error
it calls the default handler and returns its result. -/
theorem xerror_ignores (xerrorxlib : Nat → Nat → Int) (rc ec : Nat) :
    (xerror xerrorxlib rc ec = { ret := 0, calledxlib := false } ↔
      (ec = 3 ∨ (ec = 8 ∧ (rc = 42 ∨ rc = 12)) ∨
       (ec = 9 ∧ (rc = 74 ∨ rc = 70 ∨ rc = 66 ∨ rc = 62)) ∨
       (ec = 10 ∧ (rc = 33 ∨ rc = 28)))) ∧
    (¬ (ec = 3 ∨ (ec = 8 ∧ (rc = 42 ∨ rc = 12)) ∨
        (ec = 9 ∧ (rc = 74 ∨ rc = 70 ∨ rc = 66 ∨ rc = 62)) ∨
        (ec = 10 ∧ (rc = 33 ∨ rc = 28))) →
      xerror xerrorxlib rc ec = { ret := xerrorxlib rc ec, calledxlib := true }) := by
  have key : (ec = 3 ∨ (rc = 42 ∧ ec = 8) ∨ (rc = 74 ∧ ec = 9)
             ∨ (rc = 70 ∧ ec = 9) ∨ (rc = 66 ∧ ec = 9)
             ∨ (rc = 12 ∧ ec = 8) ∨ (rc = 28 ∧ ec = 10)
             ∨ (rc = 33 ∧ ec = 10) ∨ (rc = 62 ∧ ec = 9)) ↔
      (ec = 3 ∨ (ec = 8 ∧ (rc = 42 ∨ rc = 12)) ∨
       (ec = 9 ∧ (rc = 74 ∨ rc = 70 ∨ rc = 66 ∨ rc = 62)) ∨
       (ec = 10 ∧ (rc = 33 ∨ rc = 28))) := by omega
  rw [← key]
  unfold xerror
  by_cases hc : (ec = 3 ∨ (rc = 42 ∧ ec = 8) ∨ (rc = 74 ∧ ec = 9)
             ∨ (rc = 70 ∧ ec = 9) ∨ (rc = 66 ∧ ec = 9)
             ∨ (rc = 12 ∧ ec = 8) ∨ (rc = 28 ∧ ec = 10)
             ∨ (rc = 33 ∧ ec = 10) ∨ (rc = 62 ∧ ec = 9))
  · rw [if_pos hc]
    exact ⟨⟨fun _ => hc, fun _ => rfl⟩, fun h => absurd hc h⟩
  · rw [if_neg hc]
    refine ⟨⟨fun h => ?_, fun h => absurd h hc⟩, fun _ => rfl⟩
    have h2 := congrArg XErrorResult.calledxlib h
    simp at h2

/-! ## Modifier cleaning (C20) -/

theorem testBit_unot (x i : Nat) :
    (unot x).testBit i = (decide (i < 32) && !x.testBit i) := by
  unfold unot
  have h32 : (4294967295 : Nat) = 2 ^ 32 - 1 := by norm_num
  have hmod : (4294967296 : Nat) = 2 ^ 32 := by norm_num
  rw [Nat.testBit_xor, h32, Nat.testBit_two_pow_sub_one, hmod, Nat.testBit_mod_two_pow]
  by_cases hi : i < 32 <;> simp [hi]

/-- A modifier inside `numlockmask | LockMask` does not change `CLEANMASK`. -/
theorem CLEANMASK_or (numlockmask s x : Nat) (hx : x &&& (numlockmask ||| 2) = x) :
    CLEANMASK numlockmask (s ||| x) = CLEANMASK numlockmask s := by
  unfold CLEANMASK
  apply Nat.eq_of_testBit_eq
  intro i
  have hxi : x.testBit i = (x.testBit i && (numlockmask ||| 2).testBit i) := by
    conv_lhs => rw [← hx]
    rw [Nat.testBit_and]
  simp only [Nat.testBit_and, Nat.testBit_or, testBit_unot]
  rw [hxi]
  simp only [Nat.testBit_or]
  cases s.testBit i <;> cases x.testBit i <;> cases numlockmask.testBit i <;>
    cases (2 : Nat).testBit i <;> simp

/-- C20: for every binding mask `mod`, event state `s` and value of
`numlockmask`, the test `CLEANMASK(mod) == CLEANMASK(s)` has the same outcome
for `s`, `s | LockMask`, `s | numlockmask` and `s | LockMask | numlockmask`,
and `keypress` calls the same commands for these four states. -/
theorem cleanmask_lock_insensitive (numlockmask mod s : Nat) (keys : List Key) (keysym : Nat) :
    CLEANMASK numlockmask (s ||| 2) = CLEANMASK numlockmask s ∧
    CLEANMASK numlockmask (s ||| numlockmask) = CLEANMASK numlockmask s ∧
    CLEANMASK numlockmask (s ||| 2 ||| numlockmask) = CLEANMASK numlockmask s ∧
    ((CLEANMASK numlockmask mod = CLEANMASK numlockmask (s ||| 2)) ↔
      (CLEANMASK numlockmask mod = CLEANMASK numlockmask s)) ∧
    ((CLEANMASK numlockmask mod = CLEANMASK numlockmask (s ||| numlockmask)) ↔
      (CLEANMASK numlockmask mod = CLEANMASK numlockmask s)) ∧
    ((CLEANMASK numlockmask mod = CLEANMASK numlockmask (s ||| 2 ||| numlockmask)) ↔
      (CLEANMASK numlockmask mod = CLEANMASK numlockmask s)) ∧
    keypress numlockmask keys keysym (s ||| 2) = keypress numlockmask keys keysym s ∧
    keypress numlockmask keys keysym (s ||| numlockmask)
      = keypress numlockmask keys keysym s ∧
    keypress numlockmask keys keysym (s ||| 2 ||| numlockmask)
      = keypress numlockmask keys keysym s := by
  have h1 : CLEANMASK numlockmask (s ||| 2) = CLEANMASK numlockmask s := by
    apply CLEANMASK_or
    apply Nat.eq_of_testBit_eq
    intro i
    simp only [Nat.testBit_and, Nat.testBit_or]
    cases (2 : Nat).testBit i <;> cases numlockmask.testBit i <;> simp
  have h2 : CLEANMASK numlockmask (s ||| numlockmask) = CLEANMASK numlockmask s := by
    apply CLEANMASK_or
    apply Nat.eq_of_testBit_eq
    intro i
    simp only [Nat.testBit_and, Nat.testBit_or]
    cases (2 : Nat).testBit i <;> cases numlockmask.testBit i <;> simp
  have h3 : CLEANMASK numlockmask (s ||| 2 ||| numlockmask) = CLEANMASK numlockmask s := by
    rw [CLEANMASK_or numlockmask (s ||| 2) numlockmask, h1]
    apply Nat.eq_of_testBit_eq
    intro i
    simp only [Nat.testBit_and, Nat.testBit_or]
    cases (2 : Nat).testBit i <;> cases numlockmask.testBit i <;> simp
  refine ⟨h1, h2, h3, by rw [h1], by rw [h2], by rw [h3], ?_, ?_, ?_⟩
  · unfold keypress; simp only [h1]
  · unfold keypress; simp only [h2]
  · unfold keypress; simp only [h3]

/-- With `numlockmask = Mod2Mask`, Mod4 with both locks cleans to Mod4. -/
theorem CLEANMASK_sample : CLEANMASK 16 (64 ||| 2 ||| 16) = 64 := by decide
/-- A Mod4 binding fires with both locks on. -/
theorem keypress_sample :
    keypress 16 [{ mod := 64, keysym := 36, func := some 1, arg := 0 }] 36 (64 ||| 2 ||| 16) = [(1, 0)] := by decide

/-! ## Tagging twice (C14) -/

theorem forall2_keep_tags {T : Nat} {l l1 : List Client} (h : List.Forall₂ (Keep T) l l1) :
    l1.map Client.tags = l.map Client.tags := by
  induction h with
  | nil => rfl
  | @cons a b la lb hab _ ih => rw [List.map_cons, List.map_cons, ih, hab.2.2.2.2.1]

theorem find_modifyFirst_ne (w v : Window) (f : Client → Client) (hf : ∀ c, (f c).win = c.win)
    (hne : v ≠ w) (l : List Client) :
    (modifyFirst w f l).find? (fun c => c.win == v) = l.find? (fun c => c.win == v) := by
  induction l with
  | nil => rfl
  | cons a as ih =>
    unfold modifyFirst
    by_cases hw : a.win = w
    · rw [if_pos hw]
      have h1 : ¬ (f a).win = v := by rw [hf, hw]; exact fun h => hne h.symm
      have h2 : ¬ a.win = v := by rw [hw]; exact fun h => hne h.symm
      rw [find_cons_ne _ _ _ h1, find_cons_ne _ _ _ h2]
    · rw [if_neg hw]
      by_cases hv : a.win = v
      · rw [find_cons_eq _ _ _ hv, find_cons_eq _ _ _ hv]
      · rw [find_cons_ne _ _ _ hv, find_cons_ne _ _ _ hv, ih]

theorem modifyFirst_tags_same (w : Window) (t : Nat) (l : List Client) (c : Client)
    (hc : l.find? (fun c => c.win == w) = some c) (ht : c.tags = t) :
    (modifyFirst w (fun c => { c with tags := t }) l).map Client.tags = l.map Client.tags := by
  induction l with
  | nil => rfl
  | cons a as ih =>
    unfold modifyFirst
    by_cases hw : a.win = w
    · rw [if_pos hw]
      rw [find_cons_eq a as w hw] at hc
      have hac : a = c := Option.some.inj hc
      rw [List.map_cons, List.map_cons, hac, ht]
    · rw [if_neg hw]
      rw [find_cons_ne a as w hw] at hc
      rw [List.map_cons, List.map_cons, ih hc]

/-- The tags after `tag` on a monitor with selection `v` and a non-empty mask are
those after the store through the selection. -/
theorem tag_clients_tags (e : Env) (m : Monitor) (ui : Nat) (v : Window)
    (hsel : m.sel = some v) (hz : ui &&& TAGMASK e ≠ 0) :
    (tag e m ui).clients.map Client.tags =
      (modifyFirst v (fun c => { c with tags := ui &&& TAGMASK e }) m.clients).map Client.tags := by
  unfold tag
  rw [hsel]
  simp only []
  rw [if_pos hz]
  have hk := arrange_keep e
    (focus (m.modifyClient v (fun c => { c with tags := ui &&& TAGMASK e })) none)
  rw [forall2_keep_tags hk, focus_clients]
  rfl

theorem tag_find_other (e : Env) (m : Monitor) (ui : Nat) (w : Window) (c : Client)
    (hc : m.client? w = some c) (hother : m.sel ≠ some w) :
    ∃ c1, (tag e m ui).client? w = some c1 ∧ c1.tags = c.tags := by
  unfold tag
  cases hsel : m.sel with
  | none => exact ⟨c, hc, rfl⟩
  | some v =>
    simp only []
    by_cases hz : ui &&& TAGMASK e ≠ 0
    · rw [if_pos hz]
      have hvw : w ≠ v := by
        intro h
        apply hother
        rw [hsel, h]
      apply arrange_focus_find
      unfold Monitor.client? Monitor.modifyClient
      simp only []
      rw [find_modifyFirst_ne v w (fun c => { c with tags := ui &&& TAGMASK e }) (fun _ => rfl) hvw]
      exact hc
    · rw [if_neg hz]
      exact ⟨c, hc, rfl⟩

theorem tag_find_selected (e : Env) (m : Monitor) (ui : Nat) (w : Window) (c : Client)
    (hsel : m.sel = some w) (hc : m.client? w = some c) (hz : ui &&& TAGMASK e ≠ 0) :
    ∃ c1, (tag e m ui).client? w = some c1 ∧ c1.tags = ui &&& TAGMASK e := by
  unfold tag
  rw [hsel]
  simp only []
  rw [if_pos hz]
  have hfind : (m.modifyClient w (fun c => { c with tags := ui &&& TAGMASK e })).client? w
      = some { c with tags := ui &&& TAGMASK e } :=
    find_modifyFirst w (fun c => { c with tags := ui &&& TAGMASK e }) (fun _ => rfl)
      m.clients c hc
  exact arrange_focus_find e _ none w _ hfind

theorem tag_nosel (e : Env) (m : Monitor) (ui : Nat) (hs : m.sel = none) : tag e m ui = m := by
  unfold tag
  rw [hs]

theorem firstvisiblestack_client (m : Monitor) (l : List Window) (v : Window)
    (h : firstvisiblestack m l = some v) : ∃ c, m.client? v = some c := by
  induction l with
  | nil => simp [firstvisiblestack] at h
  | cons a as ih =>
    unfold firstvisiblestack at h
    split at h
    · rename_i c hc
      split_ifs at h
      · have : a = v := Option.some.inj h
        rw [← this]
        exact ⟨c, hc⟩
      · exact ih h
    · exact ih h

/-- The selection that `tag` leaves is a client of the monitor. -/
theorem tag_sel_client (e : Env) (m : Monitor) (ui : Nat) (w v : Window)
    (hsel : m.sel = some w) (hz : ui &&& TAGMASK e ≠ 0)
    (hv : (tag e m ui).sel = some v) : ∃ cv, (tag e m ui).client? v = some cv := by
  unfold tag at hv ⊢
  rw [hsel] at hv ⊢
  simp only [] at hv ⊢
  rw [if_pos hz] at hv ⊢
  rw [(arrange_fields e _).2.2.2.2.2.1] at hv
  unfold focus at hv
  simp only [] at hv
  cases hf : firstvisiblestack (m.modifyClient w (fun c => { c with tags := ui &&& TAGMASK e }))
      (m.modifyClient w (fun c => { c with tags := ui &&& TAGMASK e })).stack with
  | none =>
    rw [hf] at hv
    exact Option.noConfusion hv
  | some u =>
    rw [hf] at hv
    have huv : u = v := Option.some.inj hv
    obtain ⟨cu, hcu⟩ := firstvisiblestack_client _ _ u hf
    obtain ⟨c1, h1, _⟩ := arrange_focus_find e _ none u cu hcu
    rw [← huv]
    exact ⟨c1, h1⟩

/-- C14 (as amended): with a selected client `s` (window `w`) and a non-zero mask
`t` within `TAGMASK`, after `tag(t); tag(t)` the tags of `s` are `t`; when after
the first call `s` is still the selection, or nothing is selected, the second
call changes no client's tags; and whichever client `v` is selected after the
first call (another visible client chosen by `focus(NULL)` when the first call
hides `s`), the second call sets the tags of `v` to `t` and changes the tags of
no other client. -/
theorem tag_twice (e : Env) (m : Monitor) (t : Nat) (w : Window) (c : Client)
    (hsel : m.sel = some w) (hc : m.client? w = some c)
    (ht : t ≠ 0) (hm : t &&& TAGMASK e = t) :
    (∃ c2, (tag e (tag e m t) t).client? w = some c2 ∧ c2.tags = t) ∧
    ((tag e m t).sel = some w ∨ (tag e m t).sel = none →
      (tag e (tag e m t) t).clients.map Client.tags = (tag e m t).clients.map Client.tags) ∧
    (∀ v, (tag e m t).sel = some v →
      (∃ cv, (tag e (tag e m t) t).client? v = some cv ∧ cv.tags = t) ∧
      (tag e (tag e m t) t).clients.map Client.tags
        = (modifyFirst v (fun c => { c with tags := t }) (tag e m t).clients).map
            Client.tags ∧
      (∀ u cu, u ≠ v → (tag e m t).client? u = some cu →
        ∃ cu2, (tag e (tag e m t) t).client? u = some cu2 ∧ cu2.tags = cu.tags)) := by
  have hz : t &&& TAGMASK e ≠ 0 := by rw [hm]; exact ht
  obtain ⟨c1, hc1, ht1⟩ := tag_find_selected e m t w c hsel hc hz
  rw [hm] at ht1
  refine ⟨?_, ?_, ?_⟩
  · by_cases hs : (tag e m t).sel = some w
    · obtain ⟨c2, h1, h2⟩ := tag_find_selected e (tag e m t) t w c1 hs hc1 hz
      exact ⟨c2, h1, by rw [h2]; exact hm⟩
    · obtain ⟨c2, h1, h2⟩ := tag_find_other e (tag e m t) t w c1 hc1 hs
      exact ⟨c2, h1, by rw [h2, ht1]⟩
  · intro hs
    rcases hs with hs | hs
    · rw [tag_clients_tags e (tag e m t) t w hs hz]
      exact modifyFirst_tags_same w _ _ c1 hc1 (by rw [ht1, hm])
    · rw [tag_nosel e (tag e m t) t hs]
  · intro v hv
    obtain ⟨cv, hcv⟩ := tag_sel_client e m t w v hsel hz hv
    refine ⟨?_, ?_, ?_⟩
    · obtain ⟨c2, h1, h2⟩ := tag_find_selected e (tag e m t) t v cv hv hcv hz
      exact ⟨c2, h1, by rw [h2]; exact hm⟩
    · have := tag_clients_tags e (tag e m t) t v hv hz
      rw [hm] at this
      exact this
    · intro u cu hne hcu
      exact tag_find_other e (tag e m t) t u cu hcu
        (fun h => hne (Option.some.inj (hv.symm.trans h)).symm)

theorem tag_twice_witness :
    Monitor.triple.sel = some 7 ∧ Monitor.triple.client? 7 = some Client.sample ∧
    (3 : Nat) ≠ 0 ∧ 3 &&& TAGMASK Env.sample = 3 ∧
    (∃ c2, (tag Env.sample (tag Env.sample Monitor.triple 3) 3).client? 7 = some c2 ∧
      c2.tags = 3) ∧
    (tag Env.sample Monitor.triple 3).sel = some 7 ∧
    (tag Env.sample (tag Env.sample Monitor.triple 3) 3).clients.map Client.tags
      = (tag Env.sample Monitor.triple 3).clients.map Client.tags ∧
    (tag Env.sample Monitor.triple 2).sel = some 8 ∧
    (∃ cv, (tag Env.sample (tag Env.sample Monitor.triple 2) 2).client? 8 = some cv ∧
      cv.tags = 2) :=
  ⟨by decide, by decide, by decide, by decide,
   (tag_twice Env.sample Monitor.triple 3 7 Client.sample (by decide) (by decide) (by decide)
     (by decide)).1,
   by decide,
   (tag_twice Env.sample Monitor.triple 3 7 Client.sample (by decide) (by decide) (by decide)
     (by decide)).2.1 (Or.inl (by decide)),
   by decide,
   ((tag_twice Env.sample Monitor.triple 2 7 Client.sample (by decide) (by decide) (by decide)
     (by decide)).2.2 8 (by decide)).1⟩

/-- The selection survives `tag(3)` on the three-client monitor, so the second
part of `tag_twice` applies there. -/
theorem tag_keeps_selection : (tag Env.sample Monitor.triple 3).sel = some 7 := by decide

/-- C14 (as stated) fails: clients 7, 8, 9 on tag 1, 7 selected.  `tag(2)` hides
client 7, `focus(NULL)` selects client 8, and the second `tag(2)` changes the
tags of client 8 from 1 to 2. -/
theorem tag_twice_retags_next :
    Monitor.triple.sel = some 7 ∧ (2 : Nat) ≠ 0 ∧ 2 &&& TAGMASK Env.sample = 2 ∧
    (tag Env.sample Monitor.triple 2).clients.map Client.tags = [2, 1, 1] ∧
    (tag Env.sample Monitor.triple 2).sel = some 8 ∧
    (tag Env.sample (tag Env.sample Monitor.triple 2) 2).clients.map Client.tags = [2, 2, 1] ∧
    (tag Env.sample (tag Env.sample Monitor.triple 2) 2).clients.map Client.tags
      ≠ (tag Env.sample Monitor.triple 2).clients.map Client.tags := by
  decide

/-! ## Fullscreen requests by client message (C17) -/

theorem setfullscreen_flag (e : Env) (m : Monitor) (w : Window) (c : Client) (f : Int)
    (hc : m.client? w = some c) :
    ∃ c1, (setfullscreen e m w f).client? w = some c1 ∧
      (f ≠ 0 → c1.isfullscreen ≠ 0) ∧ (f = 0 → c1.isfullscreen = 0) := by
  unfold setfullscreen
  rw [hc]
  simp only []
  by_cases h1 : f ≠ 0 ∧ c.isfullscreen = 0
  · rw [if_pos h1]
    refine ⟨Client.fullscreened m c,
      find_modifyFirst w (Client.fullscreened m) (fun _ => rfl) m.clients c hc, ?_, ?_⟩
    · intro _
      simp [Client.fullscreened, resizeclient]
    · intro h0
      exact absurd h0 h1.1
  · rw [if_neg h1]
    by_cases h2 : f = 0 ∧ c.isfullscreen ≠ 0
    · rw [if_pos h2]
      have hfind := find_modifyFirst w (fun c : Client =>
          resizeclient { c with isfullscreen := 0, isfloating := c.oldstate, bw := c.oldbw,
                                x := c.oldx, y := c.oldy, w := c.oldw, h := c.oldh }
            c.oldx c.oldy c.oldw c.oldh) (fun _ => rfl) m.clients c hc
      obtain ⟨c1, hc1, hk⟩ := find_of_forall2_keep
        (arrange_keep e (m.modifyClient w (fun c : Client =>
          resizeclient { c with isfullscreen := 0, isfloating := c.oldstate, bw := c.oldbw,
                                x := c.oldx, y := c.oldy, w := c.oldw, h := c.oldh }
            c.oldx c.oldy c.oldw c.oldh))) w _ hfind
      refine ⟨c1, hc1, ?_, ?_⟩
      · intro hf
        exact absurd h2.1 hf
      · intro _
        rw [hk.2.2.2.1]
        rfl
    · rw [if_neg h2]
      refine ⟨c, hc, ?_, ?_⟩
      · intro hf hz
        exact h1 ⟨hf, hz⟩
      · intro hf
        by_contra hz
        exact h2 ⟨hf, hz⟩

/-- C17: for a managed client `c` (found by `wintoclient` for the event window,
on its monitor `c.mon`) and a `_NET_WM_STATE` message that names
`_NET_WM_STATE_FULLSCREEN` in `data.l[1]` or `data.l[2]`, after `clientmessage`
the client is not fullscreen for action code 0, fullscreen for action code 1,
and for action code 2 fullscreen exactly when it was not before. -/
theorem clientmessage_fullscreen (e : Env) (a : Atoms) (s : State) (cme : XClientMessageEvent)
    (c : Client) (m : Monitor)
    (hc : wintoclient s.mons cme.window = some c)
    (hm : s.mons[c.mon]? = some m) (hmc : m.client? cme.window = some c)
    (ht : cme.message_type = a.NetWMState)
    (hfs : ulong cme.l1 = a.NetWMFullscreen ∨ ulong cme.l2 = a.NetWMFullscreen) :
    ∃ m1 c1, (clientmessage e a s cme).mons[c.mon]? = some m1 ∧
      m1.client? cme.window = some c1 ∧
      (cme.l0 = 0 → c1.isfullscreen = 0) ∧
      (cme.l0 = 1 → c1.isfullscreen ≠ 0) ∧
      (cme.l0 = 2 → (c1.isfullscreen ≠ 0 ↔ c.isfullscreen = 0)) := by
  have hwin := wintoclient_win s.mons cme.window c hc
  unfold clientmessage
  rw [hc]
  simp only []
  rw [if_pos ht, if_pos hfs, modifyMon_get, if_pos rfl, hm, hwin]
  obtain ⟨c1, hc1, hon, hoff⟩ := setfullscreen_flag e m cme.window c
    (if cme.l0 = 1 ∨ (cme.l0 = 2 ∧ c.isfullscreen = 0) then 1 else 0) hmc
  refine ⟨_, c1, rfl, hc1, ?_, ?_, ?_⟩
  · intro h0
    apply hoff
    rw [if_neg]
    rw [h0]
    simp
  · intro h1
    apply hon
    rw [if_pos (Or.inl h1)]
    decide
  · intro h2
    by_cases hz : c.isfullscreen = 0
    · have := hon (by rw [if_pos (Or.inr ⟨h2, hz⟩)]; decide)
      exact ⟨fun _ => hz, fun _ => this⟩
    · have hcond : ¬ (cme.l0 = 1 ∨ (cme.l0 = 2 ∧ c.isfullscreen = 0)) := by
        rw [h2]
        simp [hz]
      have := hoff (by rw [if_neg hcond])
      exact ⟨fun h => absurd this h, fun h => absurd h hz⟩

theorem clientmessage_fullscreen_witness :
    wintoclient State.dual.mons 7 = some Client.sample ∧
    State.dual.mons[Client.sample.mon]? = some Monitor.single ∧
    Monitor.single.client? 7 = some Client.sample ∧
    (∃ m1 c1, (clientmessage Env.sample Atoms.sample State.dual
        { window := 7, message_type := 300, l0 := 2, l1 := 301, l2 := 0 }).mons[Client.sample.mon]?
          = some m1 ∧
      m1.client? 7 = some c1 ∧
      ((2 : Int) = 0 → c1.isfullscreen = 0) ∧
      ((2 : Int) = 1 → c1.isfullscreen ≠ 0) ∧
      ((2 : Int) = 2 → (c1.isfullscreen ≠ 0 ↔ Client.sample.isfullscreen = 0))) :=
  ⟨by decide, by decide, by decide,
   clientmessage_fullscreen Env.sample Atoms.sample State.dual
     { window := 7, message_type := 300, l0 := 2, l1 := 301, l2 := 0 }
     Client.sample Monitor.single (by decide) (by decide) (by decide) (by decide) (by decide)⟩

/-- A toggle request makes the sample client fullscreen, a second one ends it. -/
theorem clientmessage_toggle_sample :
    ((clientmessage Env.sample Atoms.sample State.dual
        { window := 7, message_type := 300, l0 := 2, l1 := 301, l2 := 0 }).mons.map
      (fun m => m.clients.map (fun c => c.isfullscreen))) = [[1], []] ∧
    ((clientmessage Env.sample Atoms.sample
        (clientmessage Env.sample Atoms.sample State.dual
          { window := 7, message_type := 300, l0 := 2, l1 := 301, l2 := 0 })
        { window := 7, message_type := 300, l0 := 2, l1 := 0, l2 := 301 }).mons.map
      (fun m => m.clients.map (fun c => c.isfullscreen))) = [[0], []] := by
  decide

/-! ## Zoom (C11) -/

theorem forall2_keep_wins {T : Nat} {l l1 : List Client} (h : List.Forall₂ (Keep T) l l1) :
    l1.map Client.win = l.map Client.win := by
  induction h with
  | nil => rfl
  | @cons a b la lb hab _ ih => rw [List.map_cons, List.map_cons, ih, hab.1]

theorem arrange_wins (e : Env) (m : Monitor) :
    (arrange e m).clients.map Client.win = m.clients.map Client.win :=
  forall2_keep_wins (arrange_keep e m)

theorem removeFirst_wins (w : Window) (l : List Client) :
    (removeFirst w l).map Client.win = (l.map Client.win).erase w := by
  induction l with
  | nil => rfl
  | cons a as ih =>
    unfold removeFirst
    by_cases hw : a.win = w
    · rw [if_pos hw, List.map_cons, hw, List.erase_cons_head]
    · rw [if_neg hw, List.map_cons, List.map_cons, ih, List.erase_cons_tail]
      simpa using hw

theorem pop_wins (e : Env) (m : Monitor) (c : Client) :
    (pop e m c).clients.map Client.win = c.win :: (m.clients.map Client.win).erase c.win := by
  unfold pop
  simp only []
  rw [arrange_wins, focus_clients]
  unfold attach detach
  simp only [List.map_cons]
  rw [removeFirst_wins]

/-- C11: on a monitor `m` in a tiling layout whose selection `c` (window `w`) is
not floating: when `c` is not the first tiled client, after `zoom` the head of
the client list is `c` and the other clients follow in their previous order;
when `c` is the first tiled client and there is a next tiled client `c2`, that
one becomes the head instead, and with no next tiled client nothing changes.
`zoom` changes nothing in the floating layout, with no selection, or when the
selection is floating. -/
theorem zoom_head (e : Env) (m : Monitor) :
    (∀ w c, m.sel = some w → m.client? w = some c → (m.lt m.sellt).arrange ≠ none →
      c.isfloating = 0 →
      ((∀ d rest, nexttiled m m.clients = d :: rest → d.win ≠ w →
          (zoom e m).clients.map Client.win = w :: (m.clients.map Client.win).erase w) ∧
       (nexttiled m m.clients = [] →
          (zoom e m).clients.map Client.win = w :: (m.clients.map Client.win).erase w) ∧
       (∀ d rest c2 rest2, nexttiled m m.clients = d :: rest → d.win = w →
          nexttiled m rest = c2 :: rest2 →
          (zoom e m).clients.map Client.win
            = c2.win :: (m.clients.map Client.win).erase c2.win) ∧
       (∀ d rest, nexttiled m m.clients = d :: rest → d.win = w →
          nexttiled m rest = [] → zoom e m = m))) ∧
    ((m.lt m.sellt).arrange = none → zoom e m = m) ∧
    (m.sel = none → zoom e m = m) ∧
    (∀ w c, m.sel = some w → m.client? w = some c → c.isfloating ≠ 0 → zoom e m = m) := by
  refine ⟨?_, ?_, ?_, ?_⟩
  · intro w c hsel hc hl hf
    have hwin : c.win = w := by
      have := List.find?_some hc
      simpa using this
    have hcond : ¬ ((m.lt m.sellt).arrange = none ∨ c.isfloating ≠ 0) := by
      intro h
      rcases h with h | h
      · exact hl h
      · exact h hf
    refine ⟨?_, ?_, ?_, ?_⟩
    · intro d rest hn hd
      unfold zoom
      rw [hsel]
      simp only []
      rw [hc]
      simp only []
      rw [if_neg hcond, hn]
      simp only []
      rw [if_neg hd, pop_wins, hwin]
    · intro hn
      unfold zoom
      rw [hsel]
      simp only []
      rw [hc]
      simp only []
      rw [if_neg hcond, hn]
      simp only []
      rw [pop_wins, hwin]
    · intro d rest c2 rest2 hn hd hn2
      unfold zoom
      rw [hsel]
      simp only []
      rw [hc]
      simp only []
      rw [if_neg hcond, hn]
      simp only []
      rw [if_pos hd, hn2]
      simp only []
      rw [pop_wins]
    · intro d rest hn hd hn2
      unfold zoom
      rw [hsel]
      simp only []
      rw [hc]
      simp only []
      rw [if_neg hcond, hn]
      simp only []
      rw [if_pos hd, hn2]
  · intro hl
    unfold zoom
    split
    · rfl
    · split
      · rfl
      · rw [if_pos (Or.inl hl)]
  · intro hs
    unfold zoom
    rw [hs]
  · intro w c hsel hc hf
    unfold zoom
    rw [hsel]
    simp only []
    rw [hc]
    simp only []
    rw [if_pos (Or.inr hf)]

/-- On the monitor with clients 7, 8, 9 and 8 selected, `zoom` gives the order
8, 7, 9. -/
theorem zoom_head_witness :
    (zoom Env.sample Monitor.triple8).clients.map Client.win = [8, 7, 9] :=
  ((zoom_head Env.sample Monitor.triple8).1 8 { Client.sample with win := 8 }
    (by decide) (by decide) (by decide) (by decide)).1
    Client.sample [{ Client.sample with win := 8 }, { Client.sample with win := 9 }]
    (by decide) (by decide)

/-- With the first tiled client 7 selected, `zoom` moves the next tiled client 8
to the head. -/
theorem zoom_first_sample :
    (zoom Env.sample Monitor.triple).clients.map Client.win = [8, 7, 9] ∧
    (zoom Env.sample Monitor.triple).sel = some 8 := by decide

/-! ## The monitor field of clients through a layout pass -/

theorem resize_mon (e : Env) (m : Monitor) (c : Client) (x y w h i : Int) :
    (resize e m c x y w h i).mon = c.mon := by
  unfold resize applysizehints
  simp only []
  split_ifs <;> simp [resizeclient, updatesizehints]

theorem modifyFirst_mons (w : Window) (f : Client → Client) (hf : ∀ c, (f c).mon = c.mon)
    (l : List Client) : (modifyFirst w f l).map Client.mon = l.map Client.mon := by
  induction l with
  | nil => rfl
  | cons a as ih =>
    unfold modifyFirst
    split_ifs
    · rw [List.map_cons, List.map_cons, hf]
    · rw [List.map_cons, List.map_cons, ih]

theorem tileloop_mons (e : Env) (m : Monitor) (n mw : Nat) (cs : List Client) :
    ∀ i my ty, (tileloop e m n mw i my ty cs).map Client.mon = cs.map Client.mon := by
  induction cs with
  | nil => intro i my ty; rfl
  | cons c cs ih =>
    intro i my ty
    unfold tileloop
    split_ifs
    · rw [List.map_cons, List.map_cons, ih]
    · simp only [List.map_cons]
      rw [ih, resize_mon]
    · simp only [List.map_cons]
      rw [ih, resize_mon]

theorem tile_mons (e : Env) (m : Monitor) :
    (tile e m).clients.map Client.mon = m.clients.map Client.mon := by
  unfold tile
  simp only []
  split_ifs
  · rfl
  · exact tileloop_mons e m _ _ _ 0 0 0

theorem monocle_mons (e : Env) (m : Monitor) :
    (monocle e m).clients.map Client.mon = m.clients.map Client.mon := by
  unfold monocle
  simp only [List.map_map]
  split_ifs
  all_goals
    apply List.map_congr_left
    intro c _
    simp only [Function.comp]
    split_ifs
    · rfl
    · exact resize_mon _ _ _ _ _ _ _ _

theorem showhide_mons (e : Env) (ws : List Window) :
    ∀ m : Monitor, (showhide e m ws).clients.map Client.mon = m.clients.map Client.mon := by
  induction ws with
  | nil => intro m; rfl
  | cons w ws ih =>
    intro m
    unfold showhide
    split
    · exact ih m
    · split_ifs
      · rw [ih (m.modifyClient w _)]
        exact modifyFirst_mons w _ (fun c => resize_mon e m c _ _ _ _ _) m.clients
      · exact ih m
      · exact ih m

theorem arrange_mons (e : Env) (m : Monitor) :
    (arrange e m).clients.map Client.mon = m.clients.map Client.mon := by
  unfold arrange restack arrangemon
  split
  · rw [tile_mons, showhide_mons]
  · rw [monocle_mons, showhide_mons]
  · rw [showhide_mons]


/-! ## Moving a client to another monitor (C12) -/

theorem sendmon_get (e : Env) (s : State) (w : Window) (dst : Nat) (c : Client)
    (msrc md : Monitor) (hc : wintoclient s.mons w = some c) (hne : c.mon ≠ dst)
    (hsrc : s.mons[c.mon]? = some msrc) (hdst : s.mons[dst]? = some md) (j : Nat) :
    (sendmon e s w dst).mons[j]? = (s.mons[j]?).map (fun mj => arrange e
      (if s.selmon = j then
        focus (if dst = j then
            attachstack (attach mj { c with mon := dst, tags := md.tagset md.seltags }) w
          else if c.mon = j then detachstack (detach mj w) w else mj) none
       else (if dst = j then
            attachstack (attach mj { c with mon := dst, tags := md.tagset md.seltags }) w
          else if c.mon = j then detachstack (detach mj w) w else mj))) := by
  unfold sendmon
  rw [hc]
  simp only []
  rw [if_neg hne, hsrc, hdst]
  simp only []
  unfold arrangeall unfocus
  simp only [List.getElem?_map, modifyMon_get, modifyMon_selmon]
  cases hj : s.mons[j]? with
  | none => simp
  | some mj =>
    by_cases h1 : s.selmon = j <;> by_cases h2 : dst = j <;> by_cases h3 : c.mon = j
    · exact absurd (h3.trans h2.symm) hne
    · simp [h1, h2, h3]
    · simp [h1, h2, h3]
    · simp [h1, h2, h3]
    · exact absurd (h3.trans h2.symm) hne
    · simp [h1, h2, h3]
    · simp [h1, h2, h3]
    · simp [h1, h2, h3]


theorem firstvisiblestack_mem (m : Monitor) (l : List Window) (v : Window)
    (h : firstvisiblestack m l = some v) : v ∈ l := by
  induction l with
  | nil => simp [firstvisiblestack] at h
  | cons a as ih =>
    unfold firstvisiblestack at h
    split at h
    · split_ifs at h
      · have : a = v := Option.some.inj h
        rw [this]
        exact List.mem_cons_self _ _
      · exact List.mem_cons_of_mem _ (ih h)
    · exact List.mem_cons_of_mem _ (ih h)

theorem filter_erase_ne (p : Window → Bool) (v : Window) (hp : p v = false) (l : List Window) :
    (l.erase v).filter p = l.filter p := by
  induction l with
  | nil => rfl
  | cons a as ih =>
    by_cases ha : a = v
    · subst ha
      rw [List.erase_cons_head]
      simp [List.filter, hp]
    · rw [List.erase_cons_tail (by simpa using ha)]
      simp only [List.filter]
      rw [ih]

theorem focus_none_stack (m : Monitor) :
    ((focus m none).stack.Perm m.stack) ∧
    (focus m none).stack.filter (fun x => decide (some x ≠ (focus m none).sel))
      = m.stack.filter (fun x => decide (some x ≠ (focus m none).sel)) := by
  unfold focus
  simp only []
  cases h : firstvisiblestack m m.stack with
  | none =>
    simp only []
    exact ⟨List.Perm.refl _, trivial⟩
  | some v =>
    simp only []
    unfold attachstack detachstack
    simp only []
    have hmem := firstvisiblestack_mem m m.stack v h
    refine ⟨(List.perm_cons_erase hmem).symm, ?_⟩
    have hp : (fun x => decide (some x ≠ some v)) v = false := by simp
    rw [List.filter_cons_of_neg (by simp)]
    exact filter_erase_ne _ v hp m.stack

/-- The closing steps of `sendmon` on one monitor: `focus(NULL)` (on the selected
monitor only) and `arrange` keep the window ids and `mon` fields of the client
list; the focus stack is permuted, and only the new selection moves in it. -/
theorem focus_arrange_lists (e : Env) (m : Monitor) (b : Prop) [Decidable b] :
    (arrange e (if b then focus m none else m)).clients.map Client.win
      = m.clients.map Client.win ∧
    (arrange e (if b then focus m none else m)).clients.map Client.mon
      = m.clients.map Client.mon ∧
    (arrange e (if b then focus m none else m)).stack.Perm m.stack ∧
    (¬ b → (arrange e (if b then focus m none else m)).stack = m.stack) ∧
    (arrange e (if b then focus m none else m)).stack.filter
        (fun x => decide (some x ≠ (arrange e (if b then focus m none else m)).sel))
      = m.stack.filter
        (fun x => decide (some x ≠ (arrange e (if b then focus m none else m)).sel)) := by
  have hf := arrange_fields e (if b then focus m none else m)
  rw [arrange_wins, arrange_mons, hf.2.2.2.2.2.2, hf.2.2.2.2.2.1]
  by_cases hb : b
  · simp only [if_pos hb, focus_clients]
    exact ⟨trivial, trivial, (focus_none_stack m).1, fun h => absurd hb h, (focus_none_stack m).2⟩
  · simp only [if_neg hb]
    exact ⟨trivial, trivial, List.Perm.refl _, fun _ => trivial, trivial⟩


theorem wintoclient_get (ms : List Monitor) (w : Window) (c : Client)
    (h : wintoclient ms w = some c) :
    ∃ (k : Nat) (m : Monitor), ms[k]? = some m ∧ m.client? w = some c := by
  induction ms with
  | nil => simp [wintoclient] at h
  | cons m ms ih =>
    unfold wintoclient at h
    split at h
    · rename_i d hd
      have hdc : d = c := Option.some.inj h
      subst hdc
      exact ⟨0, m, by simp, hd⟩
    · obtain ⟨k, m1, hk, hm1⟩ := ih h
      exact ⟨k + 1, m1, by simpa using hk, hm1⟩

theorem listinv_iff (s : State) :
    s.listinv ↔
      (∀ (i : Nat) (m : Monitor), s.mons[i]? = some m →
        (m.clients.map Client.win).Nodup ∧ m.stack.Perm (m.clients.map Client.win) ∧
        ∀ x ∈ m.clients.map Client.mon, x = i) ∧
      (∀ (i j : Nat) (mi mj : Monitor), s.mons[i]? = some mi → s.mons[j]? = some mj →
        ∀ x ∈ mi.clients.map Client.win, x ∈ mj.clients.map Client.win → i = j) := by
  constructor
  · intro h
    refine ⟨fun i m hm => ?_, fun i j mi mj hi hj x hx hy => ?_⟩
    · exact h.1 (i, m) (List.mk_mem_enum_iff_getElem?.2 hm)
    · exact h.2 (i, mi) (List.mk_mem_enum_iff_getElem?.2 hi) (j, mj)
        (List.mk_mem_enum_iff_getElem?.2 hj) x hx hy
  · intro h
    refine ⟨fun p hp => ?_, fun p hp q hq x hx hy => ?_⟩
    · exact h.1 p.1 p.2 (List.mk_mem_enum_iff_getElem?.1 hp)
    · exact h.2 p.1 q.1 p.2 q.2 (List.mk_mem_enum_iff_getElem?.1 hp)
        (List.mk_mem_enum_iff_getElem?.1 hq) x hx hy

theorem find_mem_wins (l : List Client) (w : Window) (c : Client)
    (h : l.find? (fun c => c.win == w) = some c) : w ∈ l.map Client.win := by
  have h1 := List.mem_of_find?_eq_some h
  have h2 : c.win = w := by
    have := List.find?_some h
    simpa using this
  rw [← h2]
  exact List.mem_map_of_mem _ h1

/-- One monitor after `sendmon`: the target gets `w` at the head of both lists,
the source loses it, the others keep their lists; on the selected monitor the
focus stack is permuted by `focus(NULL)`. -/
theorem sendmon_at (e : Env) (s : State) (w : Window) (dst : Nat) (c : Client)
    (msrc md : Monitor) (hc : wintoclient s.mons w = some c) (hne : c.mon ≠ dst)
    (hsrc : s.mons[c.mon]? = some msrc) (hdst : s.mons[dst]? = some md)
    (j : Nat) (mj : Monitor) (hj : s.mons[j]? = some mj) :
    ∃ mj1, (sendmon e s w dst).mons[j]? = some mj1 ∧
      mj1.clients.map Client.win
        = (if dst = j then w :: mj.clients.map Client.win
           else if c.mon = j then (mj.clients.map Client.win).erase w
           else mj.clients.map Client.win) ∧
      mj1.clients.map Client.mon
        = (if dst = j then dst :: mj.clients.map Client.mon
           else if c.mon = j then (removeFirst w mj.clients).map Client.mon
           else mj.clients.map Client.mon) ∧
      mj1.stack.Perm
        (if dst = j then w :: mj.stack else if c.mon = j then mj.stack.erase w else mj.stack) ∧
      (s.selmon ≠ j → mj1.stack =
        (if dst = j then w :: mj.stack else if c.mon = j then mj.stack.erase w else mj.stack)) ∧
      mj1.stack.filter (fun x => decide (some x ≠ mj1.sel))
        = (if dst = j then w :: mj.stack else if c.mon = j then mj.stack.erase w
           else mj.stack).filter (fun x => decide (some x ≠ mj1.sel)) := by
  have hwin := wintoclient_win s.mons w c hc
  rw [sendmon_get e s w dst c msrc md hc hne hsrc hdst j, hj]
  refine ⟨_, rfl, ?_⟩
  have hfa := focus_arrange_lists e
    (if dst = j then
        attachstack (attach mj { c with mon := dst, tags := md.tagset md.seltags }) w
      else if c.mon = j then detachstack (detach mj w) w else mj) (s.selmon = j)
  by_cases h2 : dst = j
  · simp only [if_pos h2] at hfa ⊢
    obtain ⟨a1, a2, a3, a4, a5⟩ := hfa
    refine ⟨?_, ?_, a3, a4, a5⟩
    · rw [a1]
      unfold attachstack attach
      simp only [List.map_cons]
      rw [hwin]
    · rw [a2]
      unfold attachstack attach
      simp only [List.map_cons]
  · simp only [if_neg h2] at hfa ⊢
    by_cases h3 : c.mon = j
    · simp only [if_pos h3] at hfa ⊢
      obtain ⟨a1, a2, a3, a4, a5⟩ := hfa
      refine ⟨?_, ?_, a3, a4, a5⟩
      · rw [a1]
        unfold detachstack detach
        simp only []
        rw [removeFirst_wins]
      · rw [a2]
        rfl
    · simp only [if_neg h3] at hfa ⊢
      exact hfa


theorem sendlist_filter (l : List Window) (w : Window) (b1 b2 : Prop) [Decidable b1]
    [Decidable b2] :
    (if b1 then w :: l else if b2 then l.erase w else l).filter (fun x => decide (x ≠ w))
      = l.filter (fun x => decide (x ≠ w)) := by
  split_ifs
  · rw [List.filter_cons_of_neg (by simp)]
  · exact filter_erase_ne _ w (by simp) l
  · rfl

theorem sendmon_length (e : Env) (s : State) (w : Window) (dst : Nat) :
    (sendmon e s w dst).mons.length = s.mons.length := by
  have hlen : ∀ (t : State) (i : Nat) (f : Monitor → Monitor),
      (t.modifyMon i f).mons.length = t.mons.length := by
    intro t i f
    unfold State.modifyMon
    split
    · simp
    · rfl
  unfold sendmon
  split
  · rfl
  · split_ifs
    · rfl
    · split
      · simp only [arrangeall, List.length_map, hlen]
      · rfl

theorem sendmon_get_inv (e : Env) (s : State) (w : Window) (dst : Nat) (c : Client)
    (msrc md : Monitor) (hc : wintoclient s.mons w = some c) (hne : c.mon ≠ dst)
    (hsrc : s.mons[c.mon]? = some msrc) (hdst : s.mons[dst]? = some md)
    (j : Nat) (mj1 : Monitor) (hj : (sendmon e s w dst).mons[j]? = some mj1) :
    ∃ mj, s.mons[j]? = some mj := by
  rw [sendmon_get e s w dst c msrc md hc hne hsrc hdst j] at hj
  cases h : s.mons[j]? with
  | none => rw [h] at hj; simp at hj
  | some mj => exact ⟨mj, rfl⟩

/-- Membership in the client list of monitor `j` after `sendmon`, in a state
with the list invariants. -/
theorem sendmon_mem (w : Window) (dst src j : Nat) (l l1 : List Window)
    (hne : src ≠ dst) (hnd : l.Nodup) (hw : j ≠ src → w ∉ l)
    (h1 : l1 = (if dst = j then w :: l else if src = j then l.erase w else l)) (x : Window) :
    x ∈ l1 ↔ (dst = j ∧ x = w) ∨ (x ≠ w ∧ x ∈ l) := by
  rw [h1]
  by_cases h2 : dst = j
  · rw [if_pos h2]
    have hwl : w ∉ l := hw (fun h => hne (h2.trans h).symm)
    simp only [List.mem_cons]
    constructor
    · rintro (h | h)
      · exact Or.inl ⟨h2, h⟩
      · exact Or.inr ⟨fun hx => hwl (hx ▸ h), h⟩
    · rintro (h | h)
      · exact Or.inl h.2
      · exact Or.inr h.2
  · rw [if_neg h2]
    by_cases h3 : src = j
    · rw [if_pos h3, hnd.mem_erase_iff]
      constructor
      · intro h
        exact Or.inr h
      · rintro (h | h)
        · exact absurd h.1 h2
        · exact h
    · rw [if_neg h3]
      have hwl : w ∉ l := hw (fun h => h3 h.symm)
      constructor
      · intro h
        exact Or.inr ⟨fun hx => hwl (hx ▸ h), h⟩
      · rintro (h | h)
        · exact absurd h.1 h2
        · exact h.2


theorem removeFirst_mem (w : Window) (l : List Client) (c : Client)
    (h : c ∈ removeFirst w l) : c ∈ l := by
  induction l with
  | nil => simp [removeFirst] at h
  | cons a as ih =>
    unfold removeFirst at h
    split_ifs at h
    · exact List.mem_cons_of_mem _ h
    · rcases List.mem_cons.1 h with h | h
      · rw [h]; exact List.mem_cons_self _ _
      · exact List.mem_cons_of_mem _ (ih h)

/-- One monitor after `sendmon` in a state with the list invariants. -/
theorem sendmon_at_inv (e : Env) (s : State) (w : Window) (dst : Nat) (c : Client)
    (msrc md : Monitor) (hinv : s.listinv) (hc : wintoclient s.mons w = some c)
    (hne : c.mon ≠ dst) (hsrc : s.mons[c.mon]? = some msrc) (hfind : msrc.client? w = some c)
    (hdst : s.mons[dst]? = some md) (j : Nat) (mj : Monitor) (hj : s.mons[j]? = some mj) :
    ∃ mj1, (sendmon e s w dst).mons[j]? = some mj1 ∧
      (mj1.clients.map Client.win).Nodup ∧ mj1.stack.Perm (mj1.clients.map Client.win) ∧
      (∀ x ∈ mj1.clients.map Client.mon, x = j) ∧
      (∀ x, x ∈ mj1.clients.map Client.win ↔
        (dst = j ∧ x = w) ∨ (x ≠ w ∧ x ∈ mj.clients.map Client.win)) ∧
      (mj1.clients.map Client.win).filter (fun x => decide (x ≠ w))
        = (mj.clients.map Client.win).filter (fun x => decide (x ≠ w)) ∧
      (j ≠ s.selmon → mj1.stack.filter (fun x => decide (x ≠ w))
        = mj.stack.filter (fun x => decide (x ≠ w))) ∧
      mj1.stack.filter (fun x => decide (x ≠ w) && decide (some x ≠ mj1.sel))
        = mj.stack.filter (fun x => decide (x ≠ w) && decide (some x ≠ mj1.sel)) := by
  obtain ⟨hI, hX⟩ := (listinv_iff s).1 hinv
  obtain ⟨hnd, hperm, hmon⟩ := hI j mj hj
  have hwsrc : w ∈ msrc.clients.map Client.win := find_mem_wins msrc.clients w c hfind
  have hw : j ≠ c.mon → w ∉ mj.clients.map Client.win := by
    intro hjs hx
    exact hjs (hX j c.mon mj msrc hj hsrc w hx hwsrc)
  obtain ⟨mj1, h0, h1, h2, h3, h4, h5⟩ :=
    sendmon_at e s w dst c msrc md hc hne hsrc hdst j mj hj
  have hmem := sendmon_mem w dst c.mon j _ _ hne hnd hw h1
  refine ⟨mj1, h0, ?_, ?_, ?_, hmem, ?_, ?_, ?_⟩
  · rw [h1]
    by_cases hd : dst = j
    · rw [if_pos hd]
      exact List.nodup_cons.2 ⟨hw (fun h => hne (hd.trans h).symm), hnd⟩
    · rw [if_neg hd]
      split_ifs
      · exact hnd.erase w
      · exact hnd
  · refine h3.trans ?_
    rw [h1]
    split_ifs
    · exact List.Perm.cons w hperm
    · exact hperm.erase w
    · exact hperm
  · intro x hx
    rw [h2] at hx
    by_cases hd : dst = j
    · rw [if_pos hd] at hx
      rcases List.mem_cons.1 hx with h | h
      · rw [h]; exact hd
      · exact hmon x h
    · rw [if_neg hd] at hx
      by_cases hs : c.mon = j
      · rw [if_pos hs] at hx
        obtain ⟨d, hd1, hd2⟩ := List.mem_map.1 hx
        exact hmon x (hd2 ▸ List.mem_map_of_mem _ (removeFirst_mem w mj.clients d hd1))
      · rw [if_neg hs] at hx
        exact hmon x hx
  · rw [h1]
    exact sendlist_filter _ w _ _
  · intro hjs
    rw [h4 (fun h => hjs h.symm)]
    exact sendlist_filter _ w _ _
  · have hsplit : ∀ l : List Window,
        l.filter (fun x => decide (x ≠ w) && decide (some x ≠ mj1.sel))
          = (l.filter (fun x => decide (some x ≠ mj1.sel))).filter (fun x => decide (x ≠ w)) := by
      intro l
      rw [List.filter_filter]
    have hsplit2 : ∀ l : List Window,
        l.filter (fun x => decide (x ≠ w) && decide (some x ≠ mj1.sel))
          = (l.filter (fun x => decide (x ≠ w))).filter (fun x => decide (some x ≠ mj1.sel)) := by
      intro l
      rw [List.filter_filter]
      congr 1
      funext x
      exact Bool.and_comm _ _
    rw [hsplit mj1.stack, h5, ← hsplit, hsplit2, sendlist_filter, ← hsplit2]


/-- C12: in a state with the list invariants, for a managed client `c` (window
`w`) and a monitor `dst` other than `c.mon`, after `sendmon(c, dst)` the list
invariants hold again, `c` is on `dst` with `c.mon = dst` and the active tagset
of `dst` as tags, it occurs exactly once in the client list and once in the
focus stack of `dst` and in no list of another monitor; every monitor keeps its
other clients in their order (in the focus stack of the selected monitor
`focus(NULL)` moves the client it selects to the head, all others keep their
order).  With `dst = c.mon` nothing changes. -/
theorem sendmon_moves (e : Env) (s : State) (w : Window) (dst : Nat) (c : Client)
    (md : Monitor) (hinv : s.listinv) (hc : wintoclient s.mons w = some c)
    (hdst : s.mons[dst]? = some md) :
    (c.mon ≠ dst →
      (sendmon e s w dst).listinv ∧
      (∃ m1 c1, (sendmon e s w dst).mons[dst]? = some m1 ∧ m1.client? w = some c1 ∧
        c1.mon = dst ∧ c1.tags = md.active ∧
        (m1.clients.map Client.win).count w = 1 ∧ m1.stack.count w = 1) ∧
      (∀ (j : Nat) (mj : Monitor), s.mons[j]? = some mj →
        ∃ mj1, (sendmon e s w dst).mons[j]? = some mj1 ∧
          (j ≠ dst → w ∉ mj1.clients.map Client.win ∧ w ∉ mj1.stack) ∧
          (mj1.clients.map Client.win).filter (fun x => decide (x ≠ w))
            = (mj.clients.map Client.win).filter (fun x => decide (x ≠ w)) ∧
          (j ≠ s.selmon → mj1.stack.filter (fun x => decide (x ≠ w))
            = mj.stack.filter (fun x => decide (x ≠ w))) ∧
          mj1.stack.filter (fun x => decide (x ≠ w) && decide (some x ≠ mj1.sel))
            = mj.stack.filter (fun x => decide (x ≠ w) && decide (some x ≠ mj1.sel))) ∧
      (sendmon e s w dst).mons.length = s.mons.length) ∧
    (c.mon = dst → sendmon e s w dst = s) := by
  refine ⟨fun hne => ?_, fun heq => ?_⟩
  · obtain ⟨hI, hX⟩ := (listinv_iff s).1 hinv
    obtain ⟨k, msrc, hk, hfind⟩ := wintoclient_get s.mons w c hc
    have hck : c.mon = k :=
      (hI k msrc hk).2.2 c.mon (List.mem_map_of_mem _ (List.mem_of_find?_eq_some hfind))
    rw [← hck] at hk
    have key := sendmon_at_inv e s w dst c msrc md hinv hc hne hk hfind hdst
    refine ⟨?_, ?_, ?_, sendmon_length e s w dst⟩
    · rw [listinv_iff]
      refine ⟨fun i m1 hm1 => ?_, fun i j mi1 mj1 hi1 hj1 x hx hy => ?_⟩
      · obtain ⟨mi, hmi⟩ := sendmon_get_inv e s w dst c msrc md hc hne hk hdst i m1 hm1
        obtain ⟨m2, h0, h1, h2, h3, _⟩ := key i mi hmi
        rw [hm1] at h0
        have : m1 = m2 := Option.some.inj h0
        subst this
        exact ⟨h1, h2, h3⟩
      · obtain ⟨mi, hmi⟩ := sendmon_get_inv e s w dst c msrc md hc hne hk hdst i mi1 hi1
        obtain ⟨mj, hmj⟩ := sendmon_get_inv e s w dst c msrc md hc hne hk hdst j mj1 hj1
        obtain ⟨m2, h0, _, _, _, hmemi, _⟩ := key i mi hmi
        rw [hi1] at h0
        have e1 : mi1 = m2 := Option.some.inj h0
        subst e1
        obtain ⟨m3, h0, _, _, _, hmemj, _⟩ := key j mj hmj
        rw [hj1] at h0
        have e2 : mj1 = m3 := Option.some.inj h0
        subst e2
        rcases (hmemi x).1 hx with ⟨hdi, hxw⟩ | ⟨hxw, hxi⟩
        · rcases (hmemj x).1 hy with ⟨hdj, _⟩ | ⟨hxw2, _⟩
          · exact hdi.symm.trans hdj
          · exact absurd hxw hxw2
        · rcases (hmemj x).1 hy with ⟨_, hxw2⟩ | ⟨_, hxj⟩
          · exact absurd hxw2 hxw
          · exact hX i j mi mj hmi hmj x hxi hxj
    · obtain ⟨m1, c1, hm1, hc1, htags⟩ := sendmon_tags e s w dst c msrc md hc hne hk hdst
      obtain ⟨m2, h0, hnd, hperm, hmon, hmem, _⟩ := key dst md hdst
      rw [hm1] at h0
      have e1 : m1 = m2 := Option.some.inj h0
      subst e1
      have hwin : w ∈ m1.clients.map Client.win := (hmem w).2 (Or.inl ⟨rfl, rfl⟩)
      have hcount : (m1.clients.map Client.win).count w = 1 :=
        List.count_eq_one_of_mem hnd hwin
      refine ⟨m1, c1, hm1, hc1, ?_, htags, hcount, ?_⟩
      · exact hmon c1.mon (List.mem_map_of_mem _ (List.mem_of_find?_eq_some hc1))
      · rw [hperm.count_eq]
        exact hcount
    · intro j mj hj
      obtain ⟨mj1, h0, hnd, hperm, hmon, hmem, h5, h6, h7⟩ := key j mj hj
      refine ⟨mj1, h0, ?_, h5, h6, h7⟩
      intro hjd
      have hnot : w ∉ mj1.clients.map Client.win := by
        intro hx
        rcases (hmem w).1 hx with ⟨hd, _⟩ | ⟨hxw, _⟩
        · exact hjd hd.symm
        · exact hxw rfl
      exact ⟨hnot, fun hx => hnot (hperm.mem_iff.1 hx)⟩
  · rw [← heq]
    exact sendmon_same e s w c hc

theorem sendmon_moves_witness :
    State.dual.listinv ∧ wintoclient State.dual.mons 7 = some Client.sample ∧
    State.dual.mons[1]? = some Monitor.second ∧ Client.sample.mon ≠ 1 ∧
    (sendmon Env.sample State.dual 7 1).listinv ∧
    (∃ m1 c1, (sendmon Env.sample State.dual 7 1).mons[1]? = some m1 ∧
      m1.client? 7 = some c1 ∧ c1.mon = 1 ∧ c1.tags = Monitor.second.active ∧
      (m1.clients.map Client.win).count 7 = 1 ∧ m1.stack.count 7 = 1) :=
  ⟨by decide, by decide, by decide, by decide,
   ((sendmon_moves Env.sample State.dual 7 1 Client.sample Monitor.second
      (by decide) (by decide) (by decide)).1 (by decide)).1,
   ((sendmon_moves Env.sample State.dual 7 1 Client.sample Monitor.second
      (by decide) (by decide) (by decide)).1 (by decide)).2.1⟩

/-- The sample client moves from the first to the second monitor. -/
theorem sendmon_sample :
    (sendmon Env.sample State.dual 7 1).mons.map
      (fun m => (m.clients.map (fun c => (c.win, c.mon, c.tags)), m.stack))
      = [([], []), ([(7, 1, 2)], [7])] := by decide

/-! ## Removing monitors (C13) -/

theorem migrate_lists (cs : List Client) :
    ∀ m0 ml : Monitor,
      (migrate cs m0 ml).1.clients.map Client.win
        = (cs.map Client.win).reverse ++ m0.clients.map Client.win ∧
      (migrate cs m0 ml).1.stack = (cs.map Client.win).reverse ++ m0.stack ∧
      (∀ x ∈ (migrate cs m0 ml).1.clients.map Client.mon,
        x = 0 ∨ x ∈ m0.clients.map Client.mon) := by
  induction cs with
  | nil =>
    intro m0 ml
    exact ⟨rfl, rfl, fun x hx => Or.inr hx⟩
  | cons c cs ih =>
    intro m0 ml
    unfold migrate
    simp only []
    obtain ⟨h1, h2, h3⟩ := ih (attachstack (attach m0 { c with mon := 0 }) c.win)
      (detachstack { ml with clients := cs } c.win)
    refine ⟨?_, ?_, ?_⟩
    · rw [h1]
      simp [attachstack, attach]
    · rw [h2]
      simp [attachstack, attach]
    · intro x hx
      rcases h3 x hx with h | h
      · exact Or.inl h
      · simp only [attachstack, attach, List.map_cons, List.mem_cons] at h
        rcases h with h | h
        · exact Or.inl h
        · exact Or.inr h

theorem removelast_step (t : State) (dirty : Int) (m0 ml : Monitor) (L : Nat)
    (hlen : t.mons.length = L + 1) (hL : 1 ≤ L)
    (h0 : t.mons[0]? = some m0) (hl : t.mons[L]? = some ml) :
    ∃ t1 d1, removelast t dirty = some (t1, d1) ∧ t1.mons.length = L ∧
      t1.selmon = (if L = t.selmon then 0 else t.selmon) ∧
      t1.mons[0]? = some (migrate ml.clients m0 ml).1 ∧
      (∀ j, 0 < j → j < L → t1.mons[j]? = t.mons[j]?) := by
  have hL0 : ¬ L = 0 := by omega
  unfold removelast
  simp only [hlen, Nat.add_sub_cancel, h0, hl, if_neg hL0]
  refine ⟨_, _, rfl, ?_, rfl, ?_, ?_⟩
  · simp only [cleanupmon]
    rw [List.length_eraseIdx]
    simp [hlen]
  · simp only [cleanupmon]
    rw [List.getElem?_eraseIdx_of_lt _ _ _ (by omega), List.getElem?_set_ne (by omega),
      List.getElem?_set]
    simp [hlen]
  · intro j hj0 hjL
    simp only [cleanupmon]
    rw [List.getElem?_eraseIdx_of_lt _ _ _ hjL, List.getElem?_set_ne (by omega),
      List.getElem?_set_ne (by omega)]


theorem lt_of_getElem?_some {α : Type} (l : List α) (i : Nat) (a : α) (h : l[i]? = some a) :
    i < l.length := by
  by_contra hn
  rw [List.getElem?_eq_none (Nat.le_of_not_lt hn)] at h
  exact Option.noConfusion h

theorem getElem?_some_of_lt {α : Type} (l : List α) (i : Nat) (h : i < l.length) :
    ∃ a, l[i]? = some a :=
  ⟨l[i], List.getElem?_eq_getElem h⟩

/-- One round of the removal loop in a state with the list invariants and at
least two monitors: the invariants hold again, the first monitor holds its own
clients and those of the removed monitor, the monitors in between are unchanged. -/
theorem removelast_inv (t : State) (dirty : Int) (L : Nat)
    (hlen : t.mons.length = L + 1) (hL : 1 ≤ L) (hinv : t.listinv)
    (hsel : t.selmon < t.mons.length) :
    ∃ t1 d1 m0 ml m01, removelast t dirty = some (t1, d1) ∧ t1.mons.length = L ∧
      t1.listinv ∧ t1.selmon < L ∧
      t.mons[0]? = some m0 ∧ t.mons[L]? = some ml ∧ t1.mons[0]? = some m01 ∧
      (∀ x, x ∈ m01.clients.map Client.win ↔
        x ∈ ml.clients.map Client.win ∨ x ∈ m0.clients.map Client.win) ∧
      (∀ j, 0 < j → j < L → t1.mons[j]? = t.mons[j]?) := by
  obtain ⟨m0, h0⟩ := getElem?_some_of_lt t.mons 0 (by omega)
  obtain ⟨ml, hl⟩ := getElem?_some_of_lt t.mons L (by omega)
  obtain ⟨t1, d1, hr, hlen1, hsel1, h01, hmid⟩ := removelast_step t dirty m0 ml L hlen hL h0 hl
  obtain ⟨hI, hX⟩ := (listinv_iff t).1 hinv
  obtain ⟨g1, g2, g3⟩ := migrate_lists ml.clients m0 ml
  obtain ⟨hnd0, hperm0, hmon0⟩ := hI 0 m0 h0
  obtain ⟨hndl, _, _⟩ := hI L ml hl
  have hmem : ∀ x, x ∈ (migrate ml.clients m0 ml).1.clients.map Client.win ↔
      x ∈ ml.clients.map Client.win ∨ x ∈ m0.clients.map Client.win := by
    intro x
    rw [g1, List.mem_append, List.mem_reverse]
  have horigin : ∀ (i : Nat) (mi1 : Monitor) (x : Window), t1.mons[i]? = some mi1 →
      x ∈ mi1.clients.map Client.win →
      i < L ∧ ∃ (o : Nat) (mo : Monitor), t.mons[o]? = some mo ∧ x ∈ mo.clients.map Client.win ∧
        (o = i ∨ (i = 0 ∧ o = L)) := by
    intro i mi1 x hi hx
    have hiL : i < L := hlen1 ▸ lt_of_getElem?_some t1.mons i mi1 hi
    refine ⟨hiL, ?_⟩
    by_cases hi0 : i = 0
    · subst hi0
      rw [h01] at hi
      have e1 : (migrate ml.clients m0 ml).1 = mi1 := Option.some.inj hi
      rw [← e1] at hx
      rcases (hmem x).1 hx with h | h
      · exact ⟨L, ml, hl, h, Or.inr ⟨rfl, rfl⟩⟩
      · exact ⟨0, m0, h0, h, Or.inl rfl⟩
    · rw [hmid i (by omega) hiL] at hi
      exact ⟨i, mi1, hi, hx, Or.inl rfl⟩
  refine ⟨t1, d1, m0, ml, _, hr, hlen1, ?_, ?_, h0, hl, h01, hmem, hmid⟩
  · rw [listinv_iff]
    refine ⟨fun i m1 hm1 => ?_, fun i j mi1 mj1 hi1 hj1 x hx hy => ?_⟩
    · have hiL : i < L := hlen1 ▸ lt_of_getElem?_some t1.mons i m1 hm1
      by_cases hi0 : i = 0
      · subst hi0
        rw [h01] at hm1
        have e1 : (migrate ml.clients m0 ml).1 = m1 := Option.some.inj hm1
        subst e1
        refine ⟨?_, ?_, ?_⟩
        · rw [g1]
          refine List.Nodup.append (List.nodup_reverse.2 hndl) hnd0 ?_
          intro x hx1 hx2
          have := hX L 0 ml m0 hl h0 x (List.mem_reverse.1 hx1) hx2
          omega
        · rw [g1, g2]
          exact List.Perm.append_left _ hperm0
        · intro x hx
          rcases g3 x hx with h | h
          · exact h
          · exact hmon0 x h
      · rw [hmid i (by omega) hiL] at hm1
        exact hI i m1 hm1
    · obtain ⟨hiL, oi, moi, hoi, hxi, hci⟩ := horigin i mi1 x hi1 hx
      obtain ⟨hjL, oj, moj, hoj, hxj, hcj⟩ := horigin j mj1 x hj1 hy
      have hoo : oi = oj := hX oi oj moi moj hoi hoj x hxi hxj
      omega
  · rw [hsel1]
    split_ifs <;> omega


/-- The removal loop from `nn + k` monitors down to `nn >= 1` in a state with the
list invariants: it returns, the invariants hold again, the clients of the
removed monitors are on the first monitor, the clients of the other monitors
stay where they are, and every client of the result was there before. -/
theorem removemons_inv : ∀ (k : Nat) (t : State) (dirty : Int) (nn : Nat), 1 ≤ nn →
    t.mons.length = nn + k → t.listinv → t.selmon < t.mons.length →
    ∃ t1 d1, removemons k t dirty = some (t1, d1) ∧ t1.mons.length = nn ∧ t1.listinv ∧
      t1.selmon < nn ∧
      (∃ m01, t1.mons[0]? = some m01 ∧
        ∀ (j : Nat) (mj : Monitor), nn ≤ j → t.mons[j]? = some mj →
          ∀ x ∈ mj.clients.map Client.win, x ∈ m01.clients.map Client.win) ∧
      (∀ (j : Nat) (mj : Monitor), j < nn → t.mons[j]? = some mj →
        ∃ mj1, t1.mons[j]? = some mj1 ∧
          ∀ x ∈ mj.clients.map Client.win, x ∈ mj1.clients.map Client.win) ∧
      (∀ (j : Nat) (mj1 : Monitor) (x : Window), t1.mons[j]? = some mj1 →
        x ∈ mj1.clients.map Client.win →
        ∃ (i : Nat) (mi : Monitor), t.mons[i]? = some mi ∧ x ∈ mi.clients.map Client.win) := by
  intro k
  induction k with
  | zero =>
    intro t dirty nn hnn hlen hinv hsel
    obtain ⟨m0, h0⟩ := getElem?_some_of_lt t.mons 0 (by omega)
    refine ⟨t, dirty, rfl, by omega, hinv, by omega, ⟨m0, h0, ?_⟩, ?_, ?_⟩
    · intro j mj hj hmj
      have := lt_of_getElem?_some t.mons j mj hmj
      omega
    · intro j mj _ hmj
      exact ⟨mj, hmj, fun x hx => hx⟩
    · intro j mj1 x hj hx
      exact ⟨j, mj1, hj, hx⟩
  | succ k ih =>
    intro t dirty nn hnn hlen hinv hsel
    obtain ⟨t2, d2, m0, ml, m02, hr, hlen2, hinv2, hsel2, h0, hl, h02, hmem, hmid⟩ :=
      removelast_inv t dirty (nn + k) (by omega) (by omega) hinv hsel
    obtain ⟨t1, d1, hr1, hlen1, hinv1, hsel1, ⟨m01, h01, ha⟩, hb, hcc⟩ :=
      ih t2 d2 nn hnn hlen2 hinv2 (by omega)
    have hfirst : ∀ x ∈ m02.clients.map Client.win, x ∈ m01.clients.map Client.win := by
      obtain ⟨m, hm, hsub⟩ := hb 0 m02 (by omega) h02
      rw [h01] at hm
      have e1 : m01 = m := Option.some.inj hm
      rw [e1]
      exact hsub
    refine ⟨t1, d1, ?_, hlen1, hinv1, hsel1, ⟨m01, h01, ?_⟩, ?_, ?_⟩
    · unfold removemons
      rw [hr]
      exact hr1
    · intro j mj hj hmj x hx
      have hjlt := lt_of_getElem?_some t.mons j mj hmj
      by_cases hjL : j = nn + k
      · subst hjL
        rw [hl] at hmj
        have e1 : ml = mj := Option.some.inj hmj
        subst e1
        exact hfirst x ((hmem x).2 (Or.inl hx))
      · have hj2 : t2.mons[j]? = some mj := by
          rw [hmid j (by omega) (by omega)]
          exact hmj
        exact ha j mj hj hj2 x hx
    · intro j mj hj hmj
      by_cases hj0 : j = 0
      · subst hj0
        rw [h0] at hmj
        have e1 : m0 = mj := Option.some.inj hmj
        subst e1
        exact ⟨m01, h01, fun x hx => hfirst x ((hmem x).2 (Or.inr hx))⟩
      · have hj2 : t2.mons[j]? = some mj := by
          rw [hmid j (by omega) (by omega)]
          exact hmj
        exact hb j mj hj hj2
    · intro j mj1 x hj hx
      obtain ⟨i, mi, hi, hxi⟩ := hcc j mj1 x hj hx
      have hilt := lt_of_getElem?_some t2.mons i mi hi
      by_cases hi0 : i = 0
      · subst hi0
        rw [h02] at hi
        have e1 : m02 = mi := Option.some.inj hi
        subst e1
        rcases (hmem x).1 hxi with h | h
        · exact ⟨nn + k, ml, hl, h⟩
        · exact ⟨0, m0, h0, h⟩
      · rw [hmid i (by omega) (by omega)] at hi
        exact ⟨i, mi, hi, hxi⟩


theorem updatebarpos_lists (e : Env) (m : Monitor) :
    (updatebarpos e m).clients = m.clients ∧ (updatebarpos e m).stack = m.stack := by
  unfold updatebarpos
  simp only []
  split_ifs <;> exact ⟨rfl, rfl⟩

theorem geomloop_lists (e : Env) (n : Nat) :
    ∀ (ms : List Monitor) (i : Nat) (us : List XineramaScreenInfo) (dirty : Int),
      (geomloop e n i us ms dirty).1.map (fun m => (m.clients, m.stack))
        = ms.map (fun m => (m.clients, m.stack)) := by
  intro ms
  induction ms with
  | nil =>
    intro i us dirty
    cases us <;> rfl
  | cons m ms ih =>
    intro i us dirty
    cases us with
    | nil => rfl
    | cons u us =>
      unfold geomloop
      split_ifs
      · simp only [List.map_cons]
        rw [ih, (updatebarpos_lists e _).1, (updatebarpos_lists e _).2]
      · simp only [List.map_cons]
        rw [ih]

theorem lists_get (ms ns : List Monitor)
    (h : ms.map (fun m => (m.clients, m.stack)) = ns.map (fun m => (m.clients, m.stack)))
    (j : Nat) (m : Monitor) (hm : ms[j]? = some m) :
    ∃ m1, ns[j]? = some m1 ∧ m1.clients = m.clients ∧ m1.stack = m.stack := by
  have h1 : (ms.map (fun m => (m.clients, m.stack)))[j]? = some (m.clients, m.stack) := by
    rw [List.getElem?_map, hm]
    rfl
  rw [h, List.getElem?_map] at h1
  cases hn : ns[j]? with
  | none => rw [hn] at h1; exact Option.noConfusion h1
  | some m1 =>
    rw [hn] at h1
    have h2 : (m1.clients, m1.stack) = (m.clients, m.stack) := Option.some.inj h1
    exact ⟨m1, rfl, (Prod.mk.inj h2).1, (Prod.mk.inj h2).2⟩

theorem listinv_of_lists (s t : State)
    (h : s.mons.map (fun m => (m.clients, m.stack)) = t.mons.map (fun m => (m.clients, m.stack)))
    (hinv : t.listinv) : s.listinv := by
  obtain ⟨hI, hX⟩ := (listinv_iff t).1 hinv
  rw [listinv_iff]
  refine ⟨fun i m hm => ?_, fun i j mi mj hi hj x hx hy => ?_⟩
  · obtain ⟨m1, h1, h2, h3⟩ := lists_get s.mons t.mons h i m hm
    have := hI i m1 h1
    rw [h2, h3] at this
    exact this
  · obtain ⟨mi1, h1, h2, _⟩ := lists_get s.mons t.mons h i mi hi
    obtain ⟨mj1, h3, h4, _⟩ := lists_get s.mons t.mons h j mj hj
    exact hX i j mi1 mj1 h1 h3 x (h2 ▸ hx) (h4 ▸ hy)

theorem recttomonloop_lt (x y w h : Int) :
    ∀ (ms : List Monitor) (i r : Nat) (area : Int) (n : Nat), r < n → i + ms.length ≤ n →
      recttomonloop x y w h ms i r area < n := by
  intro ms
  induction ms with
  | nil => intro i r area n hr _; exact hr
  | cons m ms ih =>
    intro i r area n hr hi
    unfold recttomonloop
    simp only [List.length_cons] at hi
    split_ifs
    · exact ih (i + 1) i _ n (by omega) (by omega)
    · exact ih (i + 1) r area n hr (by omega)

theorem barmon_lt (w : Window) :
    ∀ (ms : List Monitor) (i k : Nat), barmon w ms i = some k → k < i + ms.length := by
  intro ms
  induction ms with
  | nil => intro i k h; simp [barmon] at h
  | cons m ms ih =>
    intro i k h
    unfold barmon at h
    simp only [List.length_cons]
    split_ifs at h
    · have : i = k := Option.some.inj h
      omega
    · have := ih (i + 1) k h
      omega

theorem wintomon_lt (s : State) (root : Window) (ptr : Option (Int × Int)) (w : Window)
    (hinv : s.listinv) (hsel : s.selmon < s.mons.length) :
    wintomon s root ptr w < s.mons.length := by
  unfold wintomon
  split
  · exact recttomonloop_lt _ _ _ _ s.mons 0 s.selmon 0 _ hsel (by omega)
  · split
    · rename_i i hi
      have := barmon_lt w s.mons 0 i hi
      omega
    · split
      · rename_i c hc
        obtain ⟨k, m, hk, hfind⟩ := wintoclient_get s.mons w c hc
        have hck : c.mon = k :=
          ((listinv_iff s).1 hinv).1 k m hk |>.2.2 c.mon
            (List.mem_map_of_mem _ (List.mem_of_find?_eq_some hfind))
        rw [hck]
        exact lt_of_getElem?_some s.mons k m hk
      · exact hsel


theorem find_of_mem_wins (l : List Client) (w : Window) (h : w ∈ l.map Client.win) :
    ∃ c, l.find? (fun c => c.win == w) = some c := by
  induction l with
  | nil => simp at h
  | cons a as ih =>
    by_cases ha : a.win = w
    · exact ⟨a, find_cons_eq a as w ha⟩
    · rw [find_cons_ne a as w ha]
      apply ih
      rcases List.mem_cons.1 h with h | h
      · exact absurd h.symm ha
      · exact h

theorem updategeom_xinerama (e : Env) (d : MonitorDefaults) (root : Window)
    (ptr : Option (Int × Int)) (info : List XineramaScreenInfo) (s t1 : State) (d1 : Int)
    (hr : removemons (s.mons.length - (uniquegeoms info).length)
      { s with mons := (geomloop e s.mons.length 0 (uniquegeoms info)
          (growmons d s.mons ((uniquegeoms info).length - s.mons.length)) 0).1 }
      (geomloop e s.mons.length 0 (uniquegeoms info)
          (growmons d s.mons ((uniquegeoms info).length - s.mons.length)) 0).2 = some (t1, d1)) :
    updategeom e d root ptr (some info) s =
      some (if d1 ≠ 0 then
          ({ mons := t1.mons,
             selmon := wintomon { mons := t1.mons, selmon := 0 } root ptr root }, d1)
        else (t1, d1)) := by
  unfold updategeom
  simp only []
  rw [hr]
  simp only []
  split_ifs <;> rfl

/-- C13: in a state with the list invariants and a valid `selmon`, when Xinerama
reports `nn` distinct screens with `1 <= nn` and `nn` less than the number of
monitors, `updategeom` returns a state with `nn` monitors in which the list
invariants hold again (so no client is duplicated and every `mon` field is the
index of the containing monitor), `selmon` is one of the remaining monitors,
every client of a removed monitor is on the first monitor with `mon` pointing to
it and occurs exactly once in its client list and once in its focus stack, and
the managed windows are the same as before. -/
theorem updategeom_shrink (e : Env) (d : MonitorDefaults) (root : Window)
    (ptr : Option (Int × Int)) (info : List XineramaScreenInfo) (s : State)
    (hinv : s.listinv) (hsel : s.selmon < s.mons.length)
    (h1 : 1 ≤ (uniquegeoms info).length) (hlt : (uniquegeoms info).length < s.mons.length) :
    ∃ s1 dirty, updategeom e d root ptr (some info) s = some (s1, dirty) ∧
      s1.mons.length = (uniquegeoms info).length ∧ s1.listinv ∧
      s1.selmon < (uniquegeoms info).length ∧
      (∀ (j : Nat) (mj : Monitor) (w : Window), (uniquegeoms info).length ≤ j →
        s.mons[j]? = some mj → w ∈ mj.clients.map Client.win →
        ∃ m0 c1, s1.mons[0]? = some m0 ∧ m0.client? w = some c1 ∧ c1.mon = 0 ∧
          (m0.clients.map Client.win).count w = 1 ∧ m0.stack.count w = 1) ∧
      (∀ x : Window,
        (∃ (j : Nat) (mj : Monitor), s1.mons[j]? = some mj ∧ x ∈ mj.clients.map Client.win) ↔
        (∃ (j : Nat) (mj : Monitor), s.mons[j]? = some mj ∧ x ∈ mj.clients.map Client.win)) := by
  have hgrow : growmons d s.mons ((uniquegeoms info).length - s.mons.length) = s.mons := by
    rw [Nat.sub_eq_zero_of_le (Nat.le_of_lt hlt)]
    rfl
  have hlists := geomloop_lists e s.mons.length s.mons 0 (uniquegeoms info) 0
  have hlen : (geomloop e s.mons.length 0 (uniquegeoms info) s.mons 0).1.length
      = s.mons.length := by
    have := congrArg List.length hlists
    simpa using this
  have hinv_t : State.listinv { s with mons :=
      (geomloop e s.mons.length 0 (uniquegeoms info) s.mons 0).1 } :=
    listinv_of_lists _ s hlists hinv
  obtain ⟨t1, d1, hr, hlen1, hinv1, hsel1, ⟨m01, h01, ha⟩, hb, hcc⟩ :=
    removemons_inv (s.mons.length - (uniquegeoms info).length)
      { s with mons := (geomloop e s.mons.length 0 (uniquegeoms info) s.mons 0).1 }
      (geomloop e s.mons.length 0 (uniquegeoms info) s.mons 0).2
      (uniquegeoms info).length h1
      (by simp only []; rw [hlen]; omega) hinv_t (by simp only []; rw [hlen]; exact hsel)
  have hres := updategeom_xinerama e d root ptr info s t1 d1 (by rw [hgrow]; exact hr)
  have hmons : ∃ s1 dirty, updategeom e d root ptr (some info) s = some (s1, dirty) ∧
      s1.mons = t1.mons ∧ s1.selmon < (uniquegeoms info).length := by
    by_cases hd : d1 ≠ 0
    · rw [if_pos hd] at hres
      refine ⟨_, _, hres, rfl, ?_⟩
      have := wintomon_lt { mons := t1.mons, selmon := 0 } root ptr root hinv1
        (by simp only []; omega)
      simp only [] at this ⊢
      omega
    · rw [if_neg hd] at hres
      exact ⟨_, _, hres, rfl, hsel1⟩
  obtain ⟨s1, dirty, hs1, hm1, hsel2⟩ := hmons
  have hinv2 : s1.listinv := by
    have h : s1.mons.map (fun m => (m.clients, m.stack))
        = t1.mons.map (fun m => (m.clients, m.stack)) := by rw [hm1]
    exact listinv_of_lists s1 t1 h hinv1
  refine ⟨s1, dirty, hs1, by rw [hm1]; exact hlen1, hinv2, hsel2, ?_, ?_⟩
  · intro j mj w hj hmj hw
    obtain ⟨mj1, hj1, hc1, _⟩ := lists_get s.mons _ hlists.symm j mj hmj
    have hw1 : w ∈ m01.clients.map Client.win := ha j mj1 hj hj1 w (by rw [hc1]; exact hw)
    obtain ⟨c1, hfind⟩ := find_of_mem_wins m01.clients w hw1
    obtain ⟨hnd, hperm, hmon⟩ := ((listinv_iff t1).1 hinv1).1 0 m01 h01
    have hcount : (m01.clients.map Client.win).count w = 1 := List.count_eq_one_of_mem hnd hw1
    refine ⟨m01, c1, by rw [hm1]; exact h01, hfind, ?_, hcount, ?_⟩
    · exact hmon c1.mon (List.mem_map_of_mem _ (List.mem_of_find?_eq_some hfind))
    · rw [hperm.count_eq]
      exact hcount
  · intro x
    rw [hm1]
    constructor
    · rintro ⟨j, mj1, hj, hx⟩
      obtain ⟨i, mi, hi, hxi⟩ := hcc j mj1 x hj hx
      obtain ⟨mi1, h2, h3, _⟩ := lists_get _ s.mons hlists i mi hi
      exact ⟨i, mi1, h2, by rw [h3]; exact hxi⟩
    · rintro ⟨j, mj, hj, hx⟩
      obtain ⟨mj1, hj1, hc1, _⟩ := lists_get s.mons _ hlists.symm j mj hj
      by_cases hjn : j < (uniquegeoms info).length
      · obtain ⟨mj2, h2, hsub⟩ := hb j mj1 hjn hj1
        exact ⟨j, mj2, h2, hsub x (by rw [hc1]; exact hx)⟩
      · exact ⟨0, m01, h01, ha j mj1 (by omega) hj1 x (by rw [hc1]; exact hx)⟩

theorem updategeom_shrink_witness :
    State.three.listinv ∧ State.three.selmon < State.three.mons.length ∧
    1 ≤ (uniquegeoms [XineramaScreenInfo.sample, XineramaScreenInfo.sample]).length ∧
    (uniquegeoms [XineramaScreenInfo.sample, XineramaScreenInfo.sample]).length
      < State.three.mons.length ∧
    ∃ s1 dirty, updategeom Env.sample MonitorDefaults.sample 1 (some (5, 5))
        (some [XineramaScreenInfo.sample, XineramaScreenInfo.sample]) State.three
          = some (s1, dirty) ∧
      s1.mons.length = (uniquegeoms [XineramaScreenInfo.sample, XineramaScreenInfo.sample]).length ∧
      s1.listinv ∧
      s1.selmon < (uniquegeoms [XineramaScreenInfo.sample, XineramaScreenInfo.sample]).length :=
  ⟨by decide, by decide, by decide, by decide,
   (updategeom_shrink Env.sample MonitorDefaults.sample 1 (some (5, 5))
      [XineramaScreenInfo.sample, XineramaScreenInfo.sample] State.three
      (by decide) (by decide) (by decide) (by decide)).imp
    (fun _ h => h.imp (fun _ h2 => ⟨h2.1, h2.2.1, h2.2.2.1, h2.2.2.2.1⟩))⟩

/-- Three monitors reduced to one screen: the clients of the third and then of
the second monitor are attached at the head of the first monitor's lists. -/
theorem updategeom_sample :
    (updategeom Env.sample MonitorDefaults.sample 1 (some (5, 5))
      (some [XineramaScreenInfo.sample, XineramaScreenInfo.sample]) State.three).map
      (fun r => (r.1.mons.map (fun m => (m.clients.map (fun c => (c.win, c.mon)), m.stack)),
        r.1.selmon, r.2))
    = some ([([(8, 0), (10, 0), (9, 0), (7, 0)], [8, 10, 9, 7])], 0, 1) := by decide

/-! ## Clamping of proposed rectangles (C21, C22) -/

theorem applysizehintsClamp_size (e : Env) (m : Monitor) (c : Client) (x y w h i : Int) :
    (applysizehintsClamp e m c x y w h i).w = max (max 1 w) e.bh ∧
    (applysizehintsClamp e m c x y w h i).h = max (max 1 h) e.bh := by
  unfold applysizehintsClamp
  simp only []
  constructor
  · split_ifs <;> omega
  · split_ifs <;> omega

/-- C21: when no size hints are applied (`resizehints` off, the client tiled,
a tiling layout), the width and height that `applysizehints` hands on are the
proposed ones floored at 1 and then at `bh`, for both values of `interact`:
they are at least `max(1, bh)`, and a proposed width or height below `bh` comes
out as `max(1, bh)`, which is `bh` for a bar height of at least 1.  The same
holds for the result of the clamping steps in every case. -/
theorem applysizehints_floor (e : Env) (m : Monitor) (c : Client) (x y w h i : Int)
    (hr : e.resizehints = 0) (hf : c.isfloating = 0) (hl : (m.lt m.sellt).arrange ≠ none) :
    (applysizehints e m c x y w h i).2.1 = applysizehintsClamp e m c x y w h i ∧
    max 1 e.bh ≤ (applysizehints e m c x y w h i).2.1.w ∧
    max 1 e.bh ≤ (applysizehints e m c x y w h i).2.1.h ∧
    (w < e.bh → (applysizehints e m c x y w h i).2.1.w = max 1 e.bh) ∧
    (h < e.bh → (applysizehints e m c x y w h i).2.1.h = max 1 e.bh) ∧
    (1 ≤ e.bh → w < e.bh → (applysizehints e m c x y w h i).2.1.w = e.bh) ∧
    (1 ≤ e.bh → h < e.bh → (applysizehints e m c x y w h i).2.1.h = e.bh) ∧
    max 1 e.bh ≤ (applysizehintsClamp e m c x y w h i).w ∧
    max 1 e.bh ≤ (applysizehintsClamp e m c x y w h i).h := by
  have hg : (applysizehints e m c x y w h i).2.1 = applysizehintsClamp e m c x y w h i := by
    unfold applysizehints
    simp only []
    rw [if_neg]
    intro hc
    rcases hc with hc | hc | hc
    · exact hc hr
    · exact hc hf
    · exact hl hc
  obtain ⟨hw, hh⟩ := applysizehintsClamp_size e m c x y w h i
  rw [hg, hw, hh]
  refine ⟨rfl, ?_, ?_, ?_, ?_, ?_, ?_, ?_, ?_⟩ <;> omega

theorem applysizehints_floor_witness :
    Env.sample.resizehints = 0 ∧ Client.sample.isfloating = 0 ∧
    (Monitor.single.lt Monitor.single.sellt).arrange ≠ none ∧
    max 1 Env.sample.bh ≤ (applysizehints Env.sample Monitor.single Client.sample 0 0 3 (-5) 0).2.1.w ∧
    max 1 Env.sample.bh ≤ (applysizehints Env.sample Monitor.single Client.sample 0 0 3 (-5) 0).2.1.h :=
  ⟨by decide, by decide, by decide,
   (applysizehints_floor Env.sample Monitor.single Client.sample 0 0 3 (-5) 0
      (by decide) (by decide) (by decide)).2.1,
   (applysizehints_floor Env.sample Monitor.single Client.sample 0 0 3 (-5) 0
      (by decide) (by decide) (by decide)).2.2.1⟩

/-- A proposed 3 x (-5) rectangle at the origin comes out as 16 x 16 with the bar
height 16, moved down to the top of the work area. -/
theorem applysizehints_floor_sample :
    (applysizehints Env.sample Monitor.single Client.sample 0 0 3 (-5) 0).2.1
      = { x := 0, y := 16, w := 16, h := 16 } := by decide

/-- C22: for `interact = 0`, a work area of positive size, a client with
non-negative border width and positive current outer width and height, the
rectangle produced by the clamping steps of `applysizehints` for any proposed
rectangle starts left of the right edge and above the bottom edge of the work
area and its outer rectangle ends right of the left edge and below the top
edge: the outer rectangle overlaps the work area. -/
theorem applysizehints_overlap (e : Env) (m : Monitor) (c : Client) (x y w h : Int)
    (hww : 0 < m.ww) (hwh : 0 < m.wh) (hbw : 0 ≤ c.bw)
    (hcw : 0 < WIDTH c) (hch : 0 < HEIGHT c) :
    (applysizehintsClamp e m c x y w h 0).x < m.wx + m.ww ∧
    (applysizehintsClamp e m c x y w h 0).y < m.wy + m.wh ∧
    (applysizehintsClamp e m c x y w h 0).x + (applysizehintsClamp e m c x y w h 0).w
      + 2 * c.bw > m.wx ∧
    (applysizehintsClamp e m c x y w h 0).y + (applysizehintsClamp e m c x y w h 0).h
      + 2 * c.bw > m.wy := by
  unfold applysizehintsClamp
  simp only [ne_eq, not_true_eq_false, if_false]
  refine ⟨?_, ?_, ?_, ?_⟩ <;> split_ifs <;> omega

theorem applysizehints_overlap_witness :
    0 < Monitor.single.ww ∧ 0 < Monitor.single.wh ∧ 0 ≤ Client.sample.bw ∧
    0 < WIDTH Client.sample ∧ 0 < HEIGHT Client.sample ∧
    (applysizehintsClamp Env.sample Monitor.single Client.sample 5000 (-7000) 10 10 0).x
      < Monitor.single.wx + Monitor.single.ww ∧
    (applysizehintsClamp Env.sample Monitor.single Client.sample 5000 (-7000) 10 10 0).y
      < Monitor.single.wy + Monitor.single.wh :=
  ⟨by decide, by decide, by decide, by decide, by decide,
   (applysizehints_overlap Env.sample Monitor.single Client.sample 5000 (-7000) 10 10
      (by decide) (by decide) (by decide) (by decide) (by decide)).1,
   (applysizehints_overlap Env.sample Monitor.single Client.sample 5000 (-7000) 10 10
      (by decide) (by decide) (by decide) (by decide) (by decide)).2.1⟩

/-- A rectangle proposed far to the right of and above the work area is moved to
x = wx + ww - WIDTH(c) and y = wy. -/
theorem applysizehints_overlap_sample :
    applysizehintsClamp Env.sample Monitor.single Client.sample 5000 (-7000) 10 10 0
      = { x := 1118, y := 16, w := 16, h := 16 } := by decide

/-! ## No division by zero in `tile` (C25) -/

theorem tiledivisors_pos (m : Monitor) (n : Nat) (hn : n < 4294967296) :
    ∀ (cs : List Client) (i : Nat), i + tilecount m cs = n →
      ∀ d ∈ tiledivisors m n i cs, 1 ≤ d := by
  intro cs
  induction cs with
  | nil => intro i _ d hd; simp [tiledivisors] at hd
  | cons c cs ih =>
    intro i hi d hd
    unfold tiledivisors at hd
    by_cases hs : c.isfloating ≠ 0 ∨ ISVISIBLE m c = 0
    · rw [if_pos hs] at hd
      rw [tilecount_skip m c cs hs] at hi
      exact ih i hi d hd
    · rw [if_neg hs] at hd
      rw [tilecount_tiled m c cs hs] at hi
      have hrest : ∀ d ∈ tiledivisors m n (i + 1) cs, 1 ≤ d := ih (i + 1) (by omega)
      by_cases hm : i < u32 m.nmaster
      · rw [if_pos hm] at hd
        rcases List.mem_cons.1 hd with h | h
        · rw [h]
          unfold masterdiv usub
          unfold u32 at hm ⊢
          omega
        · exact hrest d h
      · rw [if_neg hm] at hd
        rcases List.mem_cons.1 hd with h | h
        · rw [h]
          unfold stackdiv usub
          omega
        · exact hrest d h

/-- C25: on a monitor whose client count fits the `unsigned int` counters, every
divisor the loop of `tile` uses is at least 1: `MIN(n, nmaster) - i` for a
master client and `n - i` for a stack client, where `n` is the number of tiled
clients; these are the expressions under `/` in the rectangles `tile` computes.
This holds for every value of `nmaster`, in particular for `nmaster >= 0`.  With
no tiled client `tile` returns the monitor unchanged. -/
theorem tile_divisors (e : Env) (m : Monitor) (hl : m.clients.length < 4294967296) :
    (∀ d ∈ tiledivisors m (tilecount m m.clients) 0 m.clients, 1 ≤ d) ∧
    (∀ (n mw i my : Nat) (c : Client),
      (tilemaster m n mw i my c).h
        = i32 (usub (usub (u32 m.wh) my / masterdiv m n i) (u32 (2 * c.bw)))) ∧
    (∀ (n mw i ty : Nat) (c : Client),
      (tilestack m n mw i ty c).h
        = i32 (usub (usub (u32 m.wh) ty / stackdiv n i) (u32 (2 * c.bw)))) ∧
    (tilecount m m.clients = 0 → tile e m = m) := by
  refine ⟨?_, fun _ _ _ _ _ => rfl, fun _ _ _ _ _ => rfl, ?_⟩
  · have hle := tilecount_le m m.clients
    exact tiledivisors_pos m _ (by omega) m.clients 0 (by omega)
  · intro hz
    unfold tile
    simp only []
    rw [if_pos hz]

theorem tile_divisors_witness :
    Monitor.triple.clients.length < 4294967296 ∧
    tiledivisors Monitor.triple (tilecount Monitor.triple Monitor.triple.clients) 0
      Monitor.triple.clients = [1, 2, 1] ∧
    ∀ d ∈ tiledivisors Monitor.triple (tilecount Monitor.triple Monitor.triple.clients) 0
      Monitor.triple.clients, 1 ≤ d :=
  ⟨by decide, by decide, (tile_divisors Env.sample Monitor.triple (by decide)).1⟩

/-! ## The monitor under a rectangle (C24) -/

theorem INTERSECT_nonneg (x y w h : Int) (m : Monitor) : 0 ≤ INTERSECT x y w h m := by
  unfold INTERSECT
  exact Int.mul_nonneg (le_max_left _ _) (le_max_left _ _)

/-- The loop of `recttomon`: either no monitor of the rest beats the current
area and the current result is returned, or the result is the first monitor of
the rest with the largest area, which is larger than the current area. -/
theorem recttomonloop_spec (x y w h : Int) :
    ∀ (ms : List Monitor) (i r : Nat) (area : Int),
      ((∀ m ∈ ms, INTERSECT x y w h m ≤ area) ∧ recttomonloop x y w h ms i r area = r) ∨
      (∃ (k : Nat) (mk : Monitor), ms[k]? = some mk ∧
        recttomonloop x y w h ms i r area = i + k ∧ area < INTERSECT x y w h mk ∧
        (∀ m ∈ ms, INTERSECT x y w h m ≤ INTERSECT x y w h mk) ∧
        (∀ (j : Nat) (mj : Monitor), j < k → ms[j]? = some mj →
          INTERSECT x y w h mj < INTERSECT x y w h mk)) := by
  intro ms
  induction ms with
  | nil =>
    intro i r area
    exact Or.inl ⟨fun m hm => absurd hm (List.not_mem_nil m), rfl⟩
  | cons m ms ih =>
    intro i r area
    unfold recttomonloop
    by_cases hgt : INTERSECT x y w h m > area
    · rw [if_pos hgt]
      rcases ih (i + 1) i (INTERSECT x y w h m) with ⟨hall, hres⟩ | ⟨k, mk, hk, hres, hlt, hall, hfirst⟩
      · refine Or.inr ⟨0, m, by simp, by rw [hres]; rfl, hgt, ?_, ?_⟩
        · intro m1 hm1
          rcases List.mem_cons.1 hm1 with h1 | h1
          · rw [h1]
          · exact hall m1 h1
        · intro j mj hj _
          exact absurd hj (Nat.not_lt_zero j)
      · refine Or.inr ⟨k + 1, mk, by simpa using hk, by rw [hres]; omega, by omega, ?_, ?_⟩
        · intro m1 hm1
          rcases List.mem_cons.1 hm1 with h1 | h1
          · rw [h1]; omega
          · exact hall m1 h1
        · intro j mj hj hmj
          cases j with
          | zero =>
            have : m = mj := by simpa using hmj
            rw [← this]
            exact hlt
          | succ j => exact hfirst j mj (by omega) (by simpa using hmj)
    · rw [if_neg hgt]
      rcases ih (i + 1) r area with ⟨hall, hres⟩ | ⟨k, mk, hk, hres, hlt, hall, hfirst⟩
      · refine Or.inl ⟨?_, hres⟩
        intro m1 hm1
        rcases List.mem_cons.1 hm1 with h1 | h1
        · rw [h1]; omega
        · exact hall m1 h1
      · refine Or.inr ⟨k + 1, mk, by simpa using hk, by rw [hres]; omega, hlt, ?_, ?_⟩
        · intro m1 hm1
          rcases List.mem_cons.1 hm1 with h1 | h1
          · rw [h1]; omega
          · exact hall m1 h1
        · intro j mj hj hmj
          cases j with
          | zero =>
            have : m = mj := by simpa using hmj
            rw [← this]
            omega
          | succ j => exact hfirst j mj (by omega) (by simpa using hmj)

theorem INTERSECT_point (px py : Int) (m : Monitor) :
    INTERSECT px py 1 1 m
      = if (m.wx ≤ px ∧ px < m.wx + m.ww) ∧ (m.wy ≤ py ∧ py < m.wy + m.wh) then 1 else 0 := by
  have hx : max 0 (min (px + 1) (m.wx + m.ww) - max px m.wx)
      = if m.wx ≤ px ∧ px < m.wx + m.ww then 1 else 0 := by
    split_ifs <;> omega
  have hy : max 0 (min (py + 1) (m.wy + m.wh) - max py m.wy)
      = if m.wy ≤ py ∧ py < m.wy + m.wh then 1 else 0 := by
    split_ifs <;> omega
  unfold INTERSECT
  rw [hx, hy]
  by_cases h1 : m.wx ≤ px ∧ px < m.wx + m.ww <;>
    by_cases h2 : m.wy ≤ py ∧ py < m.wy + m.wh <;> simp [h1, h2]


/-- C24 (as amended): `recttomon` returns `selmon` when the rectangle intersects
no monitor's work area; otherwise it returns the first monitor in list order
whose work-area intersection with the rectangle is maximal.  For a 1x1
rectangle at a pointer position inside the work area of some monitor it returns
the first monitor whose work area contains the pointer.  Areas are taken in the
integers. -/
theorem recttomon_max (s : State) (x y w h : Int) :
    ((∀ m ∈ s.mons, INTERSECT x y w h m = 0) → recttomon s x y w h = s.selmon) ∧
    ((∃ m ∈ s.mons, 0 < INTERSECT x y w h m) →
      ∃ mr, s.mons[recttomon s x y w h]? = some mr ∧
        (∀ m ∈ s.mons, INTERSECT x y w h m ≤ INTERSECT x y w h mr) ∧
        (∀ (j : Nat) (mj : Monitor), j < recttomon s x y w h → s.mons[j]? = some mj →
          INTERSECT x y w h mj < INTERSECT x y w h mr)) ∧
    (∀ px py : Int,
      (∃ m ∈ s.mons, (m.wx ≤ px ∧ px < m.wx + m.ww) ∧ (m.wy ≤ py ∧ py < m.wy + m.wh)) →
      ∃ mr, s.mons[recttomon s px py 1 1]? = some mr ∧
        ((mr.wx ≤ px ∧ px < mr.wx + mr.ww) ∧ (mr.wy ≤ py ∧ py < mr.wy + mr.wh)) ∧
        (∀ (j : Nat) (mj : Monitor), j < recttomon s px py 1 1 → s.mons[j]? = some mj →
          ¬ ((mj.wx ≤ px ∧ px < mj.wx + mj.ww) ∧ (mj.wy ≤ py ∧ py < mj.wy + mj.wh)))) := by
  have hpos : ∀ (a b c d : Int), (∃ m ∈ s.mons, 0 < INTERSECT a b c d m) →
      ∃ mr, s.mons[recttomon s a b c d]? = some mr ∧ 0 < INTERSECT a b c d mr ∧
        (∀ m ∈ s.mons, INTERSECT a b c d m ≤ INTERSECT a b c d mr) ∧
        (∀ (j : Nat) (mj : Monitor), j < recttomon s a b c d → s.mons[j]? = some mj →
          INTERSECT a b c d mj < INTERSECT a b c d mr) := by
    intro a b c d hex
    obtain ⟨m0, hm0, hm0pos⟩ := hex
    unfold recttomon
    rcases recttomonloop_spec a b c d s.mons 0 s.selmon 0 with
      ⟨hall, _⟩ | ⟨k, mk, hk, hres, hlt, hall, hfirst⟩
    · have := hall m0 hm0
      omega
    · rw [hres, Nat.zero_add]
      exact ⟨mk, hk, hlt, hall, hfirst⟩
  refine ⟨?_, ?_, ?_⟩
  · intro hzero
    unfold recttomon
    rcases recttomonloop_spec x y w h s.mons 0 s.selmon 0 with
      ⟨_, hres⟩ | ⟨k, mk, hk, _, hlt, _, _⟩
    · exact hres
    · have := hzero mk (List.getElem?_mem hk)
      omega
  · intro hex
    obtain ⟨mr, h1, _, h3, h4⟩ := hpos x y w h hex
    exact ⟨mr, h1, h3, h4⟩
  · intro px py hex
    obtain ⟨m0, hm0, hin⟩ := hex
    have hex2 : ∃ m ∈ s.mons, 0 < INTERSECT px py 1 1 m := by
      refine ⟨m0, hm0, ?_⟩
      rw [INTERSECT_point, if_pos hin]
      decide
    obtain ⟨mr, h1, h2, _, h4⟩ := hpos px py 1 1 hex2
    have hr1 : INTERSECT px py 1 1 mr = 1 := by
      have := INTERSECT_point px py mr
      split_ifs at this <;> omega
    refine ⟨mr, h1, ?_, ?_⟩
    · by_contra hn
      rw [INTERSECT_point, if_neg hn] at h2
      exact absurd h2 (by decide)
    · intro j mj hj hmj hn
      have := h4 j mj hj hmj
      rw [INTERSECT_point, if_pos hn, hr1] at this
      exact absurd this (by decide)

/-- C24 (as stated) fails: two monitors side by side with a bar of 16 pixels on
top, the first one selected.  The pointer at (2000, 5) is inside the screen
rectangle of the second monitor (over its bar) and outside that of the first,
but the 1x1 rectangle there meets no work area and `recttomon` returns the
selected (first) monitor; so does `wintomon` for the root window. -/
theorem recttomon_over_bar :
    State.dual.mons[1]? = some Monitor.second ∧
    (Monitor.second.mx ≤ 2000 ∧ 2000 < Monitor.second.mx + Monitor.second.mw ∧
      Monitor.second.my ≤ 5 ∧ 5 < Monitor.second.my + Monitor.second.mh) ∧
    State.dual.mons[0]? = some Monitor.single ∧
    ¬ (Monitor.single.mx ≤ 2000 ∧ 2000 < Monitor.single.mx + Monitor.single.mw ∧
      Monitor.single.my ≤ 5 ∧ 5 < Monitor.single.my + Monitor.single.mh) ∧
    recttomon State.dual 2000 5 1 1 = 0 ∧
    wintomon State.dual 1 (some (2000, 5)) 1 = 0 := by
  decide

/-- With the pointer inside the work area of the second monitor `recttomon`
returns the second monitor. -/
theorem recttomon_sample :
    recttomon State.dual 2000 500 1 1 = 1 ∧ recttomon State.dual 1900 500 100 100 = 1 ∧
    recttomon State.dual (-50) (-50) 10 10 = 0 := by
  decide

/-! ## Text properties and the status text (C23) -/

theorem cstr_length_le (l : List Nat) : ∀ i : Nat, l[i]? = some 0 → (cstr l).length ≤ i := by
  induction l with
  | nil => intro i h; simp at h
  | cons a as ih =>
    intro i h
    unfold cstr
    by_cases ha : a = 0
    · rw [List.takeWhile_cons_of_neg (by simp [ha])]
      simp
    · rw [List.takeWhile_cons_of_pos (by simp [ha])]
      cases i with
      | zero =>
        simp at h
        exact absurd h ha
      | succ i =>
        simp only [List.length_cons]
        have := ih i (by simpa using h)
        unfold cstr at this
        omega

theorem cstr_nil_of_head (l : List Nat) (h : l[0]? = some 0) : cstr l = [] := by
  have := cstr_length_le l 0 h
  exact List.length_eq_zero.1 (by omega)

theorem cstr_append_zero (a r : List Nat) (h : ∀ b ∈ a, b ≠ 0) : cstr (a ++ 0 :: r) = a := by
  induction a with
  | nil =>
    unfold cstr
    rw [List.nil_append, List.takeWhile_cons_of_neg (by simp)]
  | cons b bs ih =>
    unfold cstr
    rw [List.cons_append, List.takeWhile_cons_of_pos (by simpa using h b (List.mem_cons_self _ _))]
    have := ih (fun x hx => h x (List.mem_cons_of_mem _ hx))
    unfold cstr at this
    rw [this]

theorem cstr_nonzero (l : List Nat) : ∀ b ∈ cstr l, b ≠ 0 := by
  intro b hb
  have := List.mem_takeWhile_imp hb
  simpa using this

theorem strncpy_length (dst src : List Nat) (n : Nat) (h : n ≤ dst.length) :
    (strncpy dst src n).length = dst.length := by
  unfold strncpy
  simp only [List.length_append, List.length_take, List.length_replicate, List.length_drop]
  omega

theorem set_last_zero (t : List Nat) (size : Nat) (hs : 1 ≤ size) (hl : t.length = size) :
    (t.set (size - 1) 0).length = size ∧ 0 ∈ t.set (size - 1) 0 ∧
    (cstr (t.set (size - 1) 0)).length ≤ size - 1 := by
  have hget : (t.set (size - 1) 0)[size - 1]? = some 0 := by
    rw [List.getElem?_set, if_pos rfl, if_pos (by omega)]
  refine ⟨by simp [hl], List.getElem?_mem hget, cstr_length_le _ _ hget⟩

theorem set_head_zero (t : List Nat) (size : Nat) (hs : 1 ≤ size) (hl : t.length = size) :
    (t.set 0 0).length = size ∧ 0 ∈ t.set 0 0 ∧ cstr (t.set 0 0) = [] := by
  have hget : (t.set 0 0)[0]? = some 0 := by
    rw [List.getElem?_set, if_pos rfl, if_pos (by omega)]
  exact ⟨by simp [hl], List.getElem?_mem hget, cstr_nil_of_head _ hget⟩


theorem gettextprop_absent (prop : Option XTextProperty) (mb : TextList) (buf : List Nat)
    (size : Nat) (hs : 1 ≤ size)
    (h : prop = none ∨ ∃ p, prop = some p ∧ p.nitems = 0) :
    gettextprop prop mb (some buf) size = (0, some (buf.set 0 0)) := by
  have hs0 : ¬ size = 0 := by omega
  unfold gettextprop
  simp only [if_neg hs0]
  rcases h with h | ⟨p, hp, hn⟩
  · rw [h]
  · rw [hp]
    simp only [if_pos hn]

theorem gettextprop_present (p : XTextProperty) (mb : TextList) (buf : List Nat)
    (size : Nat) (hs : 1 ≤ size) (hl : buf.length = size) (hn : p.nitems ≠ 0) :
    ∃ t : List Nat, t.length = size ∧ gettextprop (some p) mb (some buf) size
      = (1, some (t.set (size - 1) 0)) := by
  have hs0 : ¬ size = 0 := by omega
  have hb : (buf.set 0 0).length = size := by simp [hl]
  have hcp : ∀ src, (strncpy (buf.set 0 0) src (size - 1)).length = size := by
    intro src
    rw [strncpy_length _ _ _ (by omega), hb]
  unfold gettextprop
  simp only [if_neg hs0, if_neg hn]
  refine ⟨_, ?_, rfl⟩
  split_ifs
  · exact hcp _
  · split
    · exact hcp _
    · exact hb
  · exact hb

/-- C23: for every outcome of the property queries and every buffer of
`size >= 1` bytes, `gettextprop` leaves a buffer of the same size that contains
a NUL byte and holds a string of at most `size - 1` bytes; when the property is
missing or has no items it returns 0 and the string is empty, otherwise it
returns 1.  Hence `updatestatus` leaves the 256 bytes of `stext` with a string
of at most 255 bytes, which is `"dwm-"VERSION` when the root name property is
missing or empty (`VERSION` being short enough for `strcpy` to stay within
`stext`). -/
theorem gettextprop_terminated (prop : Option XTextProperty) (mb : TextList)
    (buf : List Nat) (size : Nat) (version stext : List Nat)
    (hs : 1 ≤ size) (hl : buf.length = size) (hst : stext.length = 256)
    (hv : version.length ≤ 251) :
    (∃ out, (gettextprop prop mb (some buf) size).2 = some out ∧ out.length = size ∧
      0 ∈ out ∧ (cstr out).length ≤ size - 1 ∧
      ((prop = none ∨ ∃ p, prop = some p ∧ p.nitems = 0) →
        (gettextprop prop mb (some buf) size).1 = 0 ∧ cstr out = []) ∧
      ((∃ p, prop = some p ∧ p.nitems ≠ 0) → (gettextprop prop mb (some buf) size).1 = 1)) ∧
    (∃ out, updatestatus version prop mb stext = some out ∧ out.length = 256 ∧
      0 ∈ out ∧ (cstr out).length ≤ 255 ∧
      ((prop = none ∨ ∃ p, prop = some p ∧ p.nitems = 0) →
        cstr out = cstr ([100, 119, 109, 45] ++ version))) := by
  have hcase : (prop = none ∨ ∃ p, prop = some p ∧ p.nitems = 0) ∨
      (∃ p, prop = some p ∧ p.nitems ≠ 0) := by
    cases prop with
    | none => exact Or.inl (Or.inl rfl)
    | some p =>
      by_cases hn : p.nitems = 0
      · exact Or.inl (Or.inr ⟨p, rfl, hn⟩)
      · exact Or.inr ⟨p, rfl, hn⟩
  have hexcl : (prop = none ∨ ∃ p, prop = some p ∧ p.nitems = 0) →
      ¬ (∃ p, prop = some p ∧ p.nitems ≠ 0) := by
    rintro (h | ⟨p, hp, hn⟩) ⟨q, hq, hqn⟩
    · rw [h] at hq
      exact Option.noConfusion hq
    · rw [hp] at hq
      have : p = q := Option.some.inj hq
      exact hqn (this ▸ hn)
  constructor
  · rcases hcase with habs | ⟨p, hp, hn⟩
    · rw [gettextprop_absent prop mb buf size hs habs]
      obtain ⟨h1, h2, h3⟩ := set_head_zero buf size hs hl
      refine ⟨_, rfl, h1, h2, by rw [h3]; exact Nat.zero_le _, fun _ => ⟨rfl, h3⟩, ?_⟩
      intro hpres
      exact absurd hpres (hexcl habs)
    · subst hp
      obtain ⟨t, ht, hg⟩ := gettextprop_present p mb buf size hs hl hn
      rw [hg]
      obtain ⟨h1, h2, h3⟩ := set_last_zero t size hs ht
      refine ⟨_, rfl, h1, h2, h3, ?_, fun _ => rfl⟩
      intro habs
      exact absurd ⟨p, rfl, hn⟩ (hexcl habs)
  · have hfb : (cstr ([100, 119, 109, 45] ++ version)).length + 1 ≤ 256 := by
      have h1 : (cstr ([100, 119, 109, 45] ++ version)).length
          ≤ ([100, 119, 109, 45] ++ version).length :=
        (List.takeWhile_sublist _).length_le
      simp only [List.length_append, List.length_cons, List.length_nil] at h1
      omega
    rcases hcase with habs | ⟨p, hp, hn⟩
    · unfold updatestatus
      simp only [gettextprop_absent prop mb stext 256 (by decide) habs]
      obtain ⟨h1, _, _⟩ := set_head_zero stext 256 (by decide) hst
      have hcond : (cstr ([100, 119, 109, 45] ++ version)).length + 1
          ≤ (stext.set 0 0).length := by
        rw [h1]
        exact hfb
      unfold strcpy
      rw [if_pos hcond]
      have hc : cstr (cstr ([100, 119, 109, 45] ++ version) ++ [0]
          ++ (stext.set 0 0).drop ((cstr ([100, 119, 109, 45] ++ version)).length + 1))
          = cstr ([100, 119, 109, 45] ++ version) := by
        rw [List.append_assoc]
        exact cstr_append_zero _ _ (cstr_nonzero _)
      refine ⟨_, rfl, ?_, ?_, ?_, fun _ => hc⟩
      · simp only [List.length_append, List.length_drop, List.length_cons, List.length_nil, h1]
        omega
      · simp
      · rw [hc]
        omega
    · subst hp
      obtain ⟨t, ht, hg⟩ := gettextprop_present p mb stext 256 (by decide) hst hn
      unfold updatestatus
      simp only [hg]
      obtain ⟨h1, h2, h3⟩ := set_last_zero t 256 (by decide) ht
      refine ⟨_, rfl, h1, h2, h3, ?_⟩
      intro habs
      exact absurd ⟨p, rfl, hn⟩ (hexcl habs)


theorem gettextprop_terminated_witness :
    1 ≤ 8 ∧ stale8.length = 8 ∧ stale256.length = 256 ∧ version65.length ≤ 251 ∧
    (∃ out, updatestatus version65 none TextList.failed stale256 = some out ∧
      out.length = 256 ∧ 0 ∈ out ∧ (cstr out).length ≤ 255 ∧
      (((none : Option XTextProperty) = none ∨
          ∃ p, (none : Option XTextProperty) = some p ∧ p.nitems = 0) →
        cstr out = cstr ([100, 119, 109, 45] ++ version65))) :=
  ⟨by decide, by decide, List.length_replicate 256 120, by decide,
   (gettextprop_terminated none TextList.failed stale8 8 version65 stale256
      (by decide) (by decide) (List.length_replicate 256 120) (by decide)).2⟩

/-- A ten byte property in a buffer of eight bytes is cut after seven bytes; a
short one is padded; a property in another encoding whose conversion fails
gives the empty string; a missing property gives 0 and the empty string. -/
theorem gettextprop_sample :
    gettextprop (some XTextProperty.sample) TextList.failed (some stale8) 8
      = (1, some [97, 98, 99, 100, 101, 102, 103, 0]) ∧
    gettextprop (some { value := [97, 98], encoding := 31, nitems := 2 }) TextList.failed
      (some stale8) 8 = (1, some [97, 98, 0, 0, 0, 0, 0, 0]) ∧
    gettextprop (some { value := [97, 98], encoding := 40, nitems := 2 }) TextList.failed
      (some stale8) 8 = (1, some [0, 120, 120, 120, 120, 120, 120, 0]) ∧
    gettextprop (some { value := [97, 98], encoding := 40, nitems := 2 })
      { status := 0, n := 1, first := some [99, 100] }
      (some stale8) 8 = (1, some [99, 100, 0, 0, 0, 0, 0, 0]) ∧
    gettextprop none TextList.failed (some stale8) 8
      = (0, some [0, 120, 120, 120, 120, 120, 120, 120]) ∧
    gettextprop (some XTextProperty.sample) TextList.failed (some stale8) 0
      = (0, some stale8) ∧
    gettextprop (some XTextProperty.sample) TextList.failed none 8 = (0, none) := by
  decide

set_option maxRecDepth 8000 in
/-- Without a root name property the status text is `"dwm-6.5"`; with the sample
property it is the text of the property. -/
theorem updatestatus_sample :
    (updatestatus version65 none TextList.failed stale256).map cstr
      = some [100, 119, 109, 45, 54, 46, 53] ∧
    (updatestatus version65 (some XTextProperty.sample) TextList.failed stale256).map cstr
      = some [97, 98, 99, 100, 101, 102, 103, 104, 105, 106] := by
  decide

end Dwm
